import Mathlib

/-!
# Fitness-activity metrics: a verification development

The program under study (`main.go`) computes distance, mean speed and burned
calories for three kinds of training session (running, walking, swimming) and
formats a textual report.  All derived quantities are `float64` values, so the
development starts with an executable model of IEEE-754 binary64 arithmetic
(round to nearest, ties to even, every operation rounded on its own, as the Go
compiler emits it where it does not fuse multiply-add), then embeds the Go
functions over it.

Finite magnitudes are measured in units of the least subnormal `2 ^ (-1074)`:
the pair `(m, k)` stands for `m * 2 ^ k` such units, that is `m * 2 ^ (k - 1074)`.
-/

set_option exponentiation.threshold 10000
set_option maxRecDepth 100000

/-! ## Binary64 values -/

/-- The finite magnitudes of binary64 are `m * 2 ^ (k - 1074)` with a 53-bit
significand; normal numbers have `2 ^ 52 ≤ m`, subnormal numbers and zero sit
at the least exponent `k = 0`; the greatest exponent is `k = 2045`. -/
def validFin (m k : Nat) : Prop :=
  m < 2 ^ 53 ∧ k ≤ 2045 ∧ (m < 2 ^ 52 → k = 0)

instance validFin.instDecidable (m k : Nat) : Decidable (validFin m k) := by
  unfold validFin
  infer_instance

/-- A `float64`: not-a-number, a signed infinity, or the signed finite value
`(-1) ^ neg * m * 2 ^ (k - 1074)`.  NaN payloads are not distinguished. -/
inductive F64 where
  | nan : F64
  | inf (neg : Bool) : F64
  | fin (neg : Bool) (m k : Nat) (h : validFin m k) : F64
  deriving DecidableEq

namespace F64

/-- Signed zero. -/
def zero (neg : Bool) : F64 := .fin neg 0 0 (by decide)

/-- Test `math.IsNaN`. -/
def isNaN : F64 → Bool
  | .nan => true
  | _ => false

/-- Test `math.IsInf(x, 0)`. -/
def isInf : F64 → Bool
  | .inf _ => true
  | _ => false

/-- Neither NaN nor infinite. -/
def isFinite : F64 → Bool
  | .fin _ _ _ _ => true
  | _ => false

/-- Positive or negative zero. -/
def isZero : F64 → Bool
  | .fin _ m _ _ => decide (m = 0)
  | _ => false

end F64

/-! ## Rounding -/

/-- Bit length with explicit fuel. -/
def bitLenAux : Nat → Nat → Nat
  | 0, _ => 0
  | fuel + 1, n => if n = 0 then 0 else bitLenAux fuel (n / 2) + 1

/-- Bit length by binary search, for `n < 2 ^ 2 ^ j`. -/
def bitLenBin : Nat → Nat → Nat
  | 0, n => if n = 0 then 0 else 1
  | j + 1, n =>
    if 2 ^ 2 ^ j ≤ n then 2 ^ j + bitLenBin j (n / 2 ^ 2 ^ j) else bitLenBin j n

/-- Number of binary digits of `n` (`0` for `0`). -/
def bitLen (n : Nat) : Nat := if n < 2 ^ 2 ^ 13 then bitLenBin 13 n else bitLenAux n n

/-- Integer nearest to `q + r / den`, ties to the even neighbour. -/
def roundNearestEven (q r den : Nat) : Nat :=
  if 2 * r < den then q
  else if den < 2 * r then q + 1
  else if q % 2 = 0 then q else q + 1

/-- Assemble a finite result, overflowing to infinity above the largest exponent. -/
def pack (neg : Bool) (m k : Nat) : F64 :=
  if 2045 < k then .inf neg
  else if h : validFin m k then .fin neg m k h
  else .nan

/-- Round `n / d` units to a significand at exponent `k`, renormalising on
carry-out of the significand. -/
def roundAt (neg : Bool) (n d k : Nat) : F64 :=
  if roundNearestEven (n / (d * 2 ^ k)) (n % (d * 2 ^ k)) (d * 2 ^ k) = 2 ^ 53
  then pack neg (2 ^ 52) (k + 1)
  else pack neg (roundNearestEven (n / (d * 2 ^ k)) (n % (d * 2 ^ k)) (d * 2 ^ k)) k

/-- Exponent at which `n / d` units have a 53-bit integer part, or `0` (the
subnormal exponent) when the value is too small for that. -/
def pickExp (n d : Nat) : Nat :=
  if 2 ^ 53 ≤ n / (d * 2 ^ (bitLen n - (bitLen d + 53)))
  then bitLen n - (bitLen d + 53) + 1
  else bitLen n - (bitLen d + 53)

/-- Round the magnitude of `n / d` units of `2 ^ (-1074)` to the nearest
binary64 (ties to even) and attach the sign `neg`. -/
def roundQ (neg : Bool) (n d : Nat) : F64 :=
  if d = 0 then .nan
  else if n = 0 then F64.zero neg
  else roundAt neg n d (pickExp n d)

/-- Round the non-negative rational `n / d`. -/
def roundRat (neg : Bool) (n d : Nat) : F64 := roundQ neg (n * 2 ^ 1074) d

namespace F64

/-- Conversion `float64(i)` of an integer. -/
def ofInt (i : Int) : F64 := roundRat (decide (i < 0)) i.natAbs 1

/-- The `float64` denoted by the positive decimal constant `n / d`. -/
def ofRat (n d : Nat) : F64 := roundRat false n d

/-- Sign-carrying integer `± k`. -/
def signed (neg : Bool) (k : Nat) : Int := if neg then -(k : Int) else (k : Int)

/-- Floating-point `x + y`. -/
def add : F64 → F64 → F64
  | .nan, _ => .nan
  | _, .nan => .nan
  | .inf a, .inf b => if a = b then .inf a else .nan
  | .inf a, .fin _ _ _ _ => .inf a
  | .fin _ _ _ _, .inf b => .inf b
  | .fin s1 m1 k1 _, .fin s2 m2 k2 _ =>
    if signed s1 (m1 * 2 ^ k1) + signed s2 (m2 * 2 ^ k2) = 0
    then (if m1 = 0 ∧ m2 = 0 then zero (s1 && s2) else zero false)
    else roundQ (decide (signed s1 (m1 * 2 ^ k1) + signed s2 (m2 * 2 ^ k2) < 0))
      (signed s1 (m1 * 2 ^ k1) + signed s2 (m2 * 2 ^ k2)).natAbs 1

/-- Floating-point `x * y`. -/
def mul : F64 → F64 → F64
  | .nan, _ => .nan
  | _, .nan => .nan
  | .inf a, .inf b => .inf (xor a b)
  | .inf a, .fin b m _ _ => if m = 0 then .nan else .inf (xor a b)
  | .fin a m _ _, .inf b => if m = 0 then .nan else .inf (xor a b)
  | .fin s1 m1 k1 _, .fin s2 m2 k2 _ =>
    if m1 = 0 ∨ m2 = 0 then zero (xor s1 s2)
    else roundQ (xor s1 s2) (m1 * m2 * 2 ^ (k1 + k2)) (2 ^ 1074)

/-- Floating-point `x / y`. -/
def div : F64 → F64 → F64
  | .nan, _ => .nan
  | _, .nan => .nan
  | .inf _, .inf _ => .nan
  | .inf a, .fin b _ _ _ => .inf (xor a b)
  | .fin a _ _ _, .inf b => zero (xor a b)
  | .fin s1 m1 k1 _, .fin s2 m2 k2 _ =>
    if m2 = 0 then (if m1 = 0 then .nan else .inf (xor s1 s2))
    else if m1 = 0 then zero (xor s1 s2)
    else roundQ (xor s1 s2) (m1 * 2 ^ k1 * 2 ^ 1074) (m2 * 2 ^ k2)

/-- Go's `x == y` on floats: NaN equals nothing, the two zeros are equal. -/
def eqb : F64 → F64 → Bool
  | .nan, _ => false
  | _, .nan => false
  | .inf a, .inf b => a == b
  | .inf _, .fin _ _ _ _ => false
  | .fin _ _ _ _, .inf _ => false
  | .fin s1 m1 k1 _, .fin s2 m2 k2 _ =>
    decide (signed s1 (m1 * 2 ^ k1) = signed s2 (m2 * 2 ^ k2))

/-- Go's `x < y` on floats. -/
def ltb : F64 → F64 → Bool
  | .nan, _ => false
  | _, .nan => false
  | .inf a, .inf b => a && !b
  | .inf a, .fin _ _ _ _ => a
  | .fin _ _ _ _, .inf b => !b
  | .fin s1 m1 k1 _, .fin s2 m2 k2 _ =>
    decide (signed s1 (m1 * 2 ^ k1) < signed s2 (m2 * 2 ^ k2))

end F64

/-! ## Library functions used by the program -/

/-- Go's `time.Duration`: a signed 64-bit count of nanoseconds. -/
abbrev Duration := Int

/-- Constant `time.Minute`. -/
def Minute : Duration := 60000000000

/-- Constant `time.Hour`. -/
def Hour : Duration := 3600000000000

/-- Method `time.Duration.Hours`: whole hours plus the remaining nanoseconds
over `60*60*1e9`, both parts converted to `float64` first. -/
def Duration.Hours (d : Duration) : F64 :=
  F64.add (F64.ofInt (Int.tdiv d Hour)) (F64.div (F64.ofInt (Int.tmod d Hour)) (F64.ofInt 3600000000000))

/-- Method `time.Duration.Minutes`. -/
def Duration.Minutes (d : Duration) : F64 :=
  F64.add (F64.ofInt (Int.tdiv d Minute)) (F64.div (F64.ofInt (Int.tmod d Minute)) (F64.ofInt 60000000000))

/-- Wrap-around of a mathematical integer into the signed 64-bit range of `int`. -/
def wrapInt64 (x : Int) : Int := (x + 2 ^ 63) % 2 ^ 64 - 2 ^ 63

namespace math

/-- Function `math.Frexp` on a finite non-zero argument: `x = frac * 2 ^ exp`
with `1/2 ≤ |frac| < 1`.  Zero, infinities and NaN are returned unchanged with
exponent `0`. -/
def Frexp : F64 → F64 × Int
  | .fin s m k h =>
    if m = 0 then (.fin s m k h, 0)
    else (pack s (m * 2 ^ (53 - bitLen m)) 1021, (k : Int) - 1074 + (bitLen m : Int))
  | x => (x, 0)

/-- Function `math.Ldexp`: `frac * 2 ^ exp`, rounded once when the result is
subnormal, zero below half the least subnormal, infinite above the range. -/
def Ldexp (frac : F64) (exp : Int) : F64 :=
  match frac with
  | .fin s m k h =>
    if m = 0 then .fin s m k h
    else roundQ s (m * 2 ^ k * 2 ^ exp.toNat) (2 ^ (-exp).toNat)
  | x => x

/-- Call `math.Pow(x, 2)`, following the portable implementation: the special
cases first, then one squaring of the `Frexp` fraction (the exponent loop runs
for the bits of `yi = 2`), and a final `Ldexp`. -/
def PowTwo (x : F64) : F64 :=
  if x.eqb (F64.ofInt 1) then F64.ofInt 1
  else if x.isNaN then .nan
  else if x.isZero then F64.zero false
  else if x.isInf then .inf false
  else
    let fe := Frexp x
    let sq := F64.mul fe.1 fe.1
    let xe := 2 * fe.2
    let x1 := if sq.ltb (F64.ofRat 1 2) then F64.add sq sq else sq
    let xe1 := if sq.ltb (F64.ofRat 1 2) then xe - 1 else xe
    Ldexp (F64.mul (F64.ofInt 1) x1) (0 + xe1)

end math

/-! ## Text formatting (`fmt.Sprintf` verbs used by the report) -/

namespace fmt

/-- Decimal digits of a natural number. -/
def digits (n : Nat) : List Char := Nat.toDigits 10 n

/-- Left-pad a digit string with zeros to width `k`. -/
def padZeros (k : Nat) (cs : List Char) : List Char := List.replicate (k - cs.length) '0' ++ cs

/-- Verb `%.<prec>f`: the exact value rounded (half to even) to `prec` decimals. -/
def fixed (prec : Nat) : F64 → String
  | .nan => "NaN"
  | .inf s => if s then "-Inf" else "+Inf"
  | .fin s m k _ =>
    let num := m * 2 ^ k * 10 ^ prec
    let den := 2 ^ 1074
    let q := roundNearestEven (num / den) (num % den) den
    String.mk ((if s then ['-'] else []) ++ digits (q / 10 ^ prec)
      ++ (if prec = 0 then [] else '.' :: padZeros prec (digits (q % 10 ^ prec))))

/-- Search for the decimal exponent of a value below one: the least `j` with
`n * 10 ^ j ≥ d`, by bounded search. -/
def negExp10 : Nat → Nat → Nat → Nat → Nat
  | 0, _, _, j => j
  | fuel + 1, n, d, j => if d ≤ n * 10 ^ j then j else negExp10 fuel n d (j + 1)

/-- Decimal exponent `k` with `10 ^ k ≤ n / d < 10 ^ (k + 1)` for `n, d > 0`. -/
def exp10 (n d : Nat) : Int :=
  if d ≤ n then ((digits (n / d)).length : Int) - 1
  else -(negExp10 400 n d 1 : Int)

/-- Candidate `nd`-digit decimal significands around `n / d`, with the distance
ordering needed to pick the nearer one: returns the chosen significand if one
of the two neighbours converts back to the same `float64`. -/
def shortestAt (x : F64) (n d : Nat) (k : Int) (nd : Nat) : Option Nat :=
  let s : Int := k - (nd : Int) + 1
  let num := n * 10 ^ (-s).toNat
  let den := d * 10 ^ s.toNat
  let lo := num / den
  let r := num % den
  let back (c : Nat) : Bool := decide (roundRat false (c * 10 ^ s.toNat) (10 ^ (-s).toNat) = x)
  let okLo := back lo
  let okHi := back (lo + 1)
  if okLo && okHi then some (roundNearestEven lo r den)
  else if okLo then some lo
  else if okHi then some (lo + 1)
  else none

/-- Least number of significant digits (at most 17) that identify the value,
with the significand found for it. -/
def shortestFrom : Nat → F64 → Nat → Nat → Int → Nat → Nat × Nat
  | 0, _, _, _, _, nd => (nd, 0)
  | fuel + 1, x, n, d, k, nd =>
    match shortestAt x n d k nd with
    | some c => (nd, c)
    | none => shortestFrom fuel x n d k (nd + 1)

/-- Strip trailing zeros of a digit string (keeping at least one digit). -/
def trimZeros (cs : List Char) : List Char :=
  match (cs.reverse.dropWhile (fun c => c == '0')).reverse with
  | [] => ['0']
  | ds => ds

/-- Shortest decimal digits of a positive finite value of `m * 2 ^ k` units and the
position `dp` of the decimal point (`0.d1d2... * 10 ^ dp`). -/
def shortestDigits (m k : Nat) : List Char × Int :=
  let n := m * 2 ^ k
  let d := 2 ^ 1074
  let k := exp10 n d
  let r := shortestFrom 17 (roundRat false n d) n d k 1
  let ds := digits r.2
  -- a carry to the next power of ten lengthens the digit string by one
  (trimZeros ds, k + 1 + ((ds.length : Int) - (r.1 : Int)))

/-- Exponent part of the `%e` layout: sign and at least two digits. -/
def expPart (x : Int) : List Char :=
  'e' :: (if x < 0 then '-' else '+') :: padZeros 2 (digits x.natAbs)

/-- Verb `%v` on a `float64` (`%g` with the shortest uniquely identifying
digits; exponent form when the decimal exponent is below `-4` or at least `6`). -/
def general : F64 → String
  | .nan => "NaN"
  | .inf s => if s then "-Inf" else "+Inf"
  | .fin s m k _ =>
    let sign : List Char := if s then ['-'] else []
    if m = 0 then String.mk (sign ++ ['0'])
    else
      let r := shortestDigits m k
      let ds := r.1
      let dp := r.2
      let x := dp - 1
      if x < -4 ∨ 6 ≤ x then
        String.mk (sign ++ ds.take 1 ++ (if ds.length ≤ 1 then [] else '.' :: ds.drop 1) ++ expPart x)
      else if dp ≤ 0 then
        String.mk (sign ++ '0' :: '.' :: (List.replicate (-dp).toNat '0' ++ ds))
      else if (ds.length : Int) ≤ dp then
        String.mk (sign ++ ds ++ List.replicate (dp.toNat - ds.length) '0')
      else
        String.mk (sign ++ ds.take dp.toNat ++ '.' :: ds.drop dp.toNat)

end fmt

/-! ## The program -/

/-- Constant `MInKm`: metres in a kilometre. -/
def MInKm : F64 := F64.ofInt 1000

/-- Constant `MinInHours`: minutes in an hour. -/
def MinInHours : F64 := F64.ofInt 60

/-- Constant `LenStep`: length of one step, `0.65` m. -/
def LenStep : F64 := F64.ofRat 65 100

/-- Constant `CmInM`: centimetres in a metre. -/
def CmInM : F64 := F64.ofInt 100

/-- Constant `CaloriesMeanSpeedMultiplier`. -/
def CaloriesMeanSpeedMultiplier : F64 := F64.ofInt 18

/-- Constant `CaloriesMeanSpeedShift`, `1.79`. -/
def CaloriesMeanSpeedShift : F64 := F64.ofRat 179 100

/-- Constant `CaloriesWeightMultiplier`, `0.035`. -/
def CaloriesWeightMultiplier : F64 := F64.ofRat 35 1000

/-- Constant `CaloriesSpeedHeightMultiplier`, `0.029`. -/
def CaloriesSpeedHeightMultiplier : F64 := F64.ofRat 29 1000

/-- Constant `KmHInMsec`, `0.278`. -/
def KmHInMsec : F64 := F64.ofRat 278 1000

/-- Constant `SwimmingLenStep`: length of one stroke, `1.38` m. -/
def SwimmingLenStep : F64 := F64.ofRat 138 100

/-- Constant `SwimmingCaloriesMeanSpeedShift`, `1.1`. -/
def SwimmingCaloriesMeanSpeedShift : F64 := F64.ofRat 11 10

/-- Constant `SwimmingCaloriesWeightMultiplier`. -/
def SwimmingCaloriesWeightMultiplier : F64 := F64.ofInt 2

/-- The literal `0` of the guarded returns. -/
def fzero : F64 := F64.zero false

/-- Line printed by `fmt.Println("Деление на 0!")`. -/
def divZeroNotice : String := "Деление на 0!\n"

/-- Line printed by the `fmt.Printf` of `Swimming.meanSpeed`. -/
def swimNotice (label : String) : String :=
  "Деление на 0! Длительность тренировки " ++ label ++ " = 0\n"

/-- Struct `Training`: the data common to every session.  `Action` is an
`int`, `Duration` a `time.Duration`. -/
structure Training where
  TrainingType : String
  Action : Int
  LenStep : F64
  Duration : Duration
  Weight : F64

/-- Struct `InfoMessage`: the derived report. -/
structure InfoMessage where
  TrainingType : String
  Duration : Duration
  Distance : F64
  Speed : F64
  Calories : F64

/-- Struct `Running` embeds `Training`. -/
structure Running extends Training

/-- Struct `Walking` embeds `Training` and adds the height in centimetres. -/
structure Walking extends Training where
  Height : F64

/-- Struct `Swimming` embeds `Training` and adds the pool data. -/
structure Swimming extends Training where
  LengthPool : Int
  CountPool : Int

/-- Method `Training.distance`. -/
def Training.distance (t : Training) : F64 :=
  F64.div (F64.mul (F64.ofInt t.Action) t.LenStep) MInKm

/-- Method `Training.meanSpeed`; the second component is what it prints. -/
def Training.meanSpeed (t : Training) : F64 × List String :=
  if (t.Duration.Hours).eqb fzero then (fzero, [divZeroNotice])
  else (F64.div t.distance t.Duration.Hours, [])

/-- Method `Training.Calories`: the base method returns `0`. -/
def Training.Calories (_t : Training) : F64 := fzero

/-- Method `Training.TrainingInfo`: the receiver is the embedded `Training`
value, so the `Calories` called here is `Training.Calories`. -/
def Training.TrainingInfo (t : Training) : InfoMessage × List String :=
  let d := t.distance
  let s := t.meanSpeed
  let c := t.Calories
  ({ TrainingType := t.TrainingType, Duration := t.Duration, Distance := d, Speed := s.1, Calories := c },
    s.2)

/-- Method `InfoMessage.String`. -/
def InfoMessage.String (i : InfoMessage) : String :=
  "Тип тренировки: " ++ i.TrainingType ++ "\nДлительность: " ++ fmt.general i.Duration.Minutes
    ++ " мин\nДистанция: " ++ fmt.fixed 2 i.Distance ++ " км.\nСр. скорость: " ++ fmt.fixed 2 i.Speed
    ++ " км/ч\nПотрачено ккал: " ++ fmt.fixed 2 i.Calories ++ "\n"

/-- Method `Running.Calories`. -/
def Running.Calories (r : Running) : F64 × List String :=
  if (r.Duration.Hours).eqb fzero then (fzero, [divZeroNotice])
  else
    let s := r.toTraining.meanSpeed
    (F64.mul (F64.mul (F64.div (F64.mul (F64.add (F64.mul CaloriesMeanSpeedMultiplier s.1)
        CaloriesMeanSpeedShift) r.Weight) MInKm) r.Duration.Hours) MinInHours, s.2)

/-- Method `Walking.Calories`. -/
def Walking.Calories (w : Walking) : F64 × List String :=
  let s := w.toTraining.meanSpeed
  let speedInMPerS := F64.mul s.1 KmHInMsec
  if w.Height.eqb fzero then (fzero, s.2 ++ [divZeroNotice])
  else
    (F64.mul (F64.mul (F64.add (F64.mul CaloriesWeightMultiplier w.Weight)
        (F64.mul (F64.mul (F64.div (math.PowTwo speedInMPerS) (F64.div w.Height CmInM))
          CaloriesSpeedHeightMultiplier) w.Weight)) w.Duration.Hours) MinInHours, s.2)

/-- Method `Swimming.meanSpeed`. -/
def Swimming.meanSpeed (s : Swimming) : F64 × List String :=
  if (s.Duration.Hours).eqb fzero then (fzero, [swimNotice s.TrainingType])
  else (F64.div (F64.div (F64.ofInt (wrapInt64 (s.LengthPool * s.CountPool))) MInKm) s.Duration.Hours, [])

/-- Method `Swimming.Calories`. -/
def Swimming.Calories (s : Swimming) : F64 × List String :=
  let v := s.meanSpeed
  (F64.mul (F64.mul (F64.mul (F64.add v.1 SwimmingCaloriesMeanSpeedShift)
      SwimmingCaloriesWeightMultiplier) s.Weight) s.Duration.Hours, v.2)

/-- Method `Swimming.TrainingInfo`. -/
def Swimming.TrainingInfo (s : Swimming) : InfoMessage × List String :=
  let d := s.toTraining.distance
  let v := s.meanSpeed
  let c := s.Calories
  ({ TrainingType := s.TrainingType, Duration := s.Duration, Distance := d, Speed := v.1, Calories := c.1 },
    v.2 ++ c.2)

/-- Interface `CaloriesCalculator`, over the three structs that the program
passes through it. -/
inductive CaloriesCalculator where
  | running (r : Running)
  | walking (w : Walking)
  | swimming (s : Swimming)

/-- Dynamic dispatch of `Calories`. -/
def CaloriesCalculator.Calories : CaloriesCalculator → F64 × List String
  | .running r => r.Calories
  | .walking w => w.Calories
  | .swimming s => s.Calories

/-- Dynamic dispatch of `TrainingInfo`: `Running` and `Walking` have only the
method promoted from the embedded `Training`. -/
def CaloriesCalculator.TrainingInfo : CaloriesCalculator → InfoMessage × List String
  | .running r => r.toTraining.TrainingInfo
  | .walking w => w.toTraining.TrainingInfo
  | .swimming s => s.TrainingInfo

/-- Function `ReadData`: the text returned and the lines printed on the way. -/
def ReadData (training : CaloriesCalculator) : String × List String :=
  let info := training.TrainingInfo
  let updateCalories := training.Calories
  (InfoMessage.String { info.1 with Calories := updateCalories.1 }, info.2 ++ updateCalories.2)

/-- The swimming session of `main`. -/
def mainSwimming : Swimming :=
  { TrainingType := "Плавание", Action := 2000, LenStep := SwimmingLenStep,
    Duration := 90 * Minute, Weight := F64.ofInt 85, LengthPool := 50, CountPool := 40 }

/-- The walking session of `main`. -/
def mainWalking : Walking :=
  { TrainingType := "Ходьба", Action := 20000, LenStep := LenStep,
    Duration := 3 * Hour + 45 * Minute, Weight := F64.ofInt 85, Height := F64.ofInt 185 }

/-- The running session of `main`. -/
def mainRunning : Running :=
  { TrainingType := "Бег", Action := 5000, LenStep := LenStep,
    Duration := 30 * Minute, Weight := F64.ofInt 85 }

/-- A non-zero value of sign `s`: an infinity or a finite number with a
non-zero significand. -/
def F64.NZ (s : Bool) (x : F64) : Prop :=
  x = .inf s ∨ ∃ m k hv, x = .fin s m k hv ∧ 0 < m

/-! ## Sessions used as test inputs -/

/-- The running session of `main` with a zero duration. -/
def zeroRunning : Running := { mainRunning with Duration := 0 }

/-- The walking session of `main` with a zero duration. -/
def zeroWalking : Walking := { mainWalking with Duration := 0 }

/-- The swimming session of `main` with a zero duration. -/
def zeroSwimming : Swimming := { mainSwimming with Duration := 0 }

/-- A zero-duration swimming session whose weight is the finite `float64`
`1e308`. -/
def heavySwimming : Swimming :=
  { mainSwimming with Duration := 0, Weight := .fin false 5010420900022432 2045 (by decide) }

/-- A zero-duration walking session whose height is the least positive
`float64`, `5e-324`. -/
def tinyWalking : Walking :=
  { mainWalking with Duration := 0, Height := .fin false 1 0 (by decide) }

/-- The walking session of `main` with a zero height. -/
def heightlessWalking : Walking := { mainWalking with Height := F64.zero false }

/-- The walking session of `main` with the height of `tinyWalking`, the least
positive `float64`, and its own duration of 3 h 45 min. -/
def shortWalking : Walking := { mainWalking with Height := .fin false 1 0 (by decide) }

/-- A swimming session that differs from the one of `main` only in its label
and repetition data. -/
def otherStrokes : Swimming :=
  { mainSwimming with TrainingType := "Кроль", Action := 7, LenStep := F64.ofRat 2 1 }

/-- A swimming session that differs from the one of `main` only in its pool. -/
def otherPool : Swimming := { mainSwimming with LengthPool := 25, CountPool := 3 }

/-- A report whose label spans two lines. -/
def twoLineReport : InfoMessage :=
  { TrainingType := "a\nb", Duration := 30 * Minute, Distance := F64.ofInt 1,
    Speed := F64.ofInt 2, Calories := F64.ofInt 3 }

/-- Go's `x <= y` on floats. -/
def F64.leb (x y : F64) : Bool := x.ltb y || x.eqb y

/-- NaN, or the sign bit is clear. -/
def F64.signClear : F64 → Prop
  | .nan => True
  | .inf s => s = false
  | .fin s _ _ _ => s = false

/-- NaN, or not below zero: the sign bit is clear or the value is a zero. -/
def F64.nonNeg : F64 → Prop
  | .nan => True
  | .inf s => s = false
  | .fin s m _ _ => s = false ∨ m = 0

/-- Valid input in the sense of the non-negativity property: step count,
step length, weight and duration at least zero, the height at least zero for
walking, and for swimming pool data at least zero with a product that fits
in a signed 64-bit integer. -/
def validInput : CaloriesCalculator → Bool
  | .running r =>
    decide (0 ≤ r.Action) && (F64.zero false).leb r.LenStep && (F64.zero false).leb r.Weight
      && decide ((0 : Int) ≤ r.Duration)
  | .walking w =>
    decide (0 ≤ w.Action) && (F64.zero false).leb w.LenStep && (F64.zero false).leb w.Weight
      && decide ((0 : Int) ≤ w.Duration) && (F64.zero false).leb w.Height
  | .swimming s =>
    decide (0 ≤ s.Action) && (F64.zero false).leb s.LenStep && (F64.zero false).leb s.Weight
      && decide ((0 : Int) ≤ s.Duration) && decide (0 ≤ s.LengthPool) && decide (0 ≤ s.CountPool)
      && decide (s.LengthPool * s.CountPool < 2 ^ 63)

/-- The value of a finite `float64` in units of `2 ^ (-1074)`; `0` for NaN and
the infinities. -/
def F64.units : F64 → Int
  | .fin s m k _ => F64.signed s (m * 2 ^ k)
  | _ => 0

/-- The unit in the last place of a finite `float64`, in units of `2 ^ (-1074)`. -/
def F64.ulpUnits : F64 → Nat
  | .fin _ _ k _ => 2 ^ k
  | _ => 0

/-- A finite value of sign `s` whose magnitude lies between `2 ^ lo` and
`2 ^ hi` units. -/
def F64.within (s : Bool) (lo hi : Nat) (x : F64) : Prop :=
  ∃ m k hv, x = .fin s m k hv ∧ 2 ^ lo ≤ m * 2 ^ k ∧ m * 2 ^ k ≤ 2 ^ hi

/-- The magnitude of a finite `float64` in units of `2 ^ (-1074)`; `0` for NaN
and the infinities. -/
def F64.mag : F64 → Nat
  | .fin _ m k _ => m * 2 ^ k
  | _ => 0

/-- A pool whose length times the number of crossings is `2 ^ 64`, swum in
ninety minutes. -/
def longPool : Swimming :=
  { mainSwimming with LengthPool := 2 ^ 32, CountPool := 2 ^ 32 }

/-- The report that `ReadData` formats: the `info` returned by `TrainingInfo`
after the assignment `info.Calories = updateCalories`. -/
def ReadData.info (training : CaloriesCalculator) : InfoMessage :=
  { training.TrainingInfo.1 with Calories := training.Calories.1 }

/-- The exact value of a finite `float64` as a rational number; NaN and the
infinities, which have none, are given `0`. -/
def F64.toRat : F64 → ℚ
  | .fin s m k _ => (F64.signed s (m * 2 ^ k) : ℚ) / 2 ^ 1074
  | _ => 0

/-- Method `time.Duration.Hours` in exact arithmetic: whole hours plus the
remaining nanoseconds over `60*60*1e9`. -/
def Duration.HoursExact (d : Duration) : ℚ :=
  (Int.tdiv d Hour : ℚ) + (Int.tmod d Hour : ℚ) / 3600000000000

/-- Method `Training.distance` in exact arithmetic, over the exact values of
the fields. -/
def Training.distanceExact (t : Training) : ℚ :=
  (t.Action : ℚ) * t.LenStep.toRat / 1000

/-- Method `Training.meanSpeed` in exact arithmetic. -/
def Training.meanSpeedExact (t : Training) : ℚ :=
  if t.Duration.HoursExact = 0 then 0 else t.distanceExact / t.Duration.HoursExact

/-- Method `Swimming.meanSpeed` in exact arithmetic; the product of the two
`int` fields is the machine product. -/
def Swimming.meanSpeedExact (s : Swimming) : ℚ :=
  if s.Duration.HoursExact = 0 then 0
  else (wrapInt64 (s.LengthPool * s.CountPool) : ℚ) / 1000 / s.Duration.HoursExact

/-- Local variable `speedInMPerS` of `Walking.Calories`: the generic mean
speed times `KmHInMsec`. -/
def Walking.speedInMPerS (w : Walking) : F64 :=
  F64.mul w.toTraining.meanSpeed.1 KmHInMsec
/-! ## Rounding lemmas -/

theorem bitLenAux_bounds (fuel : Nat) : ∀ n, n ≤ fuel → 0 < n →
    n < 2 ^ bitLenAux fuel n ∧ 2 ^ bitLenAux fuel n ≤ 2 * n := by
  induction fuel with
  | zero => intro n h1 h2; omega
  | succ f ih =>
    intro n h1 h2
    have hn : n ≠ 0 := by omega
    simp only [bitLenAux, hn, if_false]
    by_cases h0 : n / 2 = 0
    · have h1n : n = 1 := by omega
      subst h1n
      have : bitLenAux f (1 / 2) = 0 := by
        cases f <;> simp [bitLenAux]
      rw [this]
      decide
    · have hle : n / 2 ≤ f := by omega
      have hp : 0 < n / 2 := by omega
      obtain ⟨ha, hb⟩ := ih (n / 2) hle hp
      rw [pow_succ]
      constructor <;> omega

theorem bitLenBin_bounds (j : Nat) : ∀ n, 0 < n → n < 2 ^ 2 ^ j →
    n < 2 ^ bitLenBin j n ∧ 2 ^ bitLenBin j n ≤ 2 * n := by
  induction j with
  | zero =>
    intro n h1 h2
    have hn : n = 1 := by
      have : (2 : Nat) ^ 2 ^ 0 = 2 := by decide
      omega
    subst hn
    decide
  | succ j ih =>
    intro n h1 h2
    have hP : 0 < 2 ^ 2 ^ j := Nat.pow_pos (by decide)
    have hPP : 2 ^ 2 ^ (j + 1) = 2 ^ 2 ^ j * 2 ^ 2 ^ j := by
      rw [← pow_add, pow_succ]
      congr 1
      omega
    by_cases hc : 2 ^ 2 ^ j ≤ n
    · simp only [bitLenBin, hc, if_true]
      have hq1 : 0 < n / 2 ^ 2 ^ j := Nat.div_pos hc hP
      have hq2 : n / 2 ^ 2 ^ j < 2 ^ 2 ^ j := by
        rw [Nat.div_lt_iff_lt_mul hP, ← hPP]
        exact h2
      obtain ⟨ha, hb⟩ := ih _ hq1 hq2
      have hdm := Nat.div_add_mod n (2 ^ 2 ^ j)
      have hml := Nat.mod_lt n hP
      have hmul := Nat.mul_le_mul_left (2 ^ 2 ^ j) (Nat.succ_le_of_lt ha)
      have hmul2 := Nat.mul_le_mul_left (2 ^ 2 ^ j) hb
      rw [pow_add]
      rw [Nat.mul_succ] at hmul
      constructor
      · omega
      · calc 2 ^ 2 ^ j * 2 ^ bitLenBin j (n / 2 ^ 2 ^ j)
            ≤ 2 ^ 2 ^ j * (2 * (n / 2 ^ 2 ^ j)) := hmul2
          _ = 2 * (2 ^ 2 ^ j * (n / 2 ^ 2 ^ j)) := by ring
          _ ≤ 2 * n := by omega
    · simp only [bitLenBin, hc, if_false]
      exact ih n h1 (by omega)

theorem bitLen_lt (n : Nat) (h : 0 < n) : n < 2 ^ bitLen n := by
  unfold bitLen
  split_ifs with hc
  · exact (bitLenBin_bounds 13 n h hc).1
  · exact (bitLenAux_bounds n n (le_refl n) h).1

theorem bitLen_le (n : Nat) (h : 0 < n) : 2 ^ bitLen n ≤ 2 * n := by
  unfold bitLen
  split_ifs with hc
  · exact (bitLenBin_bounds 13 n h hc).2
  · exact (bitLenAux_bounds n n (le_refl n) h).2

theorem rne_ge (q r den : Nat) : q ≤ roundNearestEven q r den := by
  unfold roundNearestEven
  split_ifs <;> omega

theorem rne_le (q r den : Nat) : roundNearestEven q r den ≤ q + 1 := by
  unfold roundNearestEven
  split_ifs <;> omega

theorem rne_exact (q den : Nat) (h : 0 < den) : roundNearestEven q 0 den = q := by
  unfold roundNearestEven
  simp [h]

/-- The exponent chosen by `pickExp` leaves a quotient of at most 53 bits, and
of exactly 53 bits unless it is the subnormal exponent. -/
theorem pickExp_spec (n d : Nat) (hn : 0 < n) (hd : 0 < d) :
    n / (d * 2 ^ pickExp n d) < 2 ^ 53 ∧
      (0 < pickExp n d → 2 ^ 52 ≤ n / (d * 2 ^ pickExp n d)) := by
  have hn1 := bitLen_lt n hn
  have hn2 := bitLen_le n hn
  have hd1 := bitLen_lt d hd
  have hd2 := bitLen_le d hd
  set bn := bitLen n with hbn
  set bd := bitLen d with hbd
  set k0 := bn - (bd + 53) with hk0
  have hpos : 0 < d * 2 ^ k0 := Nat.mul_pos hd (Nat.pow_pos (by decide))
  -- upper bound on the first quotient
  have hA : n / (d * 2 ^ k0) < 2 ^ 54 := by
    rw [Nat.div_lt_iff_lt_mul hpos]
    have h1 : 2 ^ bn ≤ 2 ^ (53 + bd + k0) := Nat.pow_le_pow_right (by decide) (by omega)
    have h2 : 2 ^ (53 + bd + k0) = 2 ^ 53 * 2 ^ bd * 2 ^ k0 := by rw [pow_add, pow_add]
    have h3 : 2 ^ 53 * 2 ^ bd * 2 ^ k0 ≤ 2 ^ 53 * (2 * d) * 2 ^ k0 :=
      Nat.mul_le_mul_right _ (Nat.mul_le_mul_left _ hd2)
    have h4 : 2 ^ 53 * (2 * d) * 2 ^ k0 = 2 ^ 54 * (d * 2 ^ k0) := by ring
    omega
  have hB : 0 < k0 → 2 ^ 52 ≤ n / (d * 2 ^ k0) := by
    intro hk
    rw [Nat.le_div_iff_mul_le hpos]
    have h1 : 2 ^ 52 * (d * 2 ^ k0) ≤ 2 ^ 52 * (2 ^ bd * 2 ^ k0) :=
      Nat.mul_le_mul_left _ (Nat.mul_le_mul_right _ (Nat.le_of_lt hd1))
    have h2 : 2 ^ 52 * (2 ^ bd * 2 ^ k0) = 2 ^ (52 + bd + k0) := by rw [pow_add, pow_add]; ring
    have h3 : 52 + bd + k0 + 1 = bn := by omega
    have h4 : 2 ^ bn = 2 * 2 ^ (52 + bd + k0) := by rw [← h3, pow_succ]; ring
    omega
  unfold pickExp
  rw [← hbn, ← hbd, ← hk0]
  by_cases hc : 2 ^ 53 ≤ n / (d * 2 ^ k0)
  · simp only [hc, if_true]
    have hq : n / (d * 2 ^ (k0 + 1)) = n / (d * 2 ^ k0) / 2 := by
      rw [Nat.div_div_eq_div_mul, pow_succ, Nat.mul_assoc]
    rw [hq]
    constructor
    · omega
    · intro _; omega
  · simp only [hc, if_false]
    constructor
    · omega
    · exact hB

/-- Outcome of `roundAt` at an exponent satisfying the `pickExp` bounds: an
infinity (only from the top exponent on) or a valid finite value whose
magnitude is the rounded quotient at exponent `k`. -/
theorem roundAt_cases (s : Bool) (n d k : Nat) (hq : n / (d * 2 ^ k) < 2 ^ 53)
    (hk : 0 < k → 2 ^ 52 ≤ n / (d * 2 ^ k)) :
    (roundAt s n d k = .inf s ∧ 2045 ≤ k) ∨
      ∃ m k1 h, roundAt s n d k = .fin s m k1 h ∧
        m * 2 ^ k1 = roundNearestEven (n / (d * 2 ^ k)) (n % (d * 2 ^ k)) (d * 2 ^ k) * 2 ^ k := by
  have h1 := rne_ge (n / (d * 2 ^ k)) (n % (d * 2 ^ k)) (d * 2 ^ k)
  have h2 := rne_le (n / (d * 2 ^ k)) (n % (d * 2 ^ k)) (d * 2 ^ k)
  unfold roundAt
  set M := roundNearestEven (n / (d * 2 ^ k)) (n % (d * 2 ^ k)) (d * 2 ^ k) with hM
  by_cases hc : M = 2 ^ 53
  · simp only [hc, if_true]
    unfold pack
    by_cases hov : 2045 < k + 1
    · left
      simp only [hov, if_true]
      exact ⟨trivial, by omega⟩
    · right
      have hv : validFin (2 ^ 52) (k + 1) := by
        refine ⟨by decide, by omega, ?_⟩
        intro h; exact absurd h (by decide)
      simp only [hov, if_false, hv, dite_true]
      exact ⟨2 ^ 52, k + 1, hv, rfl, by rw [pow_succ]; ring⟩
  · simp only [hc, if_false]
    unfold pack
    by_cases hov : 2045 < k
    · left
      simp only [hov, if_true]
      exact ⟨trivial, by omega⟩
    · right
      have hv : validFin M k := by
        refine ⟨by omega, by omega, ?_⟩
        intro hlt
        by_contra hk0
        have := hk (by omega)
        omega
      simp only [hov, if_false, hv, dite_true]
      exact ⟨M, k, hv, rfl, rfl⟩

/-- Outcome of `roundQ` on a positive rational: never NaN, the sign is kept,
and a finite result is the quotient at some exponent `k`, rounded to a
neighbouring integer. -/
theorem roundQ_cases (s : Bool) (n d : Nat) (hn : 0 < n) (hd : 0 < d) :
    (roundQ s n d = .inf s ∧ 2 ^ 52 * (d * 2 ^ 2045) ≤ n) ∨
      ∃ m k1 h, roundQ s n d = .fin s m k1 h ∧ ∃ k M,
        m * 2 ^ k1 = M * 2 ^ k ∧ n / (d * 2 ^ k) ≤ M ∧ M ≤ n / (d * 2 ^ k) + 1 ∧
        (n % (d * 2 ^ k) = 0 → M = n / (d * 2 ^ k)) ∧
        n / (d * 2 ^ k) < 2 ^ 53 ∧ (0 < k → 2 ^ 52 ≤ n / (d * 2 ^ k)) := by
  obtain ⟨hq, hk⟩ := pickExp_spec n d hn hd
  have hd0 : d ≠ 0 := by omega
  have hn0 : n ≠ 0 := by omega
  unfold roundQ
  simp only [hd0, hn0, if_false]
  set k := pickExp n d with hkdef
  rcases roundAt_cases s n d k hq hk with ⟨h1, h2⟩ | ⟨m, k1, h, h1, h2⟩
  · left
    refine ⟨h1, ?_⟩
    have hpos : 0 < d * 2 ^ k := Nat.mul_pos hd (Nat.pow_pos (by decide))
    have h3 := hk (by omega)
    rw [Nat.le_div_iff_mul_le hpos] at h3
    have h4 : d * 2 ^ 2045 ≤ d * 2 ^ k :=
      Nat.mul_le_mul_left _ (Nat.pow_le_pow_right (by decide) h2)
    calc 2 ^ 52 * (d * 2 ^ 2045) ≤ 2 ^ 52 * (d * 2 ^ k) := Nat.mul_le_mul_left _ h4
      _ ≤ n := h3
  · right
    refine ⟨m, k1, h, h1, k, _, h2, rne_ge _ _ _, rne_le _ _ _, ?_, hq, hk⟩
    intro hr
    rw [hr]
    exact rne_exact _ _ (Nat.mul_pos hd (Nat.pow_pos (by decide)))

/-- A rational of at least one unit does not round to zero. -/
theorem roundQ_isZero (s : Bool) (n d : Nat) (hd : 0 < d) (h : d ≤ n) :
    (roundQ s n d).isZero = false := by
  have hn : 0 < n := by omega
  rcases roundQ_cases s n d hn hd with ⟨h1, _⟩ | ⟨m, k1, hv, h1, k, M, h2, h3, _, _, _, h6⟩
  · rw [h1]; rfl
  · rw [h1]
    simp only [F64.isZero, decide_eq_false_iff_not]
    intro hm
    subst hm
    have hM : M = 0 := by
      have : M * 2 ^ k = 0 := by rw [← h2]; simp
      rcases Nat.mul_eq_zero.mp this with h | h
      · exact h
      · exact absurd h (by positivity)
    subst hM
    have hq0 : n / (d * 2 ^ k) = 0 := Nat.le_zero.mp h3
    by_cases hk : 0 < k
    · have := h6 hk
      rw [hq0] at this
      exact absurd this (by decide)
    · have hk0 : k = 0 := by omega
      subst hk0
      have h1q : 1 ≤ n / (d * 2 ^ 0) := by
        rw [Nat.le_div_iff_mul_le (by simpa using hd)]
        simpa using h
      omega

/-- Rounding does not go below a power of two that the value reaches. -/
theorem roundQ_ge_pow (s : Bool) (n d j : Nat) (hd : 0 < d) (h : 2 ^ j * d ≤ n) :
    roundQ s n d = .inf s ∨ ∃ m k h, roundQ s n d = .fin s m k h ∧ 2 ^ j ≤ m * 2 ^ k := by
  have hn : 0 < n := lt_of_lt_of_le (Nat.mul_pos (Nat.pow_pos (by decide)) hd) h
  rcases roundQ_cases s n d hn hd with ⟨h1, _⟩ | ⟨m, k1, hv, h1, k, M, h2, h3, _, _, _, h6⟩
  · left; exact h1
  · right
    refine ⟨m, k1, hv, h1, ?_⟩
    rw [h2]
    have hpos : 0 < d * 2 ^ k := Nat.mul_pos hd (Nat.pow_pos (by decide))
    by_cases hjk : k ≤ j
    · have hq : 2 ^ (j - k) ≤ n / (d * 2 ^ k) := by
        rw [Nat.le_div_iff_mul_le hpos]
        have : 2 ^ (j - k) * (d * 2 ^ k) = 2 ^ j * d := by
          have hj : j = (j - k) + k := by omega
          conv_rhs => rw [hj, pow_add]
          ring
        omega
      calc 2 ^ j = 2 ^ (j - k) * 2 ^ k := by rw [← pow_add]; congr 1; omega
        _ ≤ M * 2 ^ k := Nat.mul_le_mul_right _ (le_trans hq h3)
    · have hk : 0 < k := by omega
      have hq := h6 hk
      have h1M : 1 ≤ M := by
        have : 1 ≤ 2 ^ 52 := by decide
        omega
      calc 2 ^ j ≤ 2 ^ k := Nat.pow_le_pow_right (by decide) (by omega)
        _ = 1 * 2 ^ k := by ring
        _ ≤ M * 2 ^ k := Nat.mul_le_mul_right _ h1M

/-- Values well below the overflow threshold round to a finite number. -/
theorem roundQ_finite (s : Bool) (n d : Nat) (hn : 0 < n) (hd : 0 < d)
    (h : n < 2 ^ 52 * (d * 2 ^ 2045)) :
    ∃ m k hv, roundQ s n d = .fin s m k hv := by
  rcases roundQ_cases s n d hn hd with ⟨_, h2⟩ | ⟨m, k1, hv, h1, _⟩
  · omega
  · exact ⟨m, k1, hv, h1⟩

/-! ## Special values and zero tests -/

theorem F64.eqb_zero (x : F64) : x.eqb (F64.zero false) = x.isZero := by
  cases x with
  | nan => rfl
  | inf s => rfl
  | fin s m k h =>
    simp only [F64.eqb, F64.zero, F64.isZero, F64.signed]
    cases s <;> simp

theorem F64.add_fin_isZero (s1 : Bool) (m1 k1 : Nat) (h1 : validFin m1 k1) (s2 : Bool)
    (m2 k2 : Nat) (h2 : validFin m2 k2)
    (hne : F64.signed s1 (m1 * 2 ^ k1) + F64.signed s2 (m2 * 2 ^ k2) ≠ 0) :
    (F64.add (.fin s1 m1 k1 h1) (.fin s2 m2 k2 h2)).isZero = false := by
  simp only [F64.add, hne, if_false]
  apply roundQ_isZero _ _ _ (by decide)
  omega

theorem F64.signed_ne_zero (s : Bool) (m k : Nat) (hm : 0 < m) :
    (s = true → F64.signed s (m * 2 ^ k) < 0) ∧ (s = false → 0 < F64.signed s (m * 2 ^ k)) := by
  have hp : 0 < m * 2 ^ k := Nat.mul_pos hm (Nat.pow_pos (by decide))
  constructor
  · intro hs; subst hs; simp only [F64.signed, if_true]; omega
  · intro hs; subst hs; simp only [F64.signed]; simp; omega

/-- Integers other than zero convert to a value of magnitude at least one. -/
theorem F64.ofInt_nonzero (i : Int) (hi : i ≠ 0) :
    F64.ofInt i = .inf (decide (i < 0)) ∨
      ∃ m k hv, F64.ofInt i = .fin (decide (i < 0)) m k hv ∧ 2 ^ 1074 ≤ m * 2 ^ k := by
  unfold F64.ofInt roundRat
  apply roundQ_ge_pow _ _ _ 1074 (by decide)
  have : 1 ≤ i.natAbs := by omega
  calc 2 ^ 1074 * 1 = 1 * 2 ^ 1074 := by ring
    _ ≤ i.natAbs * 2 ^ 1074 := Nat.mul_le_mul_right _ this

theorem F64.ofInt_zero : F64.ofInt 0 = F64.zero false := by decide

theorem tdiv_tmod_signs (d H : Int) (hH : 0 < H) :
    d = H * d.tdiv H + d.tmod H ∧ (0 ≤ d → 0 ≤ d.tdiv H ∧ 0 ≤ d.tmod H) ∧
      (d ≤ 0 → d.tdiv H ≤ 0 ∧ d.tmod H ≤ 0) := by
  refine ⟨(Int.tdiv_add_tmod d H).symm, ?_, ?_⟩
  · intro hd
    exact ⟨Int.tdiv_nonneg hd (le_of_lt hH), Int.tmod_nonneg H hd⟩
  · intro hd
    have h1 : 0 ≤ -d := by omega
    have h2 := Int.tdiv_nonneg h1 (le_of_lt hH)
    have h3 := Int.tmod_nonneg H h1
    rw [Int.neg_tdiv] at h2
    have h4 : (-d).tmod H = -(d.tmod H) := by
      rw [Int.tmod_def, Int.tmod_def, Int.neg_tdiv]; ring
    rw [h4] at h3
    constructor <;> omega

theorem F64.NZ_isZero (s : Bool) (x : F64) (h : x.NZ s) : x.isZero = false := by
  rcases h with h | ⟨m, k, hv, h, hm⟩
  · rw [h]; rfl
  · rw [h]; simp only [F64.isZero, decide_eq_false_iff_not]; omega

/-- A rational of at least one unit rounds to a non-zero value of the given sign. -/
theorem roundQ_NZ (s : Bool) (n d : Nat) (hd : 0 < d) (h : d ≤ n) : (roundQ s n d).NZ s := by
  rcases roundQ_ge_pow s n d 0 hd (by simpa using h) with h1 | ⟨m, k, hv, h1, h2⟩
  · exact Or.inl h1
  · refine Or.inr ⟨m, k, hv, h1, ?_⟩
    by_contra hm
    have hm0 : m = 0 := by omega
    subst hm0
    simp at h2

theorem F64.ofInt_NZ (i : Int) (hi : i ≠ 0) : (F64.ofInt i).NZ (decide (i < 0)) := by
  rcases F64.ofInt_nonzero i hi with h | ⟨m, k, hv, h, hge⟩
  · exact Or.inl h
  · refine Or.inr ⟨m, k, hv, h, ?_⟩
    by_contra hm
    have hm0 : m = 0 := by omega
    subst hm0
    have : (0 : Nat) < 2 ^ 1074 := Nat.pow_pos (by decide)
    omega

/-- A non-zero integer divided by a positive constant of moderate size stays
non-zero and keeps its sign. -/
theorem F64.div_ofInt_NZ (i : Int) (hi : i ≠ 0) (mc kc : Nat) (hv : validFin mc kc)
    (hmc : 0 < mc) (hle : mc * 2 ^ kc ≤ 2 ^ 2148) :
    (F64.div (F64.ofInt i) (.fin false mc kc hv)).NZ (decide (i < 0)) := by
  rcases F64.ofInt_nonzero i hi with h | ⟨m, k, hv1, h, hge⟩
  · rw [h]
    left
    simp [F64.div]
  · rw [h]
    have hm : m ≠ 0 := by
      intro hm0
      subst hm0
      have : (0 : Nat) < 2 ^ 1074 := Nat.pow_pos (by decide)
      omega
    have hmc0 : mc ≠ 0 := by omega
    simp only [F64.div, hm, hmc0, if_false, Bool.xor_false]
    apply roundQ_NZ
    · exact Nat.mul_pos hmc (Nat.pow_pos (by decide))
    · calc mc * 2 ^ kc ≤ 2 ^ 2148 := hle
        _ = 2 ^ 1074 * 2 ^ 1074 := by rw [← pow_add]
        _ ≤ m * 2 ^ k * 2 ^ 1074 := Nat.mul_le_mul_right _ hge

theorem F64.add_NZ (s : Bool) (x y : F64) (hx : x.NZ s) (hy : y.NZ s) :
    (F64.add x y).isZero = false := by
  rcases hx with hx | ⟨m1, k1, hv1, hx, hm1⟩ <;> rcases hy with hy | ⟨m2, k2, hv2, hy, hm2⟩ <;>
    rw [hx, hy]
  · simp [F64.add, F64.isZero]
  · simp [F64.add, F64.isZero]
  · simp [F64.add, F64.isZero]
  · apply F64.add_fin_isZero
    have h1 := F64.signed_ne_zero s m1 k1 hm1
    have h2 := F64.signed_ne_zero s m2 k2 hm2
    cases s
    · have := h1.2 rfl; have := h2.2 rfl; omega
    · have := h1.1 rfl; have := h2.1 rfl; omega

theorem F64.add_zero_NZ (s : Bool) (y : F64) (hy : y.NZ s) :
    (F64.add (F64.zero false) y).isZero = false := by
  rcases hy with hy | ⟨m2, k2, hv2, hy, hm2⟩ <;> rw [hy]
  · simp [F64.add, F64.zero, F64.isZero]
  · unfold F64.zero
    apply F64.add_fin_isZero
    have h2 := F64.signed_ne_zero s m2 k2 hm2
    simp only [F64.signed, Nat.zero_mul]
    cases s
    · have := h2.2 rfl; simp; omega
    · have := h2.1 rfl; simp; omega

theorem F64.add_NZ_zero (s : Bool) (x : F64) (hx : x.NZ s) :
    (F64.add x (F64.zero false)).isZero = false := by
  rcases hx with hx | ⟨m1, k1, hv1, hx, hm1⟩ <;> rw [hx]
  · simp [F64.add, F64.zero, F64.isZero]
  · unfold F64.zero
    apply F64.add_fin_isZero
    have h1 := F64.signed_ne_zero s m1 k1 hm1
    simp only [F64.signed, Nat.zero_mul]
    cases s
    · have := h1.2 rfl; simp; omega
    · have := h1.1 rfl; simp; omega

/-- The hour count of a duration is zero exactly for the zero duration. -/
theorem Duration.Hours_isZero (d : Int) : (Duration.Hours d).isZero = decide (d = 0) := by
  by_cases hd : d = 0
  · subst hd; decide
  · simp only [hd, decide_False]
    obtain ⟨hsum, hpos, hneg⟩ := tdiv_tmod_signs d Hour (by decide)
    unfold Duration.Hours
    have hc : F64.ofInt 3600000000000 = .fin false 7372800000000000 1063 (by decide) := by decide
    rw [hc]
    by_cases hh : d.tdiv Hour = 0
    · have hr : d.tmod Hour ≠ 0 := by
        intro hr; rw [hh, hr] at hsum; simp at hsum; exact hd hsum
      rw [hh, F64.ofInt_zero]
      exact F64.add_zero_NZ _ _ (F64.div_ofInt_NZ _ hr _ _ _ (by decide) (by decide))
    · by_cases hr : d.tmod Hour = 0
      · rw [hr, F64.ofInt_zero]
        have hz : F64.div (F64.zero false) (.fin false 7372800000000000 1063 (by decide))
            = F64.zero false := by decide
        rw [hz]
        exact F64.add_NZ_zero _ _ (F64.ofInt_NZ _ hh)
      · have h1 := F64.ofInt_NZ _ hh
        have h2 := F64.div_ofInt_NZ _ hr 7372800000000000 1063 (by decide) (by decide) (by decide)
        have hs : decide (d.tdiv Hour < 0) = decide (d.tmod Hour < 0) := by
          by_cases hd0 : 0 ≤ d
          · have := hpos hd0
            simp only [decide_eq_decide]; omega
          · have := hneg (by omega)
            simp only [decide_eq_decide]; omega
        rw [hs] at h1
        exact F64.add_NZ _ _ _ h1 h2

/-- A representable value is a fixed point of rounding. -/
theorem roundQ_exact (s : Bool) (m k : Nat) (hv : validFin m k) (hm : 0 < m) :
    roundQ s (m * 2 ^ k) 1 = .fin s m k hv := by
  have hp : ∀ j : Nat, 0 < 1 * 2 ^ j := fun j => by positivity
  have hn : 0 < m * 2 ^ k := Nat.mul_pos hm (Nat.pow_pos (by decide))
  obtain ⟨hq, hk⟩ := pickExp_spec (m * 2 ^ k) 1 hn (by decide)
  obtain ⟨hv1, hv2, hv3⟩ := hv
  have hkeq : pickExp (m * 2 ^ k) 1 = k := by
    set k1 := pickExp (m * 2 ^ k) 1 with hk1
    rcases Nat.lt_trichotomy k1 k with h | h | h
    · exfalso
      have e1 : m * 2 ^ k = (m * 2 ^ (k - k1)) * (1 * 2 ^ k1) := by
        rw [one_mul, mul_assoc, ← pow_add]
        congr 2
        omega
      rw [e1, Nat.mul_div_cancel _ (hp k1)] at hq
      have hm52 : 2 ^ 52 ≤ m := by
        by_contra hlt
        have := hv3 (by omega)
        omega
      have h2 : 2 ^ 1 ≤ 2 ^ (k - k1) := Nat.pow_le_pow_right (by decide) (by omega)
      have h3 : 2 ^ 52 * 2 ^ 1 ≤ m * 2 ^ (k - k1) := Nat.mul_le_mul hm52 h2
      have h4 : (2 : Nat) ^ 52 * 2 ^ 1 = 2 ^ 53 := by decide
      omega
    · exact h
    · exfalso
      have h52 := hk (by omega)
      rw [Nat.le_div_iff_mul_le (hp k1)] at h52
      have e1 : 2 ^ k1 = 2 ^ (k1 - k - 1) * (2 * 2 ^ k) := by
        rw [← pow_succ', ← pow_add]
        congr 1
        omega
      have h1 : 1 ≤ 2 ^ (k1 - k - 1) := Nat.one_le_two_pow
      have h2 : 2 * 2 ^ k ≤ 2 ^ k1 := by
        rw [e1]
        calc 2 * 2 ^ k = 1 * (2 * 2 ^ k) := by ring
          _ ≤ 2 ^ (k1 - k - 1) * (2 * 2 ^ k) := Nat.mul_le_mul_right _ h1
      have h3 : 2 ^ 52 * (1 * (2 * 2 ^ k)) ≤ 2 ^ 52 * (1 * 2 ^ k1) :=
        Nat.mul_le_mul_left _ (Nat.mul_le_mul_left _ h2)
      have h4 : 2 ^ 52 * (1 * (2 * 2 ^ k)) = 2 ^ 53 * 2 ^ k := by ring
      have h5 : 2 ^ 53 * 2 ^ k ≤ m * 2 ^ k := by omega
      have h6 := Nat.le_of_mul_le_mul_right h5 (Nat.pow_pos (by decide))
      omega
  have hq1 : m * 2 ^ k / (1 * 2 ^ k) = m := by
    rw [one_mul]; exact Nat.mul_div_cancel _ (Nat.pow_pos (by decide))
  have hr1 : m * 2 ^ k % (1 * 2 ^ k) = 0 := by
    rw [one_mul]; exact Nat.mul_mod_left _ _
  have hne : m ≠ 2 ^ 53 := by omega
  have hk2 : ¬ 2045 < k := by omega
  unfold roundQ
  simp only [Nat.one_ne_zero, if_false, hn.ne']
  rw [hkeq]
  unfold roundAt
  rw [hq1, hr1, rne_exact _ _ (hp k)]
  simp only [hne, if_false]
  unfold pack
  simp only [hk2, if_false]
  rw [dif_pos ⟨hv1, hv2, hv3⟩]

theorem F64.isZero_isFinite (x : F64) (h : x.isZero = true) : x.isFinite = true := by
  cases x <;> simp_all [F64.isZero, F64.isFinite]

theorem F64.mul_isZero_right (x y : F64) (hx : x.isFinite = true) (hy : y.isZero = true) :
    (F64.mul x y).isZero = true := by
  cases x <;> cases y <;> simp_all [F64.isZero, F64.isFinite, F64.mul, F64.zero]

theorem F64.mul_isZero_left (x y : F64) (hx : x.isZero = true) (hy : y.isFinite = true) :
    (F64.mul x y).isZero = true := by
  cases x <;> cases y <;> simp_all [F64.isZero, F64.isFinite, F64.mul, F64.zero]

/-- Zero divided by a number other than zero is zero. -/
theorem F64.div_isZero (x y : F64) (hx : x.isZero = true) (hn : y.isNaN = false)
    (hz : y.isZero = false) : (F64.div x y).isZero = true := by
  cases x <;> cases y <;> simp_all [F64.isZero, F64.isNaN, F64.div, F64.zero]

theorem F64.signed_add_zero (s1 s2 : Bool) (p k2 : Nat) (hp : 0 < p) :
    F64.signed s1 p + F64.signed s2 (0 * 2 ^ k2) ≠ 0 ∧
      (F64.signed s1 p + F64.signed s2 (0 * 2 ^ k2)).natAbs = p ∧
      decide (F64.signed s1 p + F64.signed s2 (0 * 2 ^ k2) < 0) = s1 := by
  simp only [F64.signed, Nat.zero_mul]
  cases s1 <;> cases s2 <;> simp <;> omega

/-- Adding a zero keeps a finite number finite. -/
theorem F64.add_isFinite_zero (x y : F64) (hx : x.isFinite = true) (hy : y.isZero = true) :
    (F64.add x y).isFinite = true := by
  cases x with
  | nan => simp [F64.isFinite] at hx
  | inf s => simp [F64.isFinite] at hx
  | fin s1 m1 k1 h1 =>
    cases y with
    | nan => simp [F64.isZero] at hy
    | inf s => simp [F64.isZero] at hy
    | fin s2 m2 k2 h2 =>
      simp only [F64.isZero, decide_eq_true_eq] at hy
      subst hy
      by_cases hm : m1 = 0
      · subst hm
        simp [F64.add, F64.signed, F64.zero, F64.isFinite]
      · obtain ⟨hs, hab, hsg⟩ := F64.signed_add_zero s1 s2 (m1 * 2 ^ k1) k2
          (Nat.mul_pos (by omega) (Nat.pow_pos (by decide)))
        simp only [F64.add, hs, if_false, hab]
        rw [roundQ_exact _ m1 k1 h1 (by omega)]
        rfl

/-- A factor below `2 ^ (-1)` cannot make a finite product overflow. -/
theorem F64.mul_isFinite_small (s1 : Bool) (m1 k1 : Nat) (h1 : validFin m1 k1) (hk : k1 ≤ 1020)
    (y : F64) (hy : y.isFinite = true) : (F64.mul (.fin s1 m1 k1 h1) y).isFinite = true := by
  cases y with
  | nan => simp [F64.isFinite] at hy
  | inf s => simp [F64.isFinite] at hy
  | fin s2 m2 k2 h2 =>
    by_cases hz : m1 = 0 ∨ m2 = 0
    · simp [F64.mul, hz, F64.zero, F64.isFinite]
    · simp only [F64.mul, hz, if_false]
      have hm1 : 0 < m1 := by omega
      have hm2 : 0 < m2 := by omega
      obtain ⟨a1, _, _⟩ := h1
      obtain ⟨b1, b2, _⟩ := h2
      have hb : m1 * m2 * 2 ^ (k1 + k2) < 2 ^ 52 * (2 ^ 1074 * 2 ^ 2045) := by
        have e1 : m1 * m2 < 2 ^ 53 * 2 ^ 53 := Nat.mul_lt_mul'' a1 b1
        have e2 : 2 ^ (k1 + k2) ≤ 2 ^ (1020 + 2045) := Nat.pow_le_pow_right (by decide) (by omega)
        have e3 : m1 * m2 * 2 ^ (k1 + k2) < 2 ^ 53 * 2 ^ 53 * 2 ^ (1020 + 2045) :=
          Nat.mul_lt_mul_of_lt_of_le e1 e2 (Nat.pow_pos (by decide))
        have e4 : (2 : Nat) ^ 53 * 2 ^ 53 * 2 ^ (1020 + 2045) = 2 ^ 52 * (2 ^ 1074 * 2 ^ 2045) := by
          rw [← pow_add, ← pow_add, ← pow_add, ← pow_add]
        omega
      obtain ⟨m, k, hv, h⟩ := roundQ_finite (xor s1 s2) _ _
        (Nat.mul_pos (Nat.mul_pos hm1 hm2) (Nat.pow_pos (by decide))) (Nat.pow_pos (by decide)) hb
      rw [h]
      rfl

theorem math.PowTwo_zero (x : F64) (hx : x.isZero = true) : math.PowTwo x = F64.zero false := by
  cases x with
  | nan => simp [F64.isZero] at hx
  | inf s => simp [F64.isZero] at hx
  | fin s m k h =>
    simp only [F64.isZero, decide_eq_true_eq] at hx
    subst hx
    have h1 : F64.ofInt 1 = .fin false 4503599627370496 1022 (by decide) := by decide
    unfold math.PowTwo
    rw [h1]
    have h2 : (F64.fin s 0 k h).eqb (.fin false 4503599627370496 1022 (by decide)) = false := by
      simp only [F64.eqb, F64.signed, Nat.zero_mul]
      cases s <;> simp
    simp [h2, F64.isNaN, F64.isZero]

theorem F64.mul_nan_right (x : F64) : F64.mul x .nan = .nan := by
  cases x <;> rfl

theorem F64.add_nan_right (x : F64) : F64.add x .nan = .nan := by
  cases x <;> rfl

/-- Zero divided by anything is zero or NaN. -/
theorem F64.div_zero_cases (s : Bool) (q : F64) :
    (q.isNaN = false ∧ q.isZero = false ∧ (F64.div (F64.zero s) q).isZero = true) ∨
      ((q.isNaN = true ∨ q.isZero = true) ∧ F64.div (F64.zero s) q = .nan) := by
  cases q with
  | nan => right; exact ⟨Or.inl rfl, rfl⟩
  | inf t => left; exact ⟨rfl, rfl, rfl⟩
  | fin t m k h =>
    by_cases hm : m = 0
    · right
      subst hm
      exact ⟨Or.inr rfl, by simp [F64.div, F64.zero]⟩
    · left
      refine ⟨rfl, by simp [F64.isZero, hm], ?_⟩
      simp [F64.div, F64.zero, hm, F64.isZero]

theorem F64.mul_zero_inf (x : F64) (s : Bool) (hx : x.isZero = true) :
    F64.mul x (.inf s) = .nan := by
  cases x <;> simp_all [F64.isZero, F64.mul]

theorem Duration.Hours_zero : Duration.Hours 0 = F64.zero false := by decide

/-- The value of the generic mean speed. -/
theorem genericSpeed_val (t : Training) :
    t.meanSpeed.1 = (if t.Duration = 0 then F64.zero false
        else F64.div t.distance (Duration.Hours t.Duration)) := by
  unfold Training.meanSpeed fzero
  rw [F64.eqb_zero, Duration.Hours_isZero]
  by_cases h : t.Duration = 0 <;> simp [h]

/-- The value of the pool-based mean speed. -/
theorem poolSpeed_val (s : Swimming) :
    s.meanSpeed.1 = (if s.Duration = 0 then F64.zero false
        else F64.div (F64.div (F64.ofInt (wrapInt64 (s.LengthPool * s.CountPool)))
          (F64.ofInt 1000)) (Duration.Hours s.Duration)) := by
  unfold Swimming.meanSpeed fzero
  rw [F64.eqb_zero, Duration.Hours_isZero]
  by_cases h : s.Duration = 0 <;> simp [h, MInKm]

/-- The walking formula at zero speed and zero hours, as a function of the
weight `W` and of the height in metres `Q`: zero when the weight is finite and
the height a non-zero number, NaN in every other case. -/
theorem walking_collapse (W Q : F64) :
    ((F64.mul (F64.mul (F64.add (F64.mul (F64.ofRat 35 1000) W)
        (F64.mul (F64.mul (F64.div (F64.zero false) Q) (F64.ofRat 29 1000)) W))
        (F64.zero false)) (F64.ofInt 60)).isZero
      = (W.isFinite && !Q.isNaN && !Q.isZero)) ∧
    ((W.isFinite && !Q.isNaN && !Q.isZero) = false →
      F64.mul (F64.mul (F64.add (F64.mul (F64.ofRat 35 1000) W)
        (F64.mul (F64.mul (F64.div (F64.zero false) Q) (F64.ofRat 29 1000)) W))
        (F64.zero false)) (F64.ofInt 60) = .nan) := by
  have c35 : F64.ofRat 35 1000 = .fin false 5044031582654956 1017 (by decide) := by decide
  have c29 : F64.ofRat 29 1000 = .fin false 8358680908399641 1016 (by decide) := by decide
  have c60 : F64.ofInt 60 = .fin false 8444249301319680 1027 (by decide) := by decide
  rw [c35, c29, c60]
  rcases F64.div_zero_cases false Q with ⟨hn, hz, hd⟩ | ⟨hq, hd⟩
  · -- the height is a non-zero number
    have hX : (F64.mul (F64.div (F64.zero false) Q)
        (.fin false 8358680908399641 1016 (by decide))).isZero = true :=
      F64.mul_isZero_left _ _ hd rfl
    cases W with
    | nan =>
      simp [F64.isFinite, F64.mul, F64.mul_nan_right, F64.add, F64.isZero]
    | inf t =>
      rw [F64.mul_zero_inf _ _ hX, F64.add_nan_right]
      simp [F64.isFinite, F64.mul, F64.isZero]
    | fin t m k h =>
      have hT := F64.mul_isZero_left _ (.fin t m k h) hX rfl
      have hU := F64.mul_isFinite_small false 5044031582654956 1017 (by decide) (by decide)
        (.fin t m k h) rfl
      have hS := F64.add_isFinite_zero _ _ hU hT
      have hM := F64.mul_isZero_right _ (F64.zero false) hS rfl
      have hR := F64.mul_isZero_left _ (.fin false 8444249301319680 1027 (by decide)) hM rfl
      simp [hR, hn, hz, F64.isFinite]
  · -- the height in metres is NaN or zero
    rw [hd]
    have hb : (W.isFinite && !Q.isNaN && !Q.isZero) = false := by
      rcases hq with h | h <;> simp [h]
    rw [hb]
    simp [F64.mul, F64.mul_nan_right, F64.add_nan_right, F64.isZero]

/-- The swimming formula at zero hours: zero when the weighted factor is finite,
NaN otherwise. -/
theorem swimming_collapse (V : F64) :
    (F64.mul V (F64.zero false)).isZero = V.isFinite ∧
      (V.isFinite = false → F64.mul V (F64.zero false) = .nan) := by
  cases V <;> simp [F64.mul, F64.zero, F64.isZero, F64.isFinite]


/-! ## Formatting lemmas -/

theorem digitChar_ne_newline : ∀ d, d < 10 → Nat.digitChar d ≠ '\n' := by decide

theorem toDigitsCore_oneLine (fuel : Nat) : ∀ (n : Nat) (ds : List Char), '\n' ∉ ds →
    '\n' ∉ Nat.toDigitsCore 10 fuel n ds := by
  induction fuel with
  | zero => intro n ds h; simpa [Nat.toDigitsCore] using h
  | succ f ih =>
    intro n ds h
    have hc : '\n' ∉ Nat.digitChar (n % 10) :: ds := by
      intro hm
      rcases List.mem_cons.mp hm with h1 | h1
      · exact digitChar_ne_newline _ (Nat.mod_lt _ (by decide)) h1.symm
      · exact h h1
    simp only [Nat.toDigitsCore]
    split_ifs
    · exact hc
    · exact ih _ _ hc

theorem digits_oneLine (n : Nat) : '\n' ∉ fmt.digits n := by
  unfold fmt.digits Nat.toDigits
  exact toDigitsCore_oneLine _ _ _ (by simp)

theorem replicate_oneLine (j : Nat) : '\n' ∉ List.replicate j '0' := by
  intro hm
  exact absurd (List.eq_of_mem_replicate hm) (by decide)

theorem padZeros_oneLine (k : Nat) (cs : List Char) (h : '\n' ∉ cs) :
    '\n' ∉ fmt.padZeros k cs := by
  unfold fmt.padZeros
  intro hm
  rcases List.mem_append.mp hm with h1 | h1
  · exact replicate_oneLine _ h1
  · exact h h1

theorem trimZeros_oneLine (cs : List Char) (h : '\n' ∉ cs) : '\n' ∉ fmt.trimZeros cs := by
  have hsub : '\n' ∉ (cs.reverse.dropWhile (fun c => c == '0')).reverse := by
    intro hm
    have h1 := List.mem_reverse.mp hm
    have h2 := (List.dropWhile_sublist (fun c => c == '0')).subset h1
    exact h (List.mem_reverse.mp h2)
  unfold fmt.trimZeros
  generalize (cs.reverse.dropWhile (fun c => c == '0')).reverse = l at hsub
  cases l with
  | nil => decide
  | cons a t => exact hsub

theorem sign_oneLine (s : Bool) : '\n' ∉ (if s = true then ['-'] else [] : List Char) := by
  cases s <;> decide

theorem fixed_oneLine (prec : Nat) (x : F64) : '\n' ∉ (fmt.fixed prec x).data := by
  cases x with
  | nan => simp only [fmt.fixed]; decide
  | inf s => cases s <;> simp only [fmt.fixed] <;> decide
  | fin s m k h =>
    simp only [fmt.fixed]
    intro hm
    rcases List.mem_append.mp hm with h1 | h1
    · rcases List.mem_append.mp h1 with h2 | h2
      · exact sign_oneLine s h2
      · exact digits_oneLine _ h2
    · by_cases hp : prec = 0
      · simp [hp] at h1
      · rw [if_neg hp] at h1
        rcases List.mem_cons.mp h1 with h2 | h2
        · exact absurd h2 (by decide)
        · exact padZeros_oneLine _ _ (digits_oneLine _) h2

theorem expPart_oneLine (x : Int) : '\n' ∉ fmt.expPart x := by
  unfold fmt.expPart
  intro hm
  rcases List.mem_cons.mp hm with h1 | h1
  · exact absurd h1 (by decide)
  · rcases List.mem_cons.mp h1 with h2 | h2
    · by_cases hx : x < 0
      · rw [if_pos hx] at h2; exact absurd h2 (by decide)
      · rw [if_neg hx] at h2; exact absurd h2 (by decide)
    · exact padZeros_oneLine _ _ (digits_oneLine _) h2

theorem shortestDigits_oneLine (m k : Nat) : '\n' ∉ (fmt.shortestDigits m k).1 := by
  unfold fmt.shortestDigits
  exact trimZeros_oneLine _ (digits_oneLine _)

theorem general_oneLine (x : F64) : '\n' ∉ (fmt.general x).data := by
  cases x with
  | nan => decide
  | inf s => cases s <;> decide
  | fin s m k h =>
    have hs := sign_oneLine s
    have hd := shortestDigits_oneLine m k
    have ht : ∀ j, '\n' ∉ (fmt.shortestDigits m k).1.take j :=
      fun j hm => hd (List.mem_of_mem_take hm)
    have hr : ∀ j, '\n' ∉ (fmt.shortestDigits m k).1.drop j :=
      fun j hm => hd (List.mem_of_mem_drop hm)
    have hz := replicate_oneLine
    simp only [fmt.general]
    by_cases hm0 : m = 0
    · rw [if_pos hm0]
      intro hm
      rcases List.mem_append.mp hm with h1 | h1
      · exact hs h1
      · exact absurd h1 (by decide)
    · rw [if_neg hm0]
      by_cases he : (fmt.shortestDigits m k).2 - 1 < -4 ∨ 6 ≤ (fmt.shortestDigits m k).2 - 1
      · rw [if_pos he]
        intro hm
        rcases List.mem_append.mp hm with h1 | h1
        · rcases List.mem_append.mp h1 with h2 | h2
          · rcases List.mem_append.mp h2 with h3 | h3
            · exact hs h3
            · exact ht _ h3
          · by_cases hl : (fmt.shortestDigits m k).1.length ≤ 1
            · rw [if_pos hl] at h2
              simp at h2
            · rw [if_neg hl] at h2
              rcases List.mem_cons.mp h2 with h3 | h3
              · exact absurd h3 (by decide)
              · exact hr _ h3
        · exact expPart_oneLine _ h1
      · rw [if_neg he]
        by_cases hp : (fmt.shortestDigits m k).2 ≤ 0
        · rw [if_pos hp]
          intro hm
          rcases List.mem_append.mp hm with h1 | h1
          · exact hs h1
          · rcases List.mem_cons.mp h1 with h2 | h2
            · exact absurd h2 (by decide)
            · rcases List.mem_cons.mp h2 with h3 | h3
              · exact absurd h3 (by decide)
              · rcases List.mem_append.mp h3 with h4 | h4
                · exact hz _ h4
                · exact hd h4
        · rw [if_neg hp]
          by_cases hl : ((fmt.shortestDigits m k).1.length : Int) ≤ (fmt.shortestDigits m k).2
          · rw [if_pos hl]
            intro hm
            rcases List.mem_append.mp hm with h1 | h1
            · rcases List.mem_append.mp h1 with h2 | h2
              · exact hs h2
              · exact hd h2
            · exact hz _ h1
          · rw [if_neg hl]
            intro hm
            rcases List.mem_append.mp hm with h1 | h1
            · rcases List.mem_append.mp h1 with h2 | h2
              · exact hs h2
              · exact ht _ h2
            · rcases List.mem_cons.mp h1 with h2 | h2
              · exact absurd h2 (by decide)
              · exact hr _ h2

/-! ## Sign lemmas -/

theorem F64.signClear_nonNeg (x : F64) (h : x.signClear) : x.nonNeg := by
  cases x <;> simp_all [F64.signClear, F64.nonNeg]

theorem F64.nonNeg_iff (x : F64) :
    x.nonNeg ↔ (x.isNaN = true ∨ (F64.zero false).leb x = true) := by
  cases x with
  | nan => simp [F64.nonNeg, F64.isNaN]
  | inf s => cases s <;> simp [F64.nonNeg, F64.isNaN, F64.leb, F64.ltb, F64.eqb, F64.zero]
  | fin s m k h =>
    have hp : 0 < 2 ^ k := Nat.pow_pos (by decide)
    cases s
    · simp only [F64.nonNeg, F64.isNaN, F64.leb, F64.ltb, F64.eqb, F64.zero, F64.signed]
      simp
      rcases Nat.eq_zero_or_pos m with hm | hm
      · right; simp [hm]
      · left; positivity
    · simp only [F64.nonNeg, F64.isNaN, F64.leb, F64.ltb, F64.eqb, F64.zero, F64.signed]
      simp
      intro hm
      exfalso
      have : (0 : Int) ≤ (m : Int) * 2 ^ k := by positivity
      omega

theorem roundQ_signClear (n d : Nat) : (roundQ false n d).signClear := by
  unfold roundQ
  split_ifs with hd hn
  · trivial
  · rfl
  · rcases roundQ_cases false n d (by omega) (by omega) with ⟨h, _⟩ | ⟨m, k, hv, h, _⟩
    · unfold roundQ at h
      simp only [hd, hn, if_false] at h
      rw [h]; rfl
    · unfold roundQ at h
      simp only [hd, hn, if_false] at h
      rw [h]; rfl

theorem F64.ofRat_signClear (n d : Nat) : (F64.ofRat n d).signClear :=
  roundQ_signClear _ _

theorem F64.ofInt_signClear (i : Int) (h : 0 ≤ i) : (F64.ofInt i).signClear := by
  unfold F64.ofInt roundRat
  have : decide (i < 0) = false := by simp; omega
  rw [this]
  exact roundQ_signClear _ _

theorem F64.signed_nonneg (s : Bool) (m k : Nat) (h : s = false ∨ m = 0) :
    0 ≤ F64.signed s (m * 2 ^ k) := by
  unfold F64.signed
  rcases h with h | h
  · subst h; simp
  · subst h; cases s <;> simp

theorem F64.add_nonNeg (x y : F64) (hx : x.nonNeg) (hy : y.nonNeg) : (F64.add x y).nonNeg := by
  cases x with
  | nan => cases y <;> trivial
  | inf a =>
    cases y with
    | nan => trivial
    | inf b =>
      simp only [F64.nonNeg] at hx hy
      subst hx; subst hy
      simp [F64.add, F64.nonNeg]
    | fin b m k h => simpa [F64.add, F64.nonNeg] using hx
  | fin a m1 k1 h1 =>
    cases y with
    | nan => trivial
    | inf b => simpa [F64.add, F64.nonNeg] using hy
    | fin b m2 k2 h2 =>
      have e1 := F64.signed_nonneg a m1 k1 hx
      have e2 := F64.signed_nonneg b m2 k2 hy
      simp only [F64.add]
      split_ifs with h0 hz
      · obtain ⟨hz1, hz2⟩ := hz
        simp [F64.zero, F64.nonNeg]
      · simp [F64.zero, F64.nonNeg]
      · have : decide (F64.signed a (m1 * 2 ^ k1) + F64.signed b (m2 * 2 ^ k2) < 0) = false := by
          simp; omega
        rw [this]
        exact F64.signClear_nonNeg _ (roundQ_signClear _ _)

theorem F64.mul_nonNeg (x y : F64) (hx : x.nonNeg) (hy : y.nonNeg) : (F64.mul x y).nonNeg := by
  cases x with
  | nan => cases y <;> trivial
  | inf a =>
    cases y with
    | nan => trivial
    | inf b =>
      simp only [F64.nonNeg] at hx hy
      subst hx; subst hy
      simp [F64.mul, F64.nonNeg]
    | fin b m k h =>
      simp only [F64.nonNeg] at hx hy
      subst hx
      simp only [F64.mul]
      split_ifs with hm
      · trivial
      · rcases hy with hy | hy
        · subst hy; simp [F64.nonNeg]
        · exact absurd hy hm
  | fin a m1 k1 h1 =>
    cases y with
    | nan => trivial
    | inf b =>
      simp only [F64.nonNeg] at hx hy
      subst hy
      simp only [F64.mul]
      split_ifs with hm
      · trivial
      · rcases hx with hx | hx
        · subst hx; simp [F64.nonNeg]
        · exact absurd hx hm
    | fin b m2 k2 h2 =>
      simp only [F64.nonNeg] at hx hy
      simp only [F64.mul]
      split_ifs with hm
      · simp [F64.zero, F64.nonNeg]
      · have ha : a = false := by
          rcases hx with hx | hx
          · exact hx
          · exact absurd (Or.inl hx) hm
        have hb : b = false := by
          rcases hy with hy | hy
          · exact hy
          · exact absurd (Or.inr hy) hm
        subst ha; subst hb
        exact F64.signClear_nonNeg _ (roundQ_signClear _ _)

theorem F64.div_signClear (x y : F64) (hx : x.signClear) (hy : y.signClear) :
    (F64.div x y).signClear := by
  cases x with
  | nan => cases y <;> trivial
  | inf a =>
    cases y with
    | nan => trivial
    | inf b => trivial
    | fin b m k h =>
      simp only [F64.signClear] at hx hy
      subst hx; subst hy
      simp [F64.div, F64.signClear]
  | fin a m1 k1 h1 =>
    cases y with
    | nan => trivial
    | inf b =>
      simp only [F64.signClear] at hx hy
      subst hx; subst hy
      simp [F64.div, F64.signClear, F64.zero]
    | fin b m2 k2 h2 =>
      simp only [F64.signClear] at hx hy
      subst hx; subst hy
      simp only [F64.div]
      split_ifs
      · trivial
      · simp [F64.signClear]
      · simp [F64.signClear, F64.zero]
      · exact roundQ_signClear _ _

theorem F64.div_nonNeg (x y : F64) (hx : x.nonNeg) (hy : y.signClear) :
    (F64.div x y).nonNeg := by
  cases x with
  | nan => cases y <;> trivial
  | inf a =>
    cases y with
    | nan => trivial
    | inf b => trivial
    | fin b m k h =>
      simp only [F64.nonNeg] at hx
      simp only [F64.signClear] at hy
      subst hx; subst hy
      simp [F64.div, F64.nonNeg]
  | fin a m1 k1 h1 =>
    cases y with
    | nan => trivial
    | inf b =>
      simp [F64.div, F64.nonNeg, F64.zero]
    | fin b m2 k2 h2 =>
      simp only [F64.nonNeg] at hx
      simp only [F64.signClear] at hy
      subst hy
      simp only [F64.div]
      split_ifs with hm2 hm1 hm1'
      · trivial
      · rcases hx with hx | hx
        · subst hx; simp [F64.nonNeg]
        · exact absurd hx hm1
      · simp [F64.nonNeg, F64.zero]
      · rcases hx with hx | hx
        · subst hx
          exact F64.signClear_nonNeg _ (roundQ_signClear _ _)
        · exact absurd hx hm1'

theorem F64.add_signClear (x y : F64) (hx : x.signClear) (hy : y.signClear) :
    (F64.add x y).signClear := by
  cases x with
  | nan => cases y <;> trivial
  | inf a =>
    cases y with
    | nan => trivial
    | inf b =>
      simp only [F64.signClear] at hx hy
      subst hx; subst hy
      simp [F64.add, F64.signClear]
    | fin b m k h => simpa [F64.add, F64.signClear] using hx
  | fin a m1 k1 h1 =>
    cases y with
    | nan => trivial
    | inf b => simpa [F64.add, F64.signClear] using hy
    | fin b m2 k2 h2 =>
      simp only [F64.signClear] at hx hy
      subst hx; subst hy
      simp only [F64.add]
      split_ifs
      · simp [F64.zero, F64.signClear]
      · simp [F64.zero, F64.signClear]
      · have : decide (F64.signed false (m1 * 2 ^ k1) + F64.signed false (m2 * 2 ^ k2) < 0)
            = false := by
          simp only [F64.signed]
          simp
          positivity
        rw [this]
        exact roundQ_signClear _ _

theorem F64.mul_self_signClear (y : F64) : (F64.mul y y).signClear := by
  cases y with
  | nan => trivial
  | inf a => simp [F64.mul, F64.signClear]
  | fin a m k h =>
    simp only [F64.mul]
    split_ifs
    · simp [F64.zero, F64.signClear]
    · rw [Bool.xor_self]
      exact roundQ_signClear _ _

theorem F64.mul_signClear (x y : F64) (hx : x.signClear) (hy : y.signClear) :
    (F64.mul x y).signClear := by
  cases x with
  | nan => cases y <;> trivial
  | inf a =>
    cases y with
    | nan => trivial
    | inf b =>
      simp only [F64.signClear] at hx hy
      subst hx; subst hy
      simp [F64.mul, F64.signClear]
    | fin b m k h =>
      simp only [F64.signClear] at hx hy
      subst hx; subst hy
      simp only [F64.mul]
      split_ifs
      · trivial
      · simp [F64.signClear]
  | fin a m1 k1 h1 =>
    cases y with
    | nan => trivial
    | inf b =>
      simp only [F64.signClear] at hx hy
      subst hx; subst hy
      simp only [F64.mul]
      split_ifs
      · trivial
      · simp [F64.signClear]
    | fin b m2 k2 h2 =>
      simp only [F64.signClear] at hx hy
      subst hx; subst hy
      simp only [F64.mul]
      split_ifs
      · simp [F64.zero, F64.signClear]
      · exact roundQ_signClear _ _

theorem math.Ldexp_signClear (z : F64) (e : Int) (hz : z.signClear) :
    (math.Ldexp z e).signClear := by
  cases z with
  | nan => trivial
  | inf a => simpa [math.Ldexp] using hz
  | fin a m k h =>
    simp only [F64.signClear] at hz
    subst hz
    simp only [math.Ldexp]
    split_ifs
    · rfl
    · exact roundQ_signClear _ _

/-- A square is never negative. -/
theorem math.PowTwo_signClear (x : F64) : (math.PowTwo x).signClear := by
  unfold math.PowTwo
  split_ifs
  · exact F64.ofInt_signClear 1 (by decide)
  · trivial
  · rfl
  · rfl
  · apply math.Ldexp_signClear
    apply F64.mul_signClear _ _ (F64.ofInt_signClear 1 (by decide))
    split_ifs
    · exact F64.add_signClear _ _ (F64.mul_self_signClear _) (F64.mul_self_signClear _)
    · exact F64.mul_self_signClear _

/-- The hour count of a non-negative duration has a clear sign bit. -/
theorem Duration.Hours_signClear (d : Int) (hd : 0 ≤ d) : (Duration.Hours d).signClear := by
  obtain ⟨_, hpos, _⟩ := tdiv_tmod_signs d Hour (by decide)
  obtain ⟨h1, h2⟩ := hpos hd
  unfold Duration.Hours
  exact F64.add_signClear _ _ (F64.ofInt_signClear _ h1)
    (F64.div_signClear _ _ (F64.ofInt_signClear _ h2) (F64.ofInt_signClear _ (by decide)))

/-- A height that is `>= 0` and not `== 0` has a clear sign bit. -/
theorem F64.signClear_of_pos (x : F64) (h1 : (F64.zero false).leb x = true)
    (h2 : x.isZero = false) : x.signClear := by
  have hn := (F64.nonNeg_iff x).mpr (Or.inr h1)
  cases x with
  | nan => trivial
  | inf s => exact hn
  | fin s m k h =>
    simp only [F64.nonNeg] at hn
    simp only [F64.isZero, decide_eq_false_iff_not] at h2
    rcases hn with hn | hn
    · exact hn
    · exact absurd hn h2

/-! ## Rounding error -/

theorem rne_near (q r den : Nat) :
    2 * (roundNearestEven q r den * den) ≤ 2 * (q * den + r) + den ∧
      (r < den → 2 * (q * den + r) ≤ 2 * (roundNearestEven q r den * den) + den) := by
  unfold roundNearestEven
  split_ifs with h1 h2 h3
  · constructor
    · omega
    · intro _; omega
  · constructor
    · rw [Nat.add_mul]; omega
    · intro _; rw [Nat.add_mul]; omega
  · constructor
    · omega
    · intro _; omega
  · constructor
    · rw [Nat.add_mul]; omega
    · intro _; rw [Nat.add_mul]; omega

/-- The outcome of `roundAt` is within half a unit of the exponent `k` of the
value rounded. -/
theorem roundAt_near (s : Bool) (n d k : Nat) (hd : 0 < d) (hq : n / (d * 2 ^ k) < 2 ^ 53)
    (hk : 0 < k → 2 ^ 52 ≤ n / (d * 2 ^ k)) :
    (roundAt s n d k = .inf s ∧ 2045 ≤ k) ∨
      ∃ m k1 h, roundAt s n d k = .fin s m k1 h ∧ k ≤ k1 ∧
        2 * (m * 2 ^ k1 * d) ≤ 2 * n + d * 2 ^ k ∧ 2 * n ≤ 2 * (m * 2 ^ k1 * d) + d * 2 ^ k := by
  have hpos : 0 < d * 2 ^ k := Nat.mul_pos hd (Nat.pow_pos (by decide))
  have hdm := Nat.div_add_mod n (d * 2 ^ k)
  have hml := Nat.mod_lt n hpos
  obtain ⟨n1, n2⟩ := rne_near (n / (d * 2 ^ k)) (n % (d * 2 ^ k)) (d * 2 ^ k)
  have n2 := n2 hml
  have hcomm : n / (d * 2 ^ k) * (d * 2 ^ k) + n % (d * 2 ^ k) = n := by
    rw [Nat.mul_comm]; exact hdm
  rw [hcomm] at n1 n2
  rcases roundAt_cases s n d k hq hk with h | ⟨m, k1, hv, h1, h2⟩
  · exact Or.inl h
  · right
    have hk1 : k ≤ k1 := by
      unfold roundAt at h1
      unfold pack at h1
      split_ifs at h1 <;> (injection h1 with _ _ e3; omega)
    refine ⟨m, k1, hv, h1, hk1, ?_, ?_⟩
    · have : m * 2 ^ k1 * d
          = roundNearestEven (n / (d * 2 ^ k)) (n % (d * 2 ^ k)) (d * 2 ^ k) * (d * 2 ^ k) := by
        rw [h2]; ring
      rw [this]; exact n1
    · have : m * 2 ^ k1 * d
          = roundNearestEven (n / (d * 2 ^ k)) (n % (d * 2 ^ k)) (d * 2 ^ k) * (d * 2 ^ k) := by
        rw [h2]; ring
      rw [this]; exact n2

/-- Rounding error of `roundQ`: a finite result `m * 2 ^ k` lies within half
a unit in the last place of the value `n / d`. -/
theorem roundQ_near (s : Bool) (n d : Nat) (hn : 0 < n) (hd : 0 < d) :
    (roundQ s n d = .inf s ∧ 2 ^ 52 * (d * 2 ^ 2045) ≤ n) ∨
      ∃ m k h, roundQ s n d = .fin s m k h ∧
        2 * (m * 2 ^ k * d) ≤ 2 * n + d * 2 ^ k ∧ 2 * n ≤ 2 * (m * 2 ^ k * d) + d * 2 ^ k ∧
        (2 ^ 53 * d ≤ n →
          2 ^ 53 * (m * 2 ^ k * d) ≤ (2 ^ 53 + 1) * n ∧
            (2 ^ 53 - 1) * n ≤ 2 ^ 53 * (m * 2 ^ k * d)) := by
  obtain ⟨hq, hk⟩ := pickExp_spec n d hn hd
  rcases roundQ_cases s n d hn hd with h | hfin
  · exact Or.inl h
  · right
    have hd0 : d ≠ 0 := by omega
    have hn0 : n ≠ 0 := by omega
    rcases roundAt_near s n d (pickExp n d) hd hq hk with ⟨h1, _⟩ | ⟨m, k1, hv, h1, h2, h3, h4⟩
    · exfalso
      obtain ⟨m, k1, hv, hf, _⟩ := hfin
      unfold roundQ at hf
      simp only [hd0, hn0, if_false] at hf
      rw [h1] at hf
      cases hf
    · have hle : d * 2 ^ pickExp n d ≤ d * 2 ^ k1 :=
        Nat.mul_le_mul_left _ (Nat.pow_le_pow_right (by decide) h2)
      refine ⟨m, k1, hv, ?_, by omega, by omega, ?_⟩
      · unfold roundQ
        simp only [hd0, hn0, if_false]
        exact h1
      · intro hbig
        have hpos : 0 < d * 2 ^ pickExp n d := Nat.mul_pos hd (Nat.pow_pos (by decide))
        have hk0 : 0 < pickExp n d := by
          by_contra hc
          have hc0 : pickExp n d = 0 := by omega
          rw [hc0] at hq
          simp only [pow_zero, Nat.mul_one] at hq
          rw [Nat.div_lt_iff_lt_mul hd] at hq
          omega
        have h52 := hk hk0
        rw [Nat.le_div_iff_mul_le hpos] at h52
        constructor <;> omega

/-- Rounding does not go above a power of two that bounds the value, and a
value so bounded within the exponent range gives a finite result. -/
theorem roundQ_le_pow (s : Bool) (n d j : Nat) (hn : 0 < n) (hd : 0 < d) (hj : j ≤ 2096)
    (h : n ≤ 2 ^ j * d) :
    ∃ m k hv, roundQ s n d = .fin s m k hv ∧ m * 2 ^ k ≤ 2 ^ j := by
  rcases roundQ_cases s n d hn hd with ⟨_, h2⟩ | ⟨m, k1, hv, h1, k, M, e1, e2, e3, e4, e5, e6⟩
  · exfalso
    have h3 : 2 ^ (j + 1) * d ≤ 2 ^ 2097 * d :=
      Nat.mul_le_mul_right _ (Nat.pow_le_pow_right (by decide) (by omega))
    have h4 : (2 : Nat) ^ 2097 * d = 2 ^ 52 * (d * 2 ^ 2045) := by
      have : (2 : Nat) ^ 2097 = 2 ^ 52 * 2 ^ 2045 := by rw [← pow_add]
      rw [this]; ring
    have h7 : 0 < 2 ^ j * d := Nat.mul_pos (Nat.pow_pos (by decide)) hd
    have h8 : 2 ^ (j + 1) * d = 2 * (2 ^ j * d) := by rw [pow_succ]; ring
    rw [h4] at h3
    rw [h8] at h3
    omega
  · refine ⟨m, k1, hv, h1, ?_⟩
    rw [e1]
    have hpos : 0 < d * 2 ^ k := Nat.mul_pos hd (Nat.pow_pos (by decide))
    by_cases hkj : k ≤ j
    · have hq : n / (d * 2 ^ k) ≤ 2 ^ (j - k) := by
        have hlt : n / (d * 2 ^ k) < 2 ^ (j - k) + 1 := by
          rw [Nat.div_lt_iff_lt_mul hpos]
          have e : 2 ^ (j - k) * (d * 2 ^ k) = 2 ^ j * d := by
            have hj2 : j = (j - k) + k := by omega
            conv_rhs => rw [hj2, pow_add]
            ring
          rw [Nat.add_mul, e, Nat.one_mul]
          omega
        omega
      have hM : M ≤ 2 ^ (j - k) := by
        by_cases heq : n / (d * 2 ^ k) = 2 ^ (j - k)
        · have e : 2 ^ (j - k) * (d * 2 ^ k) = 2 ^ j * d := by
            have hj2 : j = (j - k) + k := by omega
            conv_rhs => rw [hj2, pow_add]
            ring
          have hdm := Nat.div_add_mod n (d * 2 ^ k)
          rw [heq, Nat.mul_comm, e] at hdm
          have hr : n % (d * 2 ^ k) = 0 := by omega
          rw [e4 hr, heq]
        · omega
      calc M * 2 ^ k ≤ 2 ^ (j - k) * 2 ^ k := Nat.mul_le_mul_right _ hM
        _ = 2 ^ j := by rw [← pow_add]; congr 1; omega
    · exfalso
      have h52 := e6 (by omega)
      rw [Nat.le_div_iff_mul_le hpos] at h52
      have h1k : 2 ^ (j + 1) ≤ 2 ^ k := Nat.pow_le_pow_right (by decide) (by omega)
      have h2k : 2 ^ 52 * (d * 2 ^ (j + 1)) ≤ 2 ^ 52 * (d * 2 ^ k) :=
        Nat.mul_le_mul_left _ (Nat.mul_le_mul_left _ h1k)
      have h3k : 2 ^ 52 * (d * 2 ^ (j + 1)) = 2 ^ 53 * (2 ^ j * d) := by
        rw [pow_succ]; ring
      have h4k : 0 < 2 ^ j * d := Nat.mul_pos (Nat.pow_pos (by decide)) hd
      omega

/-- Rounding in the normal range: a value of at least `2 ^ 53` units that stays
below `2 ^ j` units gives a finite result with relative error at most
`2 ^ (-53)`. -/
theorem roundQ_rel (s : Bool) (n d j : Nat) (hd : 0 < d) (hj : j ≤ 2096)
    (h1 : 2 ^ 53 * d ≤ n) (h2 : n ≤ 2 ^ j * d) :
    ∃ m k hv, roundQ s n d = .fin s m k hv ∧ m * 2 ^ k ≤ 2 ^ j ∧
      2 ^ 53 * (m * 2 ^ k * d) ≤ (2 ^ 53 + 1) * n ∧
      (2 ^ 53 - 1) * n ≤ 2 ^ 53 * (m * 2 ^ k * d) := by
  have hn : 0 < n := by
    have : 0 < 2 ^ 53 * d := Nat.mul_pos (Nat.pow_pos (by decide)) hd
    omega
  obtain ⟨m, k, hv, e1, e2⟩ := roundQ_le_pow s n d j hn hd hj h2
  rcases roundQ_near s n d hn hd with ⟨h3, _⟩ | ⟨m1, k1, hv1, f1, _, _, f4⟩
  · rw [e1] at h3; cases h3
  · rw [e1] at f1
    injection f1 with _ hm hk
    subst hm; subst hk
    exact ⟨m, k, hv, e1, e2, (f4 h1).1, (f4 h1).2⟩

/-! ## Quotients against their dividends -/

theorem half_gap (a b c : Int) (h1 : 2 * a ≤ 2 * b + c) (h2 : 2 * b ≤ 2 * a + c) :
    2 * |a - b| ≤ c := by
  rcases abs_cases (a - b) with ⟨h, _⟩ | ⟨h, _⟩ <;> rw [h] <;> omega

theorem near_cast (R Y X T U : Nat) (n1 : 2 * (R * Y) ≤ 2 * (X * T) + Y * U)
    (n2 : 2 * (X * T) ≤ 2 * (R * Y) + Y * U) :
    2 * |(R : Int) * Y - X * T| ≤ (U : Int) * Y := by
  zify at n1 n2
  exact half_gap _ _ _ (by linarith) (by linarith)

theorem F64.signed_quot (s1 s2 : Bool) (R Y X : Nat) (T : Int) :
    |F64.signed (xor s1 s2) R * F64.signed s2 Y - F64.signed s1 X * T| = |(R : Int) * Y - X * T|
      ∧ |F64.signed s2 Y| = (Y : Int) := by
  have hneg : ∀ a b : Int, |(-a) - (-b)| = |a - b| := by
    intro a b
    rw [← abs_neg (a - b)]; congr 1; ring
  cases s1 <;> cases s2 <;>
    simp only [F64.signed, Bool.xor_false, Bool.xor_true, Bool.not_false, Bool.not_true,
      if_true, if_false, Bool.false_eq_true, abs_neg, Nat.abs_cast, neg_mul, mul_neg,
      neg_neg, hneg, and_self]

/-- A finite quotient by a finite non-zero divisor, multiplied back by the
divisor in exact arithmetic, is within half a unit in the last place of the
quotient, times the divisor, of the dividend. -/
theorem F64.div_near_units (x y : F64) (hy : y.isFinite = true) (hz : y.isZero = false)
    (hq : (F64.div x y).isFinite = true) :
    2 * |(F64.div x y).units * y.units - x.units * ((2 ^ 1074 : Nat) : Int)| ≤
      ((F64.div x y).ulpUnits : Int) * |y.units| := by
  have hTpos : 0 < 2 ^ 1074 := Nat.pow_pos (by decide)
  generalize hT : 2 ^ 1074 = T at hTpos ⊢
  cases y with
  | nan => cases hy
  | inf _ => cases hy
  | fin s2 m2 k2 hv2 =>
    have hm2 : m2 ≠ 0 := by simpa [F64.isZero] using hz
    cases x with
    | nan => simp [F64.div, F64.isFinite] at hq
    | inf _ => simp [F64.div, F64.isFinite] at hq
    | fin s1 m1 k1 hv1 =>
      by_cases hm1 : m1 = 0
      · subst hm1
        simp only [F64.div, hm2, if_false, if_true, F64.zero, F64.units, F64.signed,
          F64.ulpUnits]
        cases s1 <;> cases s2 <;> simp
      · have hY : 0 < m2 * 2 ^ k2 := Nat.mul_pos (by omega) (Nat.pow_pos (by decide))
        have hX : 0 < m1 * 2 ^ k1 * T :=
          Nat.mul_pos (Nat.mul_pos (by omega) (Nat.pow_pos (by decide))) hTpos
        simp only [F64.div, hm2, hm1, if_false] at hq ⊢
        rw [hT] at hq ⊢
        rcases roundQ_near (xor s1 s2) _ _ hX hY with ⟨h3, _⟩ | ⟨m, k, hv, e, n1, n2, _⟩
        · rw [h3] at hq; cases hq
        · rw [e]
          simp only [F64.units, F64.ulpUnits]
          obtain ⟨g1, g2⟩ := F64.signed_quot s1 s2 (m * 2 ^ k) (m2 * 2 ^ k2) (m1 * 2 ^ k1) (T : Int)
          rw [g1, g2]
          exact near_cast _ _ _ _ _ n1 n2

/-! ## Exact arithmetic -/

/-- In exact arithmetic the hour count is the nanosecond count over `3.6e12`. -/
theorem Duration.HoursExact_eq (d : Int) :
    Duration.HoursExact d = (d : ℚ) / 3600000000000 := by
  unfold Duration.HoursExact
  have h := Int.tdiv_add_tmod d Hour
  have h2 : ((Hour * d.tdiv Hour + d.tmod Hour : Int) : ℚ) = (d : ℚ) := by rw [h]
  have h3 : ((Hour : Int) : ℚ) = 3600000000000 := by
    unfold Hour; norm_num
  push_cast at h2
  rw [h3] at h2
  rw [← h2]
  field_simp
  ring

theorem Duration.HoursExact_ne_zero (d : Int) (hd : d ≠ 0) : Duration.HoursExact d ≠ 0 := by
  rw [Duration.HoursExact_eq]
  have : (d : ℚ) ≠ 0 := by exact_mod_cast hd
  exact div_ne_zero this (by norm_num)

/-- The exact value of a `float64`, scaled by `2 ^ 1074`, is its count of units. -/
theorem F64.toRat_units (x : F64) : x.toRat * 2 ^ 1074 = (x.units : ℚ) := by
  cases x with
  | nan => simp [F64.toRat, F64.units]
  | inf a => simp [F64.toRat, F64.units]
  | fin s m k hv =>
    unfold F64.toRat F64.units
    exact div_mul_cancel₀ _ (pow_ne_zero _ (by norm_num))

/-! ## Magnitude bounds -/

theorem F64.within_mono (s : Bool) (lo hi lo1 hi1 : Nat) (x : F64) (h : x.within s lo hi)
    (h1 : lo1 ≤ lo) (h2 : hi ≤ hi1) : x.within s lo1 hi1 := by
  obtain ⟨m, k, hv, e, a, b⟩ := h
  exact ⟨m, k, hv, e, le_trans (Nat.pow_le_pow_right (by decide) h1) a,
    le_trans b (Nat.pow_le_pow_right (by decide) h2)⟩

/-- Rounding a value between two powers of two. -/
theorem roundQ_within (s : Bool) (n d lo hi : Nat) (hd : 0 < d) (hhi : hi ≤ 2096)
    (h1 : 2 ^ lo * d ≤ n) (h2 : n ≤ 2 ^ hi * d) : (roundQ s n d).within s lo hi := by
  have hn : 0 < n := lt_of_lt_of_le (Nat.mul_pos (Nat.pow_pos (by decide)) hd) h1
  obtain ⟨m, k, hv, e1, e2⟩ := roundQ_le_pow s n d hi hn hd hhi h2
  rcases roundQ_ge_pow s n d lo hd h1 with h3 | ⟨m1, k1, hv1, f1, f2⟩
  · rw [e1] at h3; cases h3
  · rw [e1] at f1
    injection f1 with _ hm hk
    subst hm; subst hk
    exact ⟨m, k, hv, e1, f2, e2⟩

theorem F64.ofInt_within (i : Int) (hi : i ≠ 0) (j : Nat) (hj : j ≤ 1022)
    (hb : i.natAbs ≤ 2 ^ j) : (F64.ofInt i).within (decide (i < 0)) 1074 (j + 1074) := by
  unfold F64.ofInt roundRat
  apply roundQ_within _ _ _ _ _ (by decide) (by omega)
  · have : 1 ≤ i.natAbs := by omega
    calc 2 ^ 1074 * 1 = 1 * 2 ^ 1074 := by ring
      _ ≤ i.natAbs * 2 ^ 1074 := Nat.mul_le_mul_right _ this
  · calc i.natAbs * 2 ^ 1074 ≤ 2 ^ j * 2 ^ 1074 := Nat.mul_le_mul_right _ hb
      _ = 2 ^ (j + 1074) * 1 := by rw [pow_add]; ring

theorem F64.div_within (s1 s2 : Bool) (a1 b1 a2 b2 lo hi : Nat) (x y : F64)
    (hx : x.within s1 a1 b1) (hy : y.within s2 a2 b2)
    (hlo : lo + b2 ≤ a1 + 1074) (hhi : b1 + 1074 ≤ hi + a2) (hh : hi ≤ 2096) :
    (F64.div x y).within (xor s1 s2) lo hi := by
  obtain ⟨m1, k1, hv1, e1, p1, q1⟩ := hx
  obtain ⟨m2, k2, hv2, e2, p2, q2⟩ := hy
  have hX : 0 < m1 * 2 ^ k1 := lt_of_lt_of_le (Nat.pow_pos (by decide)) p1
  have hY : 0 < m2 * 2 ^ k2 := lt_of_lt_of_le (Nat.pow_pos (by decide)) p2
  have hm1 : m1 ≠ 0 := by
    intro h; subst h; simp at hX
  have hm2 : m2 ≠ 0 := by
    intro h; subst h; simp at hY
  rw [e1, e2]
  simp only [F64.div, hm1, hm2, if_false]
  apply roundQ_within _ _ _ _ _ hY hh
  · calc 2 ^ lo * (m2 * 2 ^ k2) ≤ 2 ^ lo * 2 ^ b2 := Nat.mul_le_mul_left _ q2
      _ = 2 ^ (lo + b2) := by rw [pow_add]
      _ ≤ 2 ^ (a1 + 1074) := Nat.pow_le_pow_right (by decide) hlo
      _ = 2 ^ a1 * 2 ^ 1074 := by rw [pow_add]
      _ ≤ m1 * 2 ^ k1 * 2 ^ 1074 := Nat.mul_le_mul_right _ p1
  · calc m1 * 2 ^ k1 * 2 ^ 1074 ≤ 2 ^ b1 * 2 ^ 1074 := Nat.mul_le_mul_right _ q1
      _ = 2 ^ (b1 + 1074) := by rw [pow_add]
      _ ≤ 2 ^ (hi + a2) := Nat.pow_le_pow_right (by decide) hhi
      _ = 2 ^ hi * 2 ^ a2 := by rw [pow_add]
      _ ≤ 2 ^ hi * (m2 * 2 ^ k2) := Nat.mul_le_mul_left _ p2

theorem F64.signed_add_same (s : Bool) (p q : Nat) (hp : 0 < p) :
    F64.signed s p + F64.signed s q ≠ 0 ∧
      (F64.signed s p + F64.signed s q).natAbs = p + q ∧
      decide (F64.signed s p + F64.signed s q < 0) = s := by
  simp only [F64.signed]
  cases s <;> simp <;> omega

theorem F64.add_within (s : Bool) (a1 b1 a2 b2 hi : Nat) (x y : F64)
    (hx : x.within s a1 b1) (hy : y.within s a2 b2) (h1 : b1 < hi) (h2 : b2 < hi)
    (hh : hi ≤ 2096) : (F64.add x y).within s a1 hi := by
  obtain ⟨m1, k1, hv1, e1, p1, q1⟩ := hx
  obtain ⟨m2, k2, hv2, e2, p2, q2⟩ := hy
  have hX : 0 < m1 * 2 ^ k1 := lt_of_lt_of_le (Nat.pow_pos (by decide)) p1
  obtain ⟨hs, hab, hsg⟩ := F64.signed_add_same s (m1 * 2 ^ k1) (m2 * 2 ^ k2) hX
  rw [e1, e2]
  simp only [F64.add, hs, if_false, hab, hsg]
  apply roundQ_within _ _ _ _ _ (by decide) hh
  · omega
  · have c1 : 2 ^ b1 ≤ 2 ^ (hi - 1) := Nat.pow_le_pow_right (by decide) (by omega)
    have c2 : 2 ^ b2 ≤ 2 ^ (hi - 1) := Nat.pow_le_pow_right (by decide) (by omega)
    have c3 : 2 ^ hi = 2 * 2 ^ (hi - 1) := by
      rw [← pow_succ']; congr 1; omega
    omega

theorem F64.signed_zero_add (s : Bool) (q : Nat) (hq : 0 < q) :
    F64.signed false (0 * 2 ^ 0) + F64.signed s q ≠ 0 ∧
      (F64.signed false (0 * 2 ^ 0) + F64.signed s q).natAbs = q ∧
      decide (F64.signed false (0 * 2 ^ 0) + F64.signed s q < 0) = s := by
  simp only [F64.signed, Nat.zero_mul]
  cases s <;> simp <;> omega

theorem F64.add_zero_left (s : Bool) (m k : Nat) (hv : validFin m k) (hm : 0 < m) :
    F64.add (F64.zero false) (.fin s m k hv) = .fin s m k hv := by
  obtain ⟨hs, hab, hsg⟩ := F64.signed_zero_add s (m * 2 ^ k)
    (Nat.mul_pos hm (Nat.pow_pos (by decide)))
  unfold F64.zero
  simp only [F64.add, hs, if_false, hab, hsg]
  exact roundQ_exact s m k hv hm

theorem F64.add_zero_right (s : Bool) (m k : Nat) (hv : validFin m k) (hm : 0 < m) :
    F64.add (.fin s m k hv) (F64.zero false) = .fin s m k hv := by
  obtain ⟨hs, hab, hsg⟩ := F64.signed_add_zero s false (m * 2 ^ k) 0
    (Nat.mul_pos hm (Nat.pow_pos (by decide)))
  unfold F64.zero
  simp only [F64.add, hs, if_false, hab, hsg]
  exact roundQ_exact s m k hv hm

theorem F64.within_pos (s : Bool) (a b : Nat) (x : F64) (hx : x.within s a b) :
    ∃ m k hv, x = .fin s m k hv ∧ 0 < m ∧ 2 ^ a ≤ m * 2 ^ k ∧ m * 2 ^ k ≤ 2 ^ b := by
  obtain ⟨m, k, hv, e, p, q⟩ := hx
  refine ⟨m, k, hv, e, ?_, p, q⟩
  by_contra h
  have h0 : m = 0 := by omega
  subst h0
  have : 0 < 2 ^ a := Nat.pow_pos (by decide)
  simp at p

theorem F64.add_zero_within (s : Bool) (a b : Nat) (y : F64) (hy : y.within s a b) :
    (F64.add (F64.zero false) y).within s a b := by
  obtain ⟨m, k, hv, e, hm, p, q⟩ := F64.within_pos s a b y hy
  rw [e, F64.add_zero_left s m k hv hm]
  exact ⟨m, k, hv, rfl, p, q⟩

theorem F64.add_within_zero (s : Bool) (a b : Nat) (x : F64) (hx : x.within s a b) :
    (F64.add x (F64.zero false)).within s a b := by
  obtain ⟨m, k, hv, e, hm, p, q⟩ := F64.within_pos s a b x hx
  rw [e, F64.add_zero_right s m k hv hm]
  exact ⟨m, k, hv, rfl, p, q⟩

/-- Remainder of the truncated division by a positive number. -/
theorem tmod_natAbs_lt (d H : Int) (hH : 0 < H) : (d.tmod H).natAbs < H.natAbs := by
  have h1 := Int.tmod_lt_of_pos d hH
  have h2 := Int.tmod_lt_of_pos (-d) hH
  have h4 : (-d).tmod H = -(d.tmod H) := by
    rw [Int.tmod_def, Int.tmod_def, Int.neg_tdiv]; ring
  rw [h4] at h2
  omega

/-- The hour count of a non-zero 64-bit duration is finite, carries the sign
of the duration and lies between `2 ^ (-42)` and `2 ^ 23`. -/
theorem Duration.Hours_within (d : Int) (hd : d ≠ 0) (h1 : -2 ^ 63 ≤ d) (h2 : d < 2 ^ 63) :
    (Duration.Hours d).within (decide (d < 0)) 1032 1097 := by
  obtain ⟨hsum, hpos, hneg⟩ := tdiv_tmod_signs d Hour (by decide)
  have hrlt := tmod_natAbs_lt d Hour (by decide)
  have hHour : Hour.natAbs = 3600000000000 := by decide
  rw [hHour] at hrlt
  have hrb : (d.tmod Hour).natAbs ≤ 2 ^ 42 := by
    have : (3600000000000 : Nat) ≤ 2 ^ 42 := by decide
    omega
  have hhb : (d.tdiv Hour).natAbs ≤ 2 ^ 22 := by
    rw [Int.natAbs_tdiv, hHour]
    have hdb : d.natAbs ≤ 2 ^ 63 := by
      norm_num at h1 h2 ⊢
      omega
    have e1 : d.natAbs / 3600000000000 ≤ 2 ^ 63 / 3600000000000 :=
      Nat.div_le_div_right hdb
    have e2 : (2 : Nat) ^ 63 / 3600000000000 ≤ 2 ^ 22 := by decide
    exact le_trans e1 e2
  have hc : F64.ofInt 3600000000000 = .fin false 7372800000000000 1063 (by decide) := by decide
  have hcw : (F64.ofInt 3600000000000).within false 1115 1116 := by
    rw [hc]
    exact ⟨_, _, _, rfl, by decide, by decide⟩
  have hz : F64.div (F64.zero false) (F64.ofInt 3600000000000) = F64.zero false := by decide
  have sgn : ∀ i : Int, i ≠ 0 → (0 ≤ d → 0 ≤ i) → (d ≤ 0 → i ≤ 0) →
      decide (i < 0) = decide (d < 0) := by
    intro i hi a b
    by_cases hd0 : 0 ≤ d
    · have := a hd0
      simp only [decide_eq_decide]; omega
    · have := b (by omega)
      simp only [decide_eq_decide]; omega
  unfold Duration.Hours
  by_cases hh : d.tdiv Hour = 0
  · have hr : d.tmod Hour ≠ 0 := by
      intro hr; rw [hh, hr] at hsum; simp at hsum; exact hd hsum
    have hs := sgn _ hr (fun a => (hpos a).2) (fun a => (hneg a).2)
    have fr := F64.div_within _ _ _ _ _ _ 1032 1075 _ _
      (F64.ofInt_within _ hr 42 (by decide) hrb) hcw (by decide) (by decide) (by decide)
    rw [Bool.xor_false, hs] at fr
    rw [hh, F64.ofInt_zero]
    exact F64.within_mono _ _ _ _ _ _ (F64.add_zero_within _ _ _ _ fr) (le_refl _) (by decide)
  · have hs := sgn _ hh (fun a => (hpos a).1) (fun a => (hneg a).1)
    have fh := F64.ofInt_within _ hh 22 (by decide) hhb
    rw [hs] at fh
    by_cases hr : d.tmod Hour = 0
    · rw [hr, F64.ofInt_zero, hz]
      exact F64.within_mono _ _ _ _ _ _ (F64.add_within_zero _ _ _ _ fh) (by decide) (by decide)
    · have hs2 := sgn _ hr (fun a => (hpos a).2) (fun a => (hneg a).2)
      have fr := F64.div_within _ _ _ _ _ _ 1032 1075 _ _
        (F64.ofInt_within _ hr 42 (by decide) hrb) hcw (by decide) (by decide) (by decide)
      rw [Bool.xor_false, hs2] at fr
      exact F64.within_mono _ _ _ _ _ _
        (F64.add_within _ _ _ _ _ 1097 _ _ fh fr (by decide) (by decide) (by decide))
        (by decide) (le_refl _)

theorem F64.within_mag (s : Bool) (lo hi : Nat) (x : F64) (h : x.within s lo hi) :
    2 ^ lo ≤ x.mag ∧ x.mag ≤ 2 ^ hi := by
  obtain ⟨m, k, hv, e, a, b⟩ := h
  rw [e]
  exact ⟨a, b⟩

theorem F64.within_sign (s1 s2 : Bool) (a1 b1 a2 b2 : Nat) (x : F64)
    (h1 : x.within s1 a1 b1) (h2 : x.within s2 a2 b2) : s1 = s2 := by
  obtain ⟨m, k, hv, e, _, _⟩ := h1
  obtain ⟨m2, k2, hv2, e2, _, _⟩ := h2
  rw [e] at e2
  injection e2

theorem F64.within_not_isZero (s : Bool) (lo hi : Nat) (x : F64) (h : x.within s lo hi) :
    x.isZero = false := by
  obtain ⟨m, k, hv, e, hm, _, _⟩ := F64.within_pos s lo hi x h
  rw [e]
  simp only [F64.isZero, decide_eq_false_iff_not]
  omega

theorem F64.ofInt_within2 (i : Int) (l j : Nat) (hl : 2 ^ l ≤ i.natAbs) (hj : j ≤ 1022)
    (hb : i.natAbs ≤ 2 ^ j) :
    (F64.ofInt i).within (decide (i < 0)) (l + 1074) (j + 1074) := by
  unfold F64.ofInt roundRat
  apply roundQ_within _ _ _ _ _ (by decide) (by omega)
  · calc 2 ^ (l + 1074) * 1 = 2 ^ l * 2 ^ 1074 := by rw [pow_add]; ring
      _ ≤ i.natAbs * 2 ^ 1074 := Nat.mul_le_mul_right _ hl
  · calc i.natAbs * 2 ^ 1074 ≤ 2 ^ j * 2 ^ 1074 := Nat.mul_le_mul_right _ hb
      _ = 2 ^ (j + 1074) * 1 := by rw [pow_add]; ring

/-- A quotient in the normal range: magnitude bounds and relative error of at
most `2 ^ (-53)`. -/
theorem F64.div_rel (s1 s2 : Bool) (a1 b1 a2 b2 lo hi : Nat) (x y : F64)
    (hx : x.within s1 a1 b1) (hy : y.within s2 a2 b2)
    (hn : 53 + b2 ≤ a1 + 1074)
    (hlo : lo + b2 ≤ a1 + 1074) (hhi : b1 + 1074 ≤ hi + a2) (hh : hi ≤ 2096) :
    (F64.div x y).within (xor s1 s2) lo hi ∧
      2 ^ 53 * ((F64.div x y).mag * y.mag) ≤ (2 ^ 53 + 1) * (x.mag * 2 ^ 1074) ∧
      (2 ^ 53 - 1) * (x.mag * 2 ^ 1074) ≤ 2 ^ 53 * ((F64.div x y).mag * y.mag) := by
  refine ⟨F64.div_within s1 s2 a1 b1 a2 b2 lo hi x y hx hy hlo hhi hh, ?_⟩
  obtain ⟨m1, k1, hv1, e1, p1, q1⟩ := hx
  obtain ⟨m2, k2, hv2, e2, p2, q2⟩ := hy
  have hX : 0 < m1 * 2 ^ k1 := lt_of_lt_of_le (Nat.pow_pos (by decide)) p1
  have hY : 0 < m2 * 2 ^ k2 := lt_of_lt_of_le (Nat.pow_pos (by decide)) p2
  have hm1 : m1 ≠ 0 := by
    intro h; subst h; simp at hX
  have hm2 : m2 ≠ 0 := by
    intro h; subst h; simp at hY
  rw [e1, e2]
  simp only [F64.div, hm1, hm2, if_false]
  have c1 : 2 ^ 53 * (m2 * 2 ^ k2) ≤ m1 * 2 ^ k1 * 2 ^ 1074 := by
    calc 2 ^ 53 * (m2 * 2 ^ k2) ≤ 2 ^ 53 * 2 ^ b2 := Nat.mul_le_mul_left _ q2
      _ = 2 ^ (53 + b2) := by rw [pow_add]
      _ ≤ 2 ^ (a1 + 1074) := Nat.pow_le_pow_right (by decide) hn
      _ = 2 ^ a1 * 2 ^ 1074 := by rw [pow_add]
      _ ≤ m1 * 2 ^ k1 * 2 ^ 1074 := Nat.mul_le_mul_right _ p1
  have c2 : m1 * 2 ^ k1 * 2 ^ 1074 ≤ 2 ^ hi * (m2 * 2 ^ k2) := by
    calc m1 * 2 ^ k1 * 2 ^ 1074 ≤ 2 ^ b1 * 2 ^ 1074 := Nat.mul_le_mul_right _ q1
      _ = 2 ^ (b1 + 1074) := by rw [pow_add]
      _ ≤ 2 ^ (hi + a2) := Nat.pow_le_pow_right (by decide) hhi
      _ = 2 ^ hi * 2 ^ a2 := by rw [pow_add]
      _ ≤ 2 ^ hi * (m2 * 2 ^ k2) := Nat.mul_le_mul_left _ p2
  obtain ⟨m, k, hv, e, _, r1, r2⟩ := roundQ_rel (xor s1 s2) _ _ hi hY hh c1 c2
  rw [e]
  exact ⟨r1, r2⟩

/-- Two quotients of quotients with the same last divisor and the same result
have first dividends within the accumulated relative error of each other. -/
theorem rel_chain (e1 e e2 T C H Ua Up Fa Fp R : Nat)
    (a3 : e * (R * H) ≤ e2 * (Fa * T)) (a2 : e * (Fa * C) ≤ e2 * (Ua * T))
    (p2 : e1 * (Up * T) ≤ e * (Fp * C)) (p3 : e1 * (Fp * T) ≤ e * (R * H)) :
    e1 * e1 * Up * T * T ≤ e2 * e2 * Ua * T * T := by
  calc e1 * e1 * Up * T * T = e1 * T * (e1 * (Up * T)) := by ring
    _ ≤ e1 * T * (e * (Fp * C)) := Nat.mul_le_mul_left _ p2
    _ = e * C * (e1 * (Fp * T)) := by ring
    _ ≤ e * C * (e * (R * H)) := Nat.mul_le_mul_left _ p3
    _ ≤ e * C * (e2 * (Fa * T)) := Nat.mul_le_mul_left _ a3
    _ = e2 * T * (e * (Fa * C)) := by ring
    _ ≤ e2 * T * (e2 * (Ua * T)) := Nat.mul_le_mul_left _ a2
    _ = e2 * e2 * Ua * T * T := by ring

theorem F64.ofInt_1000_within : (F64.ofInt 1000).within false 1083 1084 := by
  have hc : F64.ofInt 1000 = .fin false 8796093022208000 1031 (by decide) := by decide
  rw [hc]
  exact ⟨_, _, _, rfl, by decide, by decide⟩

/-- Pool lengths whose magnitudes differ by a factor of two or more give
different speeds. -/
theorem poolSpeed_sep (a p d : Int) (hd : d ≠ 0) (hd1 : -2 ^ 63 ≤ d) (hd2 : d < 2 ^ 63)
    (ha0 : a ≠ 0) (ha : a.natAbs ≤ 2 ^ 63) (hp1 : 2 ^ 64 ≤ p.natAbs)
    (hp2 : p.natAbs ≤ 2 ^ 126) :
    F64.div (F64.div (F64.ofInt a) (F64.ofInt 1000)) (Duration.Hours d) ≠
      F64.div (F64.div (F64.ofInt p) (F64.ofInt 1000)) (Duration.Hours d) := by
  intro heq
  have hH := Duration.Hours_within d hd hd1 hd2
  have hC := F64.ofInt_1000_within
  have hUa := F64.ofInt_within a ha0 63 (by decide) ha
  have hUp := F64.ofInt_within2 p 64 126 hp1 (by decide) hp2
  obtain ⟨wFa, a2a, -⟩ := F64.div_rel _ _ _ _ _ _ 1064 1128 _ _ hUa hC
    (by decide) (by decide) (by decide) (by decide)
  obtain ⟨wFp, -, p2p⟩ := F64.div_rel _ _ _ _ _ _ 1128 1191 _ _ hUp hC
    (by decide) (by decide) (by decide) (by decide)
  obtain ⟨-, a3a, -⟩ := F64.div_rel _ _ _ _ _ _ 1041 1170 _ _ wFa hH
    (by decide) (by decide) (by decide) (by decide)
  obtain ⟨-, -, p3p⟩ := F64.div_rel _ _ _ _ _ _ 1105 1233 _ _ wFp hH
    (by decide) (by decide) (by decide) (by decide)
  rw [← heq] at p3p
  have key := rel_chain _ _ _ _ _ _ _ _ _ _ _ a3a a2a p2p p3p
  have bUa := (F64.within_mag _ _ _ _ hUa).2
  have bUp := (F64.within_mag _ _ _ _ hUp).1
  have hT : 0 < 2 ^ 1074 * 2 ^ 1074 := by positivity
  have k1 : (2 ^ 53 - 1) * (2 ^ 53 - 1) * 2 ^ (64 + 1074) * (2 ^ 1074 * 2 ^ 1074) ≤
      (2 ^ 53 + 1) * (2 ^ 53 + 1) * 2 ^ (63 + 1074) * (2 ^ 1074 * 2 ^ 1074) := by
    calc (2 ^ 53 - 1) * (2 ^ 53 - 1) * 2 ^ (64 + 1074) * (2 ^ 1074 * 2 ^ 1074)
        ≤ (2 ^ 53 - 1) * (2 ^ 53 - 1) * (F64.ofInt p).mag * (2 ^ 1074 * 2 ^ 1074) :=
          Nat.mul_le_mul_right _ (Nat.mul_le_mul_left _ bUp)
      _ = (2 ^ 53 - 1) * (2 ^ 53 - 1) * (F64.ofInt p).mag * 2 ^ 1074 * 2 ^ 1074 := by ring
      _ ≤ (2 ^ 53 + 1) * (2 ^ 53 + 1) * (F64.ofInt a).mag * 2 ^ 1074 * 2 ^ 1074 := key
      _ = (2 ^ 53 + 1) * (2 ^ 53 + 1) * (F64.ofInt a).mag * (2 ^ 1074 * 2 ^ 1074) := by ring
      _ ≤ (2 ^ 53 + 1) * (2 ^ 53 + 1) * 2 ^ (63 + 1074) * (2 ^ 1074 * 2 ^ 1074) :=
          Nat.mul_le_mul_right _ (Nat.mul_le_mul_left _ bUa)
  have k2 := Nat.le_of_mul_le_mul_right k1 hT
  revert k2
  decide

/-- Wrapping a product that does not fit in 64 bits changes the speed. -/
theorem poolSpeed_wrap_ne (p d : Int) (hd : d ≠ 0) (hd1 : -2 ^ 63 ≤ d) (hd2 : d < 2 ^ 63)
    (hp2 : p.natAbs ≤ 2 ^ 126) (hout : ¬ (-2 ^ 63 ≤ p ∧ p < 2 ^ 63)) :
    F64.div (F64.div (F64.ofInt (wrapInt64 p)) (F64.ofInt 1000)) (Duration.Hours d) ≠
      F64.div (F64.div (F64.ofInt p) (F64.ofInt 1000)) (Duration.Hours d) := by
  have hH := Duration.Hours_within d hd hd1 hd2
  have hC := F64.ofInt_1000_within
  have hp0 : p ≠ 0 := by
    intro h; subst h; apply hout; decide
  have hpl : 2 ^ 0 ≤ p.natAbs := by
    simp only [pow_zero]; omega
  have hUp := F64.ofInt_within2 p 0 126 hpl (by decide) hp2
  have wFp := F64.div_within _ _ _ _ _ _ 1064 1191 _ _ hUp hC (by decide) (by decide) (by decide)
  have wRp := F64.div_within _ _ _ _ _ _ 1041 1233 _ _ wFp hH (by decide) (by decide) (by decide)
  have hwr : -2 ^ 63 ≤ wrapInt64 p ∧ wrapInt64 p < 2 ^ 63 := by
    unfold wrapInt64; omega
  by_cases ha0 : wrapInt64 p = 0
  · intro heq
    have hz : (F64.div (F64.div (F64.ofInt (wrapInt64 p)) (F64.ofInt 1000))
        (Duration.Hours d)).isZero = true := by
      rw [ha0]
      apply F64.div_isZero
      · decide
      · obtain ⟨m, k, hv, e, _⟩ := hH
        rw [e]; rfl
      · exact F64.within_not_isZero _ _ _ _ hH
    rw [heq, F64.within_not_isZero _ _ _ _ wRp] at hz
    cases hz
  · by_cases hs : decide (wrapInt64 p < 0) = decide (p < 0)
    · apply poolSpeed_sep _ _ d hd hd1 hd2 ha0 _ _ hp2
      · omega
      · have hs1 : wrapInt64 p < 0 ↔ p < 0 := by simpa using hs
        have hw : wrapInt64 p = (p + 2 ^ 63) % 2 ^ 64 - 2 ^ 63 := rfl
        omega
    · intro heq
      have hUa := F64.ofInt_within (wrapInt64 p) ha0 63 (by decide) (by omega)
      have wFa := F64.div_within _ _ _ _ _ _ 1064 1128 _ _ hUa hC
        (by decide) (by decide) (by decide)
      have wRa := F64.div_within _ _ _ _ _ _ 1041 1170 _ _ wFa hH
        (by decide) (by decide) (by decide)
      rw [heq] at wRa
      have := F64.within_sign _ _ _ _ _ _ _ wRa wRp
      apply hs
      have h3 : ∀ a b c : Bool, xor (xor a false) c = xor (xor b false) c → a = b := by decide
      exact h3 _ _ _ this

/-! ## Scaling by powers of two -/

/-- The exponent of a rounding is determined by the value. -/
theorem exp_unique (n d k1 k2 : Nat) (hd : 0 < d)
    (a1 : n / (d * 2 ^ k1) < 2 ^ 53) (b1 : 0 < k1 → 2 ^ 52 ≤ n / (d * 2 ^ k1))
    (a2 : n / (d * 2 ^ k2) < 2 ^ 53) (b2 : 0 < k2 → 2 ^ 52 ≤ n / (d * 2 ^ k2)) : k1 = k2 := by
  have key : ∀ i j, i < j → n / (d * 2 ^ i) < 2 ^ 53 → 2 ^ 52 ≤ n / (d * 2 ^ j) → False := by
    intro i j hij hi hj
    have pi : 0 < d * 2 ^ i := Nat.mul_pos hd (Nat.pow_pos (by decide))
    have pj : 0 < d * 2 ^ j := Nat.mul_pos hd (Nat.pow_pos (by decide))
    rw [Nat.div_lt_iff_lt_mul pi] at hi
    rw [Nat.le_div_iff_mul_le pj] at hj
    have e1 : 2 ^ (i + 1) ≤ 2 ^ j := Nat.pow_le_pow_right (by decide) hij
    have e2 : 2 ^ 52 * (d * 2 ^ (i + 1)) ≤ 2 ^ 52 * (d * 2 ^ j) :=
      Nat.mul_le_mul_left _ (Nat.mul_le_mul_left _ e1)
    have e3 : 2 ^ 53 * (d * 2 ^ i) = 2 ^ 52 * (d * 2 ^ (i + 1)) := by
      rw [pow_succ 2 i, pow_succ 2 52]; ring
    omega
  rcases Nat.lt_trichotomy k1 k2 with h | h | h
  · exact absurd (b2 (by omega)) (fun hb => key k1 k2 h a1 hb)
  · exact h
  · exact absurd (b1 (by omega)) (fun hb => key k2 k1 h a2 hb)

theorem roundQ_eq_roundAt (s : Bool) (n d k : Nat) (hn : 0 < n) (hd : 0 < d)
    (a : n / (d * 2 ^ k) < 2 ^ 53) (b : 0 < k → 2 ^ 52 ≤ n / (d * 2 ^ k)) :
    roundQ s n d = roundAt s n d k := by
  obtain ⟨p, q⟩ := pickExp_spec n d hn hd
  have e := exp_unique n d (pickExp n d) k hd p q a b
  have hd0 : d ≠ 0 := by omega
  have hn0 : n ≠ 0 := by omega
  unfold roundQ
  simp only [hd0, hn0, if_false]
  rw [e]

/-- Rounding to an integer depends on the ratio only. -/
theorem rne_ratio (n D n1 D1 : Nat) (hD : 0 < D) (hD1 : 0 < D1) (h : n * D1 = n1 * D) :
    n / D = n1 / D1 ∧
      roundNearestEven (n / D) (n % D) D = roundNearestEven (n1 / D1) (n1 % D1) D1 := by
  have hq : n / D = n1 / D1 := by
    calc n / D = (n * D1) / (D * D1) := (Nat.mul_div_mul_right n D hD1).symm
      _ = (n1 * D) / (D1 * D) := by rw [h, Nat.mul_comm D D1]
      _ = n1 / D1 := Nat.mul_div_mul_right n1 D1 hD
  refine ⟨hq, ?_⟩
  have e1 := Nat.div_add_mod n D
  have e2 := Nat.div_add_mod n1 D1
  rw [← hq] at e2 ⊢
  have hr : n % D * D1 = n1 % D1 * D := by
    have h3 : (D * (n / D) + n % D) * D1 = (D1 * (n / D) + n1 % D1) * D := by
      rw [e1, e2]; exact h
    have h4 : D * (n / D) * D1 = D1 * (n / D) * D := by ring
    rw [Nat.add_mul, Nat.add_mul, h4] at h3
    omega
  have c1 : 2 * (n % D) < D ↔ 2 * (n1 % D1) < D1 := by
    rw [← Nat.mul_lt_mul_right hD1, ← Nat.mul_lt_mul_right (a := D) (b := 2 * (n1 % D1)) hD]
    have : 2 * (n % D) * D1 = 2 * (n1 % D1) * D := by
      rw [Nat.mul_assoc, Nat.mul_assoc, hr]
    rw [this, Nat.mul_comm D D1]
  have c2 : D < 2 * (n % D) ↔ D1 < 2 * (n1 % D1) := by
    rw [← Nat.mul_lt_mul_right hD1, ← Nat.mul_lt_mul_right (a := D) (b := D1) hD]
    have : 2 * (n % D) * D1 = 2 * (n1 % D1) * D := by
      rw [Nat.mul_assoc, Nat.mul_assoc, hr]
    rw [this, Nat.mul_comm D D1]
  unfold roundNearestEven
  simp only [c1, c2]

theorem pack_eq_fin (s s1 : Bool) (M K m k : Nat) (hv : validFin m k)
    (h : pack s M K = .fin s1 m k hv) : M = m ∧ K = k := by
  unfold pack at h
  split_ifs at h
  injection h with _ h1 h2
  exact ⟨h1, h2⟩

theorem pack_fin (s : Bool) (m k : Nat) (hv : validFin m k) : pack s m k = .fin s m k hv := by
  unfold pack
  have : ¬ 2045 < k := by
    have := hv.2.1
    omega
  simp [this, hv]

/-- A value in the normal range, multiplied by a power of two that keeps it in
the normal range, rounds to the same significand at the shifted exponent. -/
theorem roundQ_congr (s : Bool) (n d n1 d1 a c : Nat) (hd : 0 < d) (hd1 : 0 < d1)
    (hnorm : 2 ^ 52 * d ≤ n) (hnorm1 : 2 ^ 52 * d1 ≤ n1)
    (hval : n1 * d * 2 ^ c = n * d1 * 2 ^ a)
    (m k : Nat) (hv : validFin m k) (h : roundQ s n d = .fin s m k hv) :
    roundQ s n1 d1 = pack s m (k + a - c) := by
  have hn : 0 < n := lt_of_lt_of_le (Nat.mul_pos (Nat.pow_pos (by decide)) hd) hnorm
  have hn1 : 0 < n1 := lt_of_lt_of_le (Nat.mul_pos (Nat.pow_pos (by decide)) hd1) hnorm1
  obtain ⟨p, q⟩ := pickExp_spec n d hn hd
  set k0 := pickExp n d with hk0
  have pD : 0 < d * 2 ^ k0 := Nat.mul_pos hd (Nat.pow_pos (by decide))
  have hlow : 2 ^ 52 ≤ n / (d * 2 ^ k0) := by
    by_cases hk : 0 < k0
    · exact q hk
    · have : k0 = 0 := by omega
      rw [this, pow_zero, Nat.mul_one, Nat.le_div_iff_mul_le hd]
      exact hnorm
  have hp := p
  rw [Nat.div_lt_iff_lt_mul pD] at hp
  have hc : c ≤ k0 + a := by
    by_contra hcon
    have h1 : n * (d1 * 2 ^ a) < 2 ^ 53 * (d * 2 ^ k0) * (d1 * 2 ^ a) :=
      Nat.mul_lt_mul_of_pos_right hp (Nat.mul_pos hd1 (Nat.pow_pos (by decide)))
    have h2 : 2 ^ 52 * d1 * (d * 2 ^ c) ≤ n1 * (d * 2 ^ c) := Nat.mul_le_mul_right _ hnorm1
    have h3 : n1 * (d * 2 ^ c) = n * (d1 * 2 ^ a) := by
      rw [← Nat.mul_assoc, ← Nat.mul_assoc]; exact hval
    have h4 : 2 ^ (k0 + a + 1) ≤ 2 ^ c := Nat.pow_le_pow_right (by decide) (by omega)
    have h5 : 2 ^ 52 * d1 * (d * 2 ^ (k0 + a + 1)) ≤ 2 ^ 52 * d1 * (d * 2 ^ c) :=
      Nat.mul_le_mul_left _ (Nat.mul_le_mul_left _ h4)
    have h6 : 2 ^ 52 * d1 * (d * 2 ^ (k0 + a + 1)) = 2 ^ 53 * (d * 2 ^ k0) * (d1 * 2 ^ a) := by
      rw [pow_succ 2 (k0 + a), pow_add 2 k0 a, pow_succ 2 52]; ring
    omega
  have hDD : n * (d1 * 2 ^ (k0 + a - c)) = n1 * (d * 2 ^ k0) := by
    have pc : 0 < 2 ^ c := Nat.pow_pos (by decide)
    apply Nat.eq_of_mul_eq_mul_right pc
    have e : 2 ^ (k0 + a - c) * 2 ^ c = 2 ^ k0 * 2 ^ a := by
      rw [← pow_add, ← pow_add]; congr 1; omega
    calc n * (d1 * 2 ^ (k0 + a - c)) * 2 ^ c = n * d1 * (2 ^ (k0 + a - c) * 2 ^ c) := by ring
      _ = n * d1 * (2 ^ k0 * 2 ^ a) := by rw [e]
      _ = (n * d1 * 2 ^ a) * 2 ^ k0 := by ring
      _ = (n1 * d * 2 ^ c) * 2 ^ k0 := by rw [hval]
      _ = n1 * (d * 2 ^ k0) * 2 ^ c := by ring
  have pD1 : 0 < d1 * 2 ^ (k0 + a - c) := Nat.mul_pos hd1 (Nat.pow_pos (by decide))
  obtain ⟨eq, er⟩ := rne_ratio n1 (d1 * 2 ^ (k0 + a - c)) n (d * 2 ^ k0) pD1 pD hDD.symm
  have hA : roundQ s n1 d1 = roundAt s n1 d1 (k0 + a - c) := by
    apply roundQ_eq_roundAt s n1 d1 _ hn1 hd1
    · rw [eq]; exact p
    · intro _; rw [eq]; exact hlow
  have hB : roundQ s n d = roundAt s n d k0 := roundQ_eq_roundAt s n d k0 hn hd p q
  rw [hB] at h
  rw [hA]
  unfold roundAt at h ⊢
  rw [er]
  by_cases hs : roundNearestEven (n / (d * 2 ^ k0)) (n % (d * 2 ^ k0)) (d * 2 ^ k0) = 2 ^ 53
  · rw [if_pos hs] at h ⊢
    obtain ⟨h1, h2⟩ := pack_eq_fin _ _ _ _ _ _ hv h
    rw [h1]
    congr 1
    omega
  · rw [if_neg hs] at h ⊢
    obtain ⟨h1, h2⟩ := pack_eq_fin _ _ _ _ _ _ hv h
    rw [h1, h2]

theorem bitLen_normal (m : Nat) (h1 : 2 ^ 52 ≤ m) (h2 : m < 2 ^ 53) : bitLen m = 53 := by
  have hm : 0 < m := lt_of_lt_of_le (by decide) h1
  have a := bitLen_lt m hm
  have b := bitLen_le m hm
  have c1 : 52 < bitLen m := by
    by_contra hc
    have : 2 ^ bitLen m ≤ 2 ^ 52 := Nat.pow_le_pow_right (by decide) (by omega)
    omega
  have c2 : bitLen m < 54 := by
    by_contra hc
    have : 2 ^ 54 ≤ 2 ^ bitLen m := Nat.pow_le_pow_right (by decide) (by omega)
    omega
  omega

theorem F64.mul_fin (s1 s2 : Bool) (m1 k1 m2 k2 : Nat) (hv1 : validFin m1 k1)
    (hv2 : validFin m2 k2) (h1 : m1 ≠ 0) (h2 : m2 ≠ 0) :
    F64.mul (.fin s1 m1 k1 hv1) (.fin s2 m2 k2 hv2)
      = roundQ (xor s1 s2) (m1 * m2 * 2 ^ (k1 + k2)) (2 ^ 1074) := by
  simp [F64.mul, h1, h2]

/-- A normal `float64` multiplied by a power of two, as long as the result is
in the normal range, keeps its significand. -/
theorem roundQ_of_fin (s : Bool) (m k : Nat) (hv : validFin m k) (hm : 2 ^ 52 ≤ m)
    (n1 d1 a c : Nat) (hd1 : 0 < d1) (hnorm1 : 2 ^ 52 * d1 ≤ n1)
    (hval : n1 * 2 ^ c = m * 2 ^ k * d1 * 2 ^ a) :
    roundQ s n1 d1 = pack s m (k + a - c) := by
  have hm0 : 0 < m := lt_of_lt_of_le (by decide) hm
  have h1 : 2 ^ 52 * 1 ≤ m * 2 ^ k := by
    have : 1 ≤ 2 ^ k := Nat.pow_pos (by decide)
    calc 2 ^ 52 * 1 ≤ m * 1 := by omega
      _ ≤ m * 2 ^ k := Nat.mul_le_mul_left _ this
  exact roundQ_congr s (m * 2 ^ k) 1 n1 d1 a c (by decide) hd1 h1 hnorm1
    (by rw [Nat.mul_one]; exact hval) m k hv (roundQ_exact s m k hv hm0)

/-- Away from the subnormal range `math.Pow(x, 2)` is the `float64` product
`x * x`. -/
theorem math.PowTwo_normal (s : Bool) (m k : Nat) (hv : validFin m k) (hk : 511 ≤ k) :
    math.PowTwo (.fin s m k hv) = F64.mul (.fin s m k hv) (.fin s m k hv) := by
  obtain ⟨hm53, hk2045, hsub⟩ := hv
  have hm52 : 2 ^ 52 ≤ m := by
    by_contra hc
    have := hsub (by omega)
    omega
  have hm0 : m ≠ 0 := by
    intro h; subst h; simp at hm52
  have hone : F64.ofInt 1 = .fin false 4503599627370496 1022 (by decide) := by decide
  have hhalf : F64.ofRat 1 2 = .fin false 4503599627370496 1021 (by decide) := by decide
  have hmul := F64.mul_fin s s m k m k ⟨hm53, hk2045, hsub⟩ ⟨hm53, hk2045, hsub⟩ hm0 hm0
  rw [Bool.xor_self] at hmul
  by_cases hne : (F64.fin s m k ⟨hm53, hk2045, hsub⟩).eqb (F64.ofInt 1) = true
  · unfold math.PowTwo
    rw [if_pos hne, hmul]
    rw [hone] at hne
    simp only [F64.eqb, decide_eq_true_eq] at hne
    have hmk : m * 2 ^ k = 4503599627370496 * 2 ^ 1022 := by
      cases s
      · simp only [F64.signed, Bool.false_eq_true, if_false] at hne
        exact_mod_cast hne
      · exfalso
        simp only [F64.signed, if_true, Bool.false_eq_true, if_false] at hne
        have : (0 : Int) ≤ ((m * 2 ^ k : Nat) : Int) := Int.ofNat_nonneg _
        have : (0 : Int) < ((4503599627370496 * 2 ^ 1022 : Nat) : Int) := by
          exact_mod_cast (by decide : 0 < 4503599627370496 * 2 ^ 1022)
        omega
    have e : m * m * 2 ^ (k + k) = (m * 2 ^ k) * (m * 2 ^ k) := by
      rw [pow_add]; ring
    rw [e, hmk]
    decide
  · have hne1 : (F64.fin s m k ⟨hm53, hk2045, hsub⟩).eqb (F64.ofInt 1) = false := by
      simpa using hne
    have hb := bitLen_normal m hm52 hm53
    have hvf : validFin m 1021 := ⟨hm53, by decide, fun h => by omega⟩
    have hfr : math.Frexp (.fin s m k ⟨hm53, hk2045, hsub⟩)
        = (.fin s m 1021 hvf, (k : Int) - 1074 + 53) := by
      simp only [math.Frexp, hm0, if_false, hb, Nat.sub_self, pow_zero, Nat.mul_one]
      rw [pack_fin s m 1021 hvf]
      rfl
    have hP : 0 < 2 ^ 1074 := Nat.pow_pos (by decide)
    have hmm : 2 ^ 52 * 2 ^ 52 ≤ m * m := Nat.mul_le_mul hm52 hm52
    have hmm2 : m * m ≤ 2 ^ 53 * 2 ^ 53 := Nat.mul_le_mul (le_of_lt hm53) (le_of_lt hm53)
    have hn0 : 2 ^ 1072 * 2 ^ 1074 ≤ m * m * 2 ^ (1021 + 1021) := by
      calc 2 ^ 1072 * 2 ^ 1074 = 2 ^ 52 * 2 ^ 52 * 2 ^ (1021 + 1021) := by decide
        _ ≤ m * m * 2 ^ (1021 + 1021) := Nat.mul_le_mul_right _ hmm
    have hn0b : m * m * 2 ^ (1021 + 1021) ≤ 2 ^ 1074 * 2 ^ 1074 := by
      calc m * m * 2 ^ (1021 + 1021) ≤ 2 ^ 53 * 2 ^ 53 * 2 ^ (1021 + 1021) :=
            Nat.mul_le_mul_right _ hmm2
        _ = 2 ^ 1074 * 2 ^ 1074 := by decide
    obtain ⟨r, kq, hvq, eB, lo, hi⟩ :=
      roundQ_within false (m * m * 2 ^ (1021 + 1021)) (2 ^ 1074) 1072 1074 hP (by decide) hn0 hn0b
    have hsq : F64.mul (.fin s m 1021 hvf) (.fin s m 1021 hvf) = .fin false r kq hvq := by
      rw [F64.mul_fin _ _ _ _ _ _ _ _ hm0 hm0, Bool.xor_self, eB]
    have hr53 : r < 2 ^ 53 := hvq.1
    have hkq : 1020 ≤ kq := by
      by_contra hc
      have h1 : 2 ^ kq ≤ 2 ^ 1019 := Nat.pow_le_pow_right (by decide) (by omega)
      have h2 : r * 2 ^ kq ≤ r * 2 ^ 1019 := Nat.mul_le_mul_left _ h1
      have h3 : r * 2 ^ 1019 < 2 ^ 53 * 2 ^ 1019 :=
        Nat.mul_lt_mul_of_pos_right hr53 (Nat.pow_pos (by decide))
      have h4 : 2 ^ 53 * 2 ^ 1019 = 2 ^ 1072 := by decide
      omega
    have hr52 : 2 ^ 52 ≤ r := by
      by_contra hc
      have := hvq.2.2 (by omega)
      omega
    have hkq2 : kq ≤ 2044 := by
      by_contra hc
      have h1 : 2 ^ 1075 ≤ 2 ^ kq := Nat.pow_le_pow_right (by decide) (by omega)
      have h2 : 1 * 2 ^ 1075 ≤ r * 2 ^ kq := Nat.mul_le_mul (by omega) h1
      have h4 : 2 ^ 1074 < 1 * 2 ^ 1075 := by decide
      omega
    have hT : F64.mul (.fin s m k ⟨hm53, hk2045, hsub⟩) (.fin s m k ⟨hm53, hk2045, hsub⟩)
        = pack false r (kq + (k + k) - 2042) := by
      rw [hmul]
      refine roundQ_congr false (m * m * 2 ^ (1021 + 1021)) (2 ^ 1074) _ _ (k + k) 2042 hP hP
        ?_ ?_ ?_ r kq hvq eB
      · refine le_trans ?_ hn0
        decide
      · have h1 : 2 ^ (511 + 511) ≤ 2 ^ (k + k) := Nat.pow_le_pow_right (by decide) (by omega)
        calc 2 ^ 52 * 2 ^ 1074 = 2 ^ 52 * 2 ^ 52 * 2 ^ (511 + 511) := by decide
          _ ≤ m * m * 2 ^ (k + k) := Nat.mul_le_mul hmm h1
      · have e : (1021 + 1021 : Nat) = 2042 := rfl
        rw [e]
        generalize (2 : Nat) ^ 1074 = P
        generalize (2 : Nat) ^ 2042 = Q
        ring
    rw [hT]
    simp only [math.PowTwo, hne1, F64.isNaN, F64.isZero, F64.isInf, hm0, decide_False,
      Bool.false_eq_true, if_false, hfr, hsq]
    have hr0 : r ≠ 0 := by omega
    have fin_step : ∀ (kx : Nat) (hvx : validFin r kx) (E : Int), 0 ≤ (kx : Int) + E →
        math.Ldexp (F64.mul (F64.ofInt 1) (.fin false r kx hvx)) (0 + E)
          = pack false r (kx + E.toNat - (-E).toNat) := by
      intro kx hvx E hE
      have h1 : F64.mul (F64.ofInt 1) (.fin false r kx hvx) = .fin false r kx hvx := by
        rw [hone, F64.mul_fin _ _ _ _ _ _ _ _ (by decide) hr0, Bool.xor_self,
          roundQ_of_fin false r kx hvx hr52 _ _ 0 0 hP, Nat.add_zero, Nat.sub_zero,
          pack_fin false r _ hvx]
        · have h2 : 2 ^ 52 * 2 ^ 1074 ≤ r * 2 ^ 1074 := Nat.mul_le_mul_right _ hr52
          have h3 : (1 : Nat) * (r * 2 ^ 1074) ≤ 2 ^ kx * (r * 2 ^ 1074) :=
            Nat.mul_le_mul_right _ (Nat.pow_pos (by decide))
          have h4 : 4503599627370496 * r * 2 ^ (1022 + kx) = 2 ^ kx * (r * 2 ^ 1074) := by
            have e1 : (2 : Nat) ^ 1074 = 4503599627370496 * 2 ^ 1022 := by decide
            rw [e1, pow_add]
            generalize (2 : Nat) ^ 1022 = Q
            ring
          omega
        · have e1 : (2 : Nat) ^ 1074 = 4503599627370496 * 2 ^ 1022 := by decide
          rw [e1, pow_add]
          generalize (2 : Nat) ^ 1022 = Q
          ring
      rw [h1]
      simp only [math.Ldexp, hr0, if_false, zero_add]
      apply roundQ_of_fin false r kx hvx hr52 _ _ _ _ (Nat.pow_pos (by decide))
      · have h2 : 2 ^ (-E).toNat ≤ 2 ^ (kx + E.toNat) :=
          Nat.pow_le_pow_right (by decide) (by omega)
        calc 2 ^ 52 * 2 ^ (-E).toNat ≤ r * 2 ^ (kx + E.toNat) := Nat.mul_le_mul hr52 h2
          _ = r * 2 ^ kx * 2 ^ E.toNat := by rw [pow_add]; ring
      · ring
    by_cases hlt : (F64.fin false r kq hvq).ltb (F64.ofRat 1 2) = true
    · rw [if_pos hlt, if_pos hlt]
      have hv1 : validFin r (kq + 1) := ⟨hr53, by omega, fun h => by omega⟩
      have hadd : F64.add (.fin false r kq hvq) (.fin false r kq hvq) = .fin false r (kq + 1) hv1 := by
        have hpos : 0 < r * 2 ^ kq := Nat.mul_pos (by omega) (Nat.pow_pos (by decide))
        obtain ⟨hs, hab, hsg⟩ := F64.signed_add_same false (r * 2 ^ kq) (r * 2 ^ kq) hpos
        simp only [F64.add, hs, if_false, hab, hsg]
        rw [roundQ_of_fin false r kq hvq hr52 _ _ 1 0 (by decide), Nat.sub_zero,
          pack_fin false r _ hv1]
        · have : 2 ^ 52 * 1 ≤ r * 1 := by omega
          have : r * 1 ≤ r * 2 ^ kq := Nat.mul_le_mul_left _ (Nat.pow_pos (by decide))
          omega
        · ring
      have hE : (0 : Int) ≤ ((kq + 1 : Nat) : Int) + (2 * ((k : Int) - 1074 + 53) - 1) := by
        push_cast; omega
      have hx : kq + 1 + (2 * ((k : Int) - 1074 + 53) - 1).toNat
          - (-(2 * ((k : Int) - 1074 + 53) - 1)).toNat = kq + (k + k) - 2042 := by
        omega
      rw [hadd, fin_step (kq + 1) hv1 _ hE, hx]
    · have hE : (0 : Int) ≤ (kq : Int) + 2 * ((k : Int) - 1074 + 53) := by omega
      have hx : kq + (2 * ((k : Int) - 1074 + 53)).toNat
          - (-(2 * ((k : Int) - 1074 + 53))).toNat = kq + (k + k) - 2042 := by
        omega
      rw [if_neg hlt, if_neg hlt, fin_step kq hvq _ hE, hx]

/-- Function `math.Pow(x, 2)` is the `float64` product `x * x` for NaN, the
infinities, the zeros and every `x` of magnitude at least `2 ^ (-511)`, whose
square is not subnormal. -/
theorem math.PowTwo_eq_mul (x : F64)
    (hx : x.isFinite = false ∨ x.isZero = true ∨ 2 ^ 563 ≤ x.mag) :
    math.PowTwo x = F64.mul x x := by
  cases x with
  | nan => decide
  | inf a => cases a <;> decide
  | fin s m k hv =>
    by_cases hm : m = 0
    · subst hm
      rw [math.PowTwo_zero _ (by simp [F64.isZero])]
      simp [F64.mul, F64.zero]
    · have hmag : 2 ^ 563 ≤ m * 2 ^ k := by
        rcases hx with h | h | h
        · simp [F64.isFinite] at h
        · simp [F64.isZero, hm] at h
        · exact h
      apply math.PowTwo_normal
      by_contra hc
      have h1 : 2 ^ k ≤ 2 ^ 510 := Nat.pow_le_pow_right (by decide) (by omega)
      have h2 : m * 2 ^ k ≤ m * 2 ^ 510 := Nat.mul_le_mul_left _ h1
      have h3 : m * 2 ^ 510 < 2 ^ 53 * 2 ^ 510 :=
        Nat.mul_lt_mul_of_pos_right hv.1 (Nat.pow_pos (by decide))
      have h4 : 2 ^ 53 * 2 ^ 510 = 2 ^ 563 := by decide
      omega
/-! ## Claims -/

/-- C1: for every `Training` value (hence for the `Running`, `Walking` and
`Swimming` values embedding it) `distance` is `float64(Action) * LenStep / 1000`,
a total function of `Action` and `LenStep` alone: two sessions that agree on those
two fields have the same distance whatever their other fields are. -/
theorem distance_spec (t u : Training) (hA : u.Action = t.Action) (hL : u.LenStep = t.LenStep) :
    t.distance = F64.div (F64.mul (F64.ofInt t.Action) t.LenStep) (F64.ofInt 1000)
      ∧ u.distance = t.distance := by
  constructor
  · rfl
  · simp [Training.distance, hA, hL]

/-- Witness for C1: a walking session given the step count of the running
session of `main` has that session's distance, `3.25` km; the swimming session
of `main` covers `2.76` km. -/
theorem distance_spec_witness :
    (mainRunning.toTraining.distance
        = F64.div (F64.mul (F64.ofInt mainRunning.Action) mainRunning.LenStep) (F64.ofInt 1000)
      ∧ ({ mainWalking.toTraining with Action := 5000 } : Training).distance
        = mainRunning.toTraining.distance)
      ∧ mainRunning.toTraining.distance = F64.ofRat 325 100
      ∧ mainSwimming.toTraining.distance = F64.ofRat 276 100 :=
  ⟨distance_spec mainRunning.toTraining { mainWalking.toTraining with Action := 5000 } rfl rfl,
    by decide, by decide⟩

/-- C2: the generic `meanSpeed` returns `0` for the zero duration and
`distance / Duration.Hours()` for every other duration; it is the speed that
the reports of `Running` and `Walking` carry. -/
theorem meanSpeed_spec (t : Training) :
    t.meanSpeed.1 = (if t.Duration = 0 then F64.zero false
        else F64.div t.distance (Duration.Hours t.Duration))
      ∧ (∀ r : Running, (CaloriesCalculator.TrainingInfo (.running r)).1.Speed
          = r.toTraining.meanSpeed.1)
      ∧ (∀ w : Walking, (CaloriesCalculator.TrainingInfo (.walking w)).1.Speed
          = w.toTraining.meanSpeed.1) := by
  exact ⟨genericSpeed_val t, fun _ => rfl, fun _ => rfl⟩

/-- C3: `Swimming.meanSpeed` returns `0` for the zero duration and otherwise
`float64(LengthPool * CountPool) / 1000 / Duration.Hours()`, the product being
the `int` product of the program; the pool of 50 m crossed 40 times in 90
minutes gives the `float64` nearest to `4/3`. -/
theorem Swimming_meanSpeed_spec (s : Swimming) :
    s.meanSpeed.1 = (if s.Duration = 0 then F64.zero false
        else F64.div (F64.div (F64.ofInt (wrapInt64 (s.LengthPool * s.CountPool)))
          (F64.ofInt 1000)) (Duration.Hours s.Duration))
      ∧ wrapInt64 (mainSwimming.LengthPool * mainSwimming.CountPool) = 50 * 40
      ∧ Duration.Hours mainSwimming.Duration = F64.ofRat 3 2
      ∧ mainSwimming.meanSpeed.1 = F64.ofRat 4 3 := by
  exact ⟨poolSpeed_val s, by decide, by decide, by decide⟩

/-- C4: `Running.Calories` returns `0` for the zero duration and otherwise
`(18 * meanSpeed + 1.79) * Weight / 1000 * Duration.Hours() * 60` with the
generic mean speed `distance / Duration.Hours()`; the running session of `main`
(5000 steps of 0.65 m in 30 minutes at 85 kg) has mean speed `6.5` and calories
`(18 * 6.5 + 1.79) * 85 / 1000 * 0.5 * 60`. -/
theorem Running_Calories_spec (r : Running) :
    r.Calories.1 = (if r.Duration = 0 then F64.zero false
        else F64.mul (F64.mul (F64.div (F64.mul (F64.add (F64.mul (F64.ofInt 18)
          (F64.div r.toTraining.distance (Duration.Hours r.Duration))) (F64.ofRat 179 100))
          r.Weight) (F64.ofInt 1000)) (Duration.Hours r.Duration)) (F64.ofInt 60))
      ∧ mainRunning.toTraining.meanSpeed.1 = F64.ofRat 13 2
      ∧ mainRunning.Calories.1 = F64.mul (F64.mul (F64.div (F64.mul (F64.add (F64.mul
          (F64.ofInt 18) (F64.ofRat 13 2)) (F64.ofRat 179 100)) (F64.ofInt 85))
          (F64.ofInt 1000)) (F64.ofRat 1 2)) (F64.ofInt 60) := by
  refine ⟨?_, by decide, by decide⟩
  have hms := genericSpeed_val r.toTraining
  unfold Running.Calories fzero
  rw [F64.eqb_zero, Duration.Hours_isZero]
  by_cases h : r.Duration = 0 <;>
    simp [h, hms, MInKm, MinInHours, CaloriesMeanSpeedMultiplier, CaloriesMeanSpeedShift]

/-- C5: `Walking.Calories` returns `0` whenever `Height` is zero, whatever the
duration, and otherwise
`(0.035 * Weight + (Pow(meanSpeed * 0.278, 2) / (Height / 100)) * 0.029 * Weight)
* Duration.Hours() * 60` with the generic mean speed; the only guard is the one
on `Height`.  The power `Pow(v, 2)` of the speed `v = meanSpeed * 0.278` is the
`float64` square `v * v` whenever `v` is NaN, infinite, zero or of magnitude at
least `2 ^ (-511)`.  For the walking session of `main` the speed is
`0.9637333333333334` m/s, its square `0.928781937777778` and the calories
`947.8213147243243`. -/
theorem Walking_Calories_spec (w : Walking) :
    w.Calories.1 = (if w.Height.isZero then F64.zero false
        else F64.mul (F64.mul (F64.add (F64.mul (F64.ofRat 35 1000) w.Weight)
          (F64.mul (F64.mul (F64.div (math.PowTwo (F64.mul w.toTraining.meanSpeed.1
            (F64.ofRat 278 1000))) (F64.div w.Height (F64.ofInt 100))) (F64.ofRat 29 1000))
            w.Weight)) (Duration.Hours w.Duration)) (F64.ofInt 60))
      ∧ w.speedInMPerS = F64.mul w.toTraining.meanSpeed.1 (F64.ofRat 278 1000)
      ∧ w.Calories.1 = (if w.Height.isZero then F64.zero false
        else F64.mul (F64.mul (F64.add (F64.mul (F64.ofRat 35 1000) w.Weight)
          (F64.mul (F64.mul (F64.div
            (if (!w.speedInMPerS.isFinite || w.speedInMPerS.isZero
                || decide (2 ^ 563 ≤ w.speedInMPerS.mag))
              then F64.mul w.speedInMPerS w.speedInMPerS else math.PowTwo w.speedInMPerS)
            (F64.div w.Height (F64.ofInt 100))) (F64.ofRat 29 1000))
            w.Weight)) (Duration.Hours w.Duration)) (F64.ofInt 60))
      ∧ mainWalking.speedInMPerS = F64.ofRat 9637333333333334 10000000000000000
      ∧ decide (2 ^ 563 ≤ mainWalking.speedInMPerS.mag) = true
      ∧ math.PowTwo mainWalking.speedInMPerS = F64.ofRat 928781937777778 1000000000000000
      ∧ mainWalking.Calories.1 = F64.ofRat 9478213147243243 10000000000000 := by
  have h1 : w.Calories.1 = (if w.Height.isZero then F64.zero false
        else F64.mul (F64.mul (F64.add (F64.mul (F64.ofRat 35 1000) w.Weight)
          (F64.mul (F64.mul (F64.div (math.PowTwo (F64.mul w.toTraining.meanSpeed.1
            (F64.ofRat 278 1000))) (F64.div w.Height (F64.ofInt 100))) (F64.ofRat 29 1000))
            w.Weight)) (Duration.Hours w.Duration)) (F64.ofInt 60)) := by
    unfold Walking.Calories fzero
    rw [F64.eqb_zero]
    by_cases h : w.Height.isZero = true <;>
      simp [h, MinInHours, CaloriesWeightMultiplier, CaloriesSpeedHeightMultiplier, KmHInMsec, CmInM]
  have h2 : w.speedInMPerS = F64.mul w.toTraining.meanSpeed.1 (F64.ofRat 278 1000) := rfl
  refine ⟨h1, h2, ?_, by decide, by decide, by decide, by decide⟩
  rw [h1, ← h2]
  by_cases hc : (!w.speedInMPerS.isFinite || w.speedInMPerS.isZero
      || decide (2 ^ 563 ≤ w.speedInMPerS.mag)) = true
  · rw [if_pos hc, math.PowTwo_eq_mul]
    simp only [Bool.or_eq_true, Bool.not_eq_true', decide_eq_true_eq] at hc
    rcases hc with (h | h) | h
    · exact Or.inl h
    · exact Or.inr (Or.inl h)
    · exact Or.inr (Or.inr h)
  · rw [if_neg hc]

/-- C6: `Swimming.Calories` returns
`(meanSpeed + 1.1) * 2 * Weight * Duration.Hours()` with the pool-based
`Swimming.meanSpeed`; the swimming session of `main` (pool 50 m, 40 crossings,
90 minutes, 85 kg) burns exactly `620.5`. -/
theorem Swimming_Calories_spec (s : Swimming) :
    s.Calories.1 = F64.mul (F64.mul (F64.mul (F64.add s.meanSpeed.1 (F64.ofRat 11 10))
        (F64.ofInt 2)) s.Weight) (Duration.Hours s.Duration)
      ∧ mainSwimming.Calories.1 = F64.ofRat 1241 2 := by
  refine ⟨rfl, by decide⟩

/-- C7 (as stated, refuted): a zero-duration swimming session with the finite
weight `1e308` has calories NaN, because `(0 + 1.1) * 2 * Weight` overflows to
`+Inf` before it is multiplied by the zero hour count; a zero-duration walking
session with the non-zero height `5e-324` has calories NaN, because
`Height / 100` underflows to zero and the formula divides zero by it. -/
theorem zero_duration_counterexample :
    heavySwimming.Duration = 0 ∧ heavySwimming.Weight.isFinite = true
      ∧ heavySwimming.meanSpeed.1 = F64.zero false
      ∧ heavySwimming.Calories.1 = .nan
      ∧ (heavySwimming.Calories.1).eqb (F64.zero false) = false
      ∧ tinyWalking.Duration = 0 ∧ tinyWalking.Height.isZero = false
      ∧ tinyWalking.Weight.isFinite = true
      ∧ tinyWalking.Calories.1 = .nan
      ∧ (tinyWalking.Calories.1).eqb (F64.zero false) = false := by
  decide

/-- C7 (amended): at zero duration every `meanSpeed` is `0` and
`Running.Calories` is `0`; `Walking.Calories` is `0` when the height is zero,
and for a non-zero height it is a zero exactly when the weight is finite and
`Height / 100` is neither NaN nor zero, and NaN otherwise; `Swimming.Calories`
is a zero exactly when `(0 + 1.1) * 2 * Weight` is finite, and NaN otherwise. -/
theorem zero_duration_spec (r : Running) (w : Walking) (s : Swimming)
    (hr : r.Duration = 0) (hw : w.Duration = 0) (hs : s.Duration = 0) :
    r.toTraining.meanSpeed.1 = F64.zero false
      ∧ w.toTraining.meanSpeed.1 = F64.zero false
      ∧ s.meanSpeed.1 = F64.zero false
      ∧ r.Calories.1 = F64.zero false
      ∧ (w.Height.isZero = true → w.Calories.1 = F64.zero false)
      ∧ (w.Height.isZero = false →
          (w.Calories.1).isZero
            = (w.Weight.isFinite && !(F64.div w.Height (F64.ofInt 100)).isNaN
                && !(F64.div w.Height (F64.ofInt 100)).isZero)
          ∧ ((w.Calories.1).isZero = false → w.Calories.1 = .nan))
      ∧ (s.Calories.1).isZero
          = (F64.mul (F64.mul (F64.add (F64.zero false) (F64.ofRat 11 10)) (F64.ofInt 2))
              s.Weight).isFinite
      ∧ ((s.Calories.1).isZero = false → s.Calories.1 = .nan) := by
  have hmr := genericSpeed_val r.toTraining
  have hmw := genericSpeed_val w.toTraining
  have hms := poolSpeed_val s
  rw [if_pos hr] at hmr
  rw [if_pos hw] at hmw
  rw [if_pos hs] at hms
  have hP : math.PowTwo (F64.mul (F64.zero false) (F64.ofRat 278 1000)) = F64.zero false := by
    decide
  have hwc : w.Height.isZero = false → w.Calories.1
      = F64.mul (F64.mul (F64.add (F64.mul (F64.ofRat 35 1000) w.Weight)
        (F64.mul (F64.mul (F64.div (F64.zero false) (F64.div w.Height (F64.ofInt 100)))
          (F64.ofRat 29 1000)) w.Weight)) (F64.zero false)) (F64.ofInt 60) := by
    intro hz
    unfold Walking.Calories fzero
    rw [F64.eqb_zero, hz]
    simp only [hmw, Bool.false_eq_true, if_false, KmHInMsec, hP, hw, Duration.Hours_zero,
      CaloriesWeightMultiplier, CaloriesSpeedHeightMultiplier, CmInM, MinInHours]
  have hsc : s.Calories.1 = F64.mul (F64.mul (F64.mul (F64.add (F64.zero false)
      (F64.ofRat 11 10)) (F64.ofInt 2)) s.Weight) (F64.zero false) := by
    unfold Swimming.Calories
    simp only [hms, hs, Duration.Hours_zero, SwimmingCaloriesMeanSpeedShift,
      SwimmingCaloriesWeightMultiplier]
  refine ⟨hmr, hmw, hms, ?_, ?_, ?_, ?_, ?_⟩
  · unfold Running.Calories fzero
    rw [F64.eqb_zero, Duration.Hours_isZero]
    simp [hr]
  · intro hz
    unfold Walking.Calories fzero
    rw [F64.eqb_zero, hz]
    simp
  · intro hz
    have hc := walking_collapse w.Weight (F64.div w.Height (F64.ofInt 100))
    rw [hwc hz]
    refine ⟨hc.1, ?_⟩
    intro hnz
    apply hc.2
    rw [← hc.1]
    exact hnz
  · rw [hsc]
    exact (swimming_collapse _).1
  · rw [hsc]
    intro hnz
    apply (swimming_collapse _).2
    rw [← (swimming_collapse _).1]
    exact hnz

/-- Witness for C7: the three sessions of `main` with their durations set to
zero have mean speed `0` and calories zero. -/
theorem zero_duration_spec_witness :
    zeroRunning.Duration = 0 ∧ zeroWalking.Duration = 0 ∧ zeroSwimming.Duration = 0
      ∧ zeroRunning.toTraining.meanSpeed.1 = F64.zero false
      ∧ zeroWalking.toTraining.meanSpeed.1 = F64.zero false
      ∧ zeroSwimming.meanSpeed.1 = F64.zero false
      ∧ zeroRunning.Calories.1 = F64.zero false
      ∧ (zeroWalking.Calories.1).isZero = true
      ∧ (zeroSwimming.Calories.1).isZero = true :=
  have h := zero_duration_spec zeroRunning zeroWalking zeroSwimming rfl rfl rfl
  ⟨rfl, rfl, rfl, h.1, h.2.1, h.2.2.1, h.2.2.2.1,
    (h.2.2.2.2.2.1 (by decide)).1.trans (by decide), h.2.2.2.2.2.2.1.trans (by decide)⟩

/-- C8: a walking session with zero height and positive duration has calories
`0`, while its mean speed is still `distance / Duration.Hours()`. -/
theorem Walking_zero_height_spec (w : Walking) (hH : w.Height.isZero = true)
    (hD : 0 < w.Duration) :
    w.Calories.1 = F64.zero false
      ∧ w.toTraining.meanSpeed.1
          = F64.div w.toTraining.distance (Duration.Hours w.Duration) := by
  have hne : w.Duration ≠ 0 := by
    intro h
    rw [h] at hD
    exact absurd hD (by decide)
  constructor
  · unfold Walking.Calories fzero
    rw [F64.eqb_zero, hH]
    simp
  · rw [genericSpeed_val, if_neg hne]

/-- Witness for C8: the walking session of `main` with its height set to zero. -/
theorem Walking_zero_height_spec_witness :
    heightlessWalking.Height.isZero = true ∧ 0 < heightlessWalking.Duration
      ∧ heightlessWalking.Calories.1 = F64.zero false
      ∧ heightlessWalking.toTraining.meanSpeed.1
          = F64.div heightlessWalking.toTraining.distance
              (Duration.Hours heightlessWalking.Duration) :=
  ⟨rfl, by decide, Walking_zero_height_spec heightlessWalking rfl (by decide)⟩

/-- C9: for each of the three kinds, `ReadData` returns the formatted text of
the report whose label and duration are copied from the session, whose
distance is `float64(Action) * LenStep / 1000`, whose speed is the kind's own
`meanSpeed` (generic for running and walking, pool-based for swimming) and
whose calories are the kind's own `Calories`; and those calories are computed
from that very speed value. -/
theorem ReadData_spec :
    (∀ r : Running,
      (ReadData (.running r)).1 = InfoMessage.String
          { TrainingType := r.TrainingType, Duration := r.Duration,
            Distance := F64.div (F64.mul (F64.ofInt r.Action) r.LenStep) (F64.ofInt 1000),
            Speed := r.toTraining.meanSpeed.1, Calories := r.Calories.1 }
        ∧ r.Calories.1 = (if r.Duration = 0 then F64.zero false
            else F64.mul (F64.mul (F64.div (F64.mul (F64.add (F64.mul (F64.ofInt 18)
              r.toTraining.meanSpeed.1) (F64.ofRat 179 100)) r.Weight) (F64.ofInt 1000))
              (Duration.Hours r.Duration)) (F64.ofInt 60)))
      ∧ (∀ w : Walking,
        (ReadData (.walking w)).1 = InfoMessage.String
            { TrainingType := w.TrainingType, Duration := w.Duration,
              Distance := F64.div (F64.mul (F64.ofInt w.Action) w.LenStep) (F64.ofInt 1000),
              Speed := w.toTraining.meanSpeed.1, Calories := w.Calories.1 }
          ∧ w.Calories.1 = (if w.Height.isZero then F64.zero false
              else F64.mul (F64.mul (F64.add (F64.mul (F64.ofRat 35 1000) w.Weight)
                (F64.mul (F64.mul (F64.div (math.PowTwo (F64.mul w.toTraining.meanSpeed.1
                  (F64.ofRat 278 1000))) (F64.div w.Height (F64.ofInt 100)))
                  (F64.ofRat 29 1000)) w.Weight)) (Duration.Hours w.Duration)) (F64.ofInt 60)))
      ∧ (∀ s : Swimming,
        (ReadData (.swimming s)).1 = InfoMessage.String
            { TrainingType := s.TrainingType, Duration := s.Duration,
              Distance := F64.div (F64.mul (F64.ofInt s.Action) s.LenStep) (F64.ofInt 1000),
              Speed := s.meanSpeed.1, Calories := s.Calories.1 }
          ∧ s.Calories.1 = F64.mul (F64.mul (F64.mul (F64.add s.meanSpeed.1
              (F64.ofRat 11 10)) (F64.ofInt 2)) s.Weight) (Duration.Hours s.Duration)) := by
  refine ⟨fun r => ⟨rfl, ?_⟩, fun w => ⟨rfl, ?_⟩, fun s => ⟨rfl, rfl⟩⟩
  · unfold Running.Calories fzero
    rw [F64.eqb_zero, Duration.Hours_isZero]
    by_cases h : r.Duration = 0 <;>
      simp [h, MInKm, MinInHours, CaloriesMeanSpeedMultiplier, CaloriesMeanSpeedShift]
  · unfold Walking.Calories fzero
    rw [F64.eqb_zero]
    by_cases h : w.Height.isZero = true <;>
      simp [h, MinInHours, CaloriesWeightMultiplier, CaloriesSpeedHeightMultiplier, KmHInMsec,
        CmInM]

/-- C10 (as stated, refuted): for the running session of `main` the report of
`TrainingInfo` carries calories `0`, while `Running.Calories` is `302.9145`. -/
theorem TrainingInfo_Calories_counterexample :
    (CaloriesCalculator.TrainingInfo (.running mainRunning)).1.Calories = F64.zero false
      ∧ mainRunning.Calories.1 = F64.ofRat 3029145 10000
      ∧ ((CaloriesCalculator.TrainingInfo (.running mainRunning)).1.Calories).eqb
          mainRunning.Calories.1 = false := by
  decide

/-- C10 (amended): for every running and walking session the generic
`TrainingInfo` returns the report with label and duration copied through,
`Distance = distance()`, `Speed = meanSpeed()` and `Calories = 0`, the value of
the base method `Training.Calories`; the calories of the activity enter the
report only when `ReadData` overwrites the field. -/
theorem TrainingInfo_spec (r : Running) (w : Walking) :
    (CaloriesCalculator.TrainingInfo (.running r)).1
        = { TrainingType := r.TrainingType, Duration := r.Duration,
            Distance := r.toTraining.distance, Speed := r.toTraining.meanSpeed.1,
            Calories := F64.zero false }
      ∧ (CaloriesCalculator.TrainingInfo (.walking w)).1
        = { TrainingType := w.TrainingType, Duration := w.Duration,
            Distance := w.toTraining.distance, Speed := w.toTraining.meanSpeed.1,
            Calories := F64.zero false }
      ∧ (ReadData (.running r)).1 = InfoMessage.String
          { (CaloriesCalculator.TrainingInfo (.running r)).1 with Calories := r.Calories.1 }
      ∧ (ReadData (.walking w)).1 = InfoMessage.String
          { (CaloriesCalculator.TrainingInfo (.walking w)).1 with Calories := w.Calories.1 } :=
  ⟨rfl, rfl, rfl, rfl⟩

/-- C11: `Swimming.TrainingInfo` returns the report with label and duration
copied from the session, the repetition-based distance
`float64(Action) * LenStep / 1000`, the pool-based `Swimming.meanSpeed` and
`Swimming.Calories`; the text of `ReadData` is the text of that report, the
overwrite of the calories changing nothing. -/
theorem Swimming_TrainingInfo_spec (s : Swimming) :
    s.TrainingInfo.1
        = { TrainingType := s.TrainingType, Duration := s.Duration,
            Distance := F64.div (F64.mul (F64.ofInt s.Action) s.LenStep) (F64.ofInt 1000),
            Speed := s.meanSpeed.1, Calories := s.Calories.1 }
      ∧ (ReadData (.swimming s)).1 = InfoMessage.String s.TrainingInfo.1 :=
  ⟨rfl, rfl⟩

/-- C13: with the prints collected in an output log, a session of zero
duration makes each of the generic `meanSpeed`, `Swimming.meanSpeed`,
`Running.Calories`, `Walking.Calories` and `Swimming.Calories` print at least
one notice, and a walking session of zero height and positive duration makes
`Walking.Calories` print at least one notice. -/
theorem notices_spec (t : Training) (r : Running) (w v : Walking) (s : Swimming)
    (ht : t.Duration = 0) (hr : r.Duration = 0) (hw : w.Duration = 0) (hs : s.Duration = 0)
    (hv : v.Height.isZero = true) (_hvd : 0 < v.Duration) :
    t.meanSpeed.2 ≠ [] ∧ s.meanSpeed.2 ≠ [] ∧ r.Calories.2 ≠ [] ∧ w.Calories.2 ≠ []
      ∧ s.Calories.2 ≠ [] ∧ v.Calories.2 ≠ [] := by
  have hT : ∀ u : Training, u.Duration = 0 → u.meanSpeed.2 = [divZeroNotice] := by
    intro u hu
    unfold Training.meanSpeed fzero
    rw [F64.eqb_zero, Duration.Hours_isZero]
    simp [hu]
  have hS : s.meanSpeed.2 = [swimNotice s.TrainingType] := by
    unfold Swimming.meanSpeed fzero
    rw [F64.eqb_zero, Duration.Hours_isZero]
    simp [hs]
  refine ⟨?_, ?_, ?_, ?_, ?_, ?_⟩
  · rw [hT t ht]; simp
  · rw [hS]; simp
  · unfold Running.Calories fzero
    rw [F64.eqb_zero, Duration.Hours_isZero]
    simp [hr]
  · unfold Walking.Calories
    have := hT w.toTraining hw
    by_cases hz : w.Height.eqb fzero = true <;> simp [hz, this]
  · unfold Swimming.Calories
    simp [hS]
  · unfold Walking.Calories fzero
    rw [F64.eqb_zero, hv]
    simp

/-- Witness for C13: the sessions of `main` with zero duration, and the
walking session with zero height. -/
theorem notices_spec_witness :
    zeroRunning.toTraining.Duration = 0 ∧ heightlessWalking.Height.isZero = true
      ∧ 0 < heightlessWalking.Duration
      ∧ zeroRunning.toTraining.meanSpeed.2 ≠ [] ∧ zeroSwimming.meanSpeed.2 ≠ []
      ∧ zeroRunning.Calories.2 ≠ [] ∧ zeroWalking.Calories.2 ≠ []
      ∧ zeroSwimming.Calories.2 ≠ [] ∧ heightlessWalking.Calories.2 ≠ [] :=
  ⟨rfl, rfl, by decide,
    notices_spec zeroRunning.toTraining zeroRunning zeroWalking heightlessWalking zeroSwimming
      rfl rfl rfl rfl rfl (by decide)⟩

/-- C14: two swimming sessions that agree on duration, weight and pool data
have the same `Swimming.meanSpeed` and `Swimming.Calories` values whatever
their `Action` and `LenStep`; two that agree on `Action` and `LenStep` have the
same `distance` whatever their pools. -/
theorem Swimming_independence (a b c e : Swimming)
    (hD : a.Duration = b.Duration) (hW : a.Weight = b.Weight)
    (hL : a.LengthPool = b.LengthPool) (hC : a.CountPool = b.CountPool)
    (hA : c.Action = e.Action) (hS : c.LenStep = e.LenStep) :
    a.meanSpeed.1 = b.meanSpeed.1 ∧ a.Calories.1 = b.Calories.1
      ∧ c.toTraining.distance = e.toTraining.distance := by
  have h1 : a.meanSpeed.1 = b.meanSpeed.1 := by
    rw [poolSpeed_val, poolSpeed_val, hD, hL, hC]
  refine ⟨h1, ?_, ?_⟩
  · unfold Swimming.Calories
    simp only [h1, hD, hW]
  · simp [Training.distance, hA, hS]

/-- Witness for C14: the swimming session of `main` against one with other
strokes and against one with another pool. -/
theorem Swimming_independence_witness :
    otherStrokes.Action ≠ mainSwimming.Action ∧ otherStrokes.LenStep ≠ mainSwimming.LenStep
      ∧ otherPool.LengthPool ≠ mainSwimming.LengthPool
      ∧ otherStrokes.meanSpeed.1 = mainSwimming.meanSpeed.1
      ∧ otherStrokes.Calories.1 = mainSwimming.Calories.1
      ∧ otherPool.toTraining.distance = mainSwimming.toTraining.distance :=
  ⟨by decide, by decide, by decide,
    Swimming_independence otherStrokes mainSwimming otherPool mainSwimming rfl rfl rfl rfl rfl rfl⟩

/-- C19: with the prints collected in an output log, `ReadData` prints nothing
exactly for the sessions that are not degenerate: duration other than zero
and, for a walking session, height other than zero. -/
theorem ReadData_silent_iff :
    (∀ r : Running, (ReadData (.running r)).2 = [] ↔ r.Duration ≠ 0)
      ∧ (∀ w : Walking, (ReadData (.walking w)).2 = []
          ↔ (w.Duration ≠ 0 ∧ w.Height.eqb (F64.zero false) = false))
      ∧ (∀ s : Swimming, (ReadData (.swimming s)).2 = [] ↔ s.Duration ≠ 0) := by
  have hT : ∀ u : Training, u.meanSpeed.2 = if u.Duration = 0 then [divZeroNotice] else [] := by
    intro u
    unfold Training.meanSpeed fzero
    rw [F64.eqb_zero, Duration.Hours_isZero]
    by_cases h : u.Duration = 0 <;> simp [h]
  have hS : ∀ s : Swimming,
      s.meanSpeed.2 = if s.Duration = 0 then [swimNotice s.TrainingType] else [] := by
    intro s
    unfold Swimming.meanSpeed fzero
    rw [F64.eqb_zero, Duration.Hours_isZero]
    by_cases h : s.Duration = 0 <;> simp [h]
  refine ⟨fun r => ?_, fun w => ?_, fun s => ?_⟩
  · have hc : r.Calories.2 = if r.Duration = 0 then [divZeroNotice] else [] := by
      unfold Running.Calories fzero
      rw [F64.eqb_zero, Duration.Hours_isZero]
      by_cases h : r.Duration = 0 <;> simp [h, hT]
    simp only [ReadData, CaloriesCalculator.TrainingInfo, CaloriesCalculator.Calories,
      Training.TrainingInfo, hT, hc]
    by_cases h : r.Duration = 0 <;> simp [h]
  · have hc : w.Calories.2 = (if w.Duration = 0 then [divZeroNotice] else [])
        ++ (if w.Height.eqb (F64.zero false) = true then [divZeroNotice] else []) := by
      unfold Walking.Calories fzero
      by_cases hz : w.Height.eqb (F64.zero false) = true <;> simp [hz, hT]
    simp only [ReadData, CaloriesCalculator.TrainingInfo, CaloriesCalculator.Calories,
      Training.TrainingInfo, hT, hc]
    by_cases h : w.Duration = 0 <;>
      by_cases hz : w.Height.eqb (F64.zero false) = true <;> simp [h, hz]
  · have hc : s.Calories.2 = s.meanSpeed.2 := rfl
    simp only [ReadData, CaloriesCalculator.TrainingInfo, CaloriesCalculator.Calories,
      Swimming.TrainingInfo, hc, hS]
    by_cases h : s.Duration = 0 <;> simp [h]

/-- C12 (the code at a failing input): the constant divisors and the hour count
of a non-zero duration are never zero, but the guard `Height == 0` does not
keep the divisor `Height / 100` away from zero: for the walking session of
`main` with the height `5e-324` the guard does not fire, `Height / 100`
underflows to zero, and `Walking.Calories` divides by it, returning `+Inf`
without printing a notice. -/
theorem height_guard_underflow :
    (∀ d : Int, d ≠ 0 → (Duration.Hours d).isZero = false)
      ∧ MInKm.isZero = false ∧ CmInM.isZero = false
      ∧ shortWalking.Height.eqb fzero = false
      ∧ shortWalking.Duration ≠ 0
      ∧ (F64.div shortWalking.Height CmInM).isZero = true
      ∧ shortWalking.Calories = (.inf false, []) := by
  refine ⟨?_, by decide, by decide, by decide, by decide, by decide, by decide⟩
  intro d hd
  rw [Duration.Hours_isZero]
  simp [hd]

/-- C15 (as stated, refuted): for the walking session of `main` the speed in
metres per second is `0.9637` to four decimals, not `0.9644`, and
`Walking.Calories` is `947.82` to two decimals while the expression
`(0.035*85+(0.9644^2/1.85)*0.029*85)*3.75*60` is `948.21`. -/
theorem scenario2_counterexample :
    fmt.fixed 4 (F64.mul mainWalking.toTraining.meanSpeed.1 KmHInMsec) = "0.9637"
      ∧ fmt.fixed 2 mainWalking.Calories.1 = "947.82"
      ∧ fmt.fixed 2 (F64.mul (F64.mul (F64.add (F64.mul (F64.ofRat 35 1000) (F64.ofInt 85))
          (F64.mul (F64.mul (F64.div (math.PowTwo (F64.ofRat 9644 10000)) (F64.ofRat 185 100))
            (F64.ofRat 29 1000)) (F64.ofInt 85))) (F64.ofRat 375 100)) (F64.ofInt 60))
          = "948.21" := by
  decide

/-- C15 (amended): for the walking session of `main` (20000 steps of 0.65 m in
3 h 45 min, 85 kg, 185 cm) `distance` is `13.0`, `meanSpeed` is the `float64`
nearest to `13/3.75`, `3.4667` to four decimals, the speed in metres per
second `meanSpeed * 0.278` is `0.9637` to four decimals, and `Walking.Calories`
is `(0.035*85+((meanSpeed*0.278)^2/1.85)*0.029*85)*3.75*60` with that speed
unrounded, `947.82` to two decimals. -/
theorem scenario2_spec :
    mainWalking.toTraining.distance = F64.ofInt 13
      ∧ Duration.Hours mainWalking.Duration = F64.ofRat 375 100
      ∧ mainWalking.toTraining.meanSpeed.1 = F64.ofRat 1300 375
      ∧ fmt.fixed 4 mainWalking.toTraining.meanSpeed.1 = "3.4667"
      ∧ fmt.fixed 4 (F64.mul mainWalking.toTraining.meanSpeed.1 KmHInMsec) = "0.9637"
      ∧ mainWalking.Calories.1
          = F64.mul (F64.mul (F64.add (F64.mul (F64.ofRat 35 1000) (F64.ofInt 85))
              (F64.mul (F64.mul (F64.div (math.PowTwo (F64.mul (F64.ofRat 1300 375)
                (F64.ofRat 278 1000))) (F64.ofRat 185 100)) (F64.ofRat 29 1000)) (F64.ofInt 85)))
              (F64.ofRat 375 100)) (F64.ofInt 60)
      ∧ fmt.fixed 2 mainWalking.Calories.1 = "947.82" := by
  decide

/-- C16 (as stated, refuted): the label is printed verbatim, so a report whose
label contains a line break is printed on six lines, not five. -/
theorem String_lines_counterexample :
    '\n' ∈ twoLineReport.TrainingType.data
      ∧ (InfoMessage.String twoLineReport).data.count '\n' = 6 := by
  decide

/-- C16 (amended): for every report whose label contains no line break,
`String` yields exactly five newline-terminated lines in this order: the
activity-type line with the label verbatim, the duration line with the raw
`float64` minutes (`%v`), the distance line with two decimals followed by the
km unit and a full stop, the average-speed line with two decimals and the
calories line with two decimals; every field is printed once and nothing else
of the report is printed. -/
theorem String_spec (i : InfoMessage) (h : '\n' ∉ i.TrainingType.data) :
    InfoMessage.String i
        = ("Тип тренировки: " ++ i.TrainingType) ++ "\n"
          ++ (("Длительность: " ++ fmt.general (Duration.Minutes i.Duration) ++ " мин") ++ "\n"
          ++ (("Дистанция: " ++ fmt.fixed 2 i.Distance ++ " км.") ++ "\n"
          ++ (("Ср. скорость: " ++ fmt.fixed 2 i.Speed ++ " км/ч") ++ "\n"
          ++ (("Потрачено ккал: " ++ fmt.fixed 2 i.Calories) ++ "\n"))))
      ∧ '\n' ∉ ("Тип тренировки: " ++ i.TrainingType).data
      ∧ '\n' ∉ ("Длительность: " ++ fmt.general (Duration.Minutes i.Duration) ++ " мин").data
      ∧ '\n' ∉ ("Дистанция: " ++ fmt.fixed 2 i.Distance ++ " км.").data
      ∧ '\n' ∉ ("Ср. скорость: " ++ fmt.fixed 2 i.Speed ++ " км/ч").data
      ∧ '\n' ∉ ("Потрачено ккал: " ++ fmt.fixed 2 i.Calories).data
      ∧ (InfoMessage.String i).data.count '\n' = 5 := by
  have e2 : ∀ r : String, "\nДлительность: " ++ r = "\n" ++ ("Длительность: " ++ r) :=
    fun r => by rw [← String.append_assoc]; rfl
  have e3 : ∀ r : String, " мин\nДистанция: " ++ r = " мин" ++ ("\n" ++ ("Дистанция: " ++ r)) :=
    fun r => by rw [← String.append_assoc, ← String.append_assoc]; rfl
  have e4 : ∀ r : String,
      " км.\nСр. скорость: " ++ r = " км." ++ ("\n" ++ ("Ср. скорость: " ++ r)) :=
    fun r => by rw [← String.append_assoc, ← String.append_assoc]; rfl
  have e5 : ∀ r : String,
      " км/ч\nПотрачено ккал: " ++ r = " км/ч" ++ ("\n" ++ ("Потрачено ккал: " ++ r)) :=
    fun r => by rw [← String.append_assoc, ← String.append_assoc]; rfl
  have heq : InfoMessage.String i
        = ("Тип тренировки: " ++ i.TrainingType) ++ "\n"
          ++ (("Длительность: " ++ fmt.general (Duration.Minutes i.Duration) ++ " мин") ++ "\n"
          ++ (("Дистанция: " ++ fmt.fixed 2 i.Distance ++ " км.") ++ "\n"
          ++ (("Ср. скорость: " ++ fmt.fixed 2 i.Speed ++ " км/ч") ++ "\n"
          ++ (("Потрачено ккал: " ++ fmt.fixed 2 i.Calories) ++ "\n")))) := by
    unfold InfoMessage.String
    simp only [String.append_assoc, e2, e3, e4, e5]
  have hg := general_oneLine (Duration.Minutes i.Duration)
  have h1 := fixed_oneLine 2 i.Distance
  have h2 := fixed_oneLine 2 i.Speed
  have h3 := fixed_oneLine 2 i.Calories
  have n1 : '\n' ∉ ("Тип тренировки: " ++ i.TrainingType).data := by
    rw [String.data_append]
    intro hm
    rcases List.mem_append.mp hm with a | a
    · exact absurd a (by decide)
    · exact h a
  have n2 : '\n' ∉
      ("Длительность: " ++ fmt.general (Duration.Minutes i.Duration) ++ " мин").data := by
    rw [String.data_append, String.data_append]
    intro hm
    rcases List.mem_append.mp hm with a | a
    · rcases List.mem_append.mp a with b | b
      · exact absurd b (by decide)
      · exact hg b
    · exact absurd a (by decide)
  have n3 : '\n' ∉ ("Дистанция: " ++ fmt.fixed 2 i.Distance ++ " км.").data := by
    rw [String.data_append, String.data_append]
    intro hm
    rcases List.mem_append.mp hm with a | a
    · rcases List.mem_append.mp a with b | b
      · exact absurd b (by decide)
      · exact h1 b
    · exact absurd a (by decide)
  have n4 : '\n' ∉ ("Ср. скорость: " ++ fmt.fixed 2 i.Speed ++ " км/ч").data := by
    rw [String.data_append, String.data_append]
    intro hm
    rcases List.mem_append.mp hm with a | a
    · rcases List.mem_append.mp a with b | b
      · exact absurd b (by decide)
      · exact h2 b
    · exact absurd a (by decide)
  have n5 : '\n' ∉ ("Потрачено ккал: " ++ fmt.fixed 2 i.Calories).data := by
    rw [String.data_append]
    intro hm
    rcases List.mem_append.mp hm with a | a
    · exact absurd a (by decide)
    · exact h3 a
  refine ⟨heq, n1, n2, n3, n4, n5, ?_⟩
  have hnl : ("\n" : String).data.count '\n' = 1 := by decide
  rw [heq]
  simp only [String.data_append, List.count_append, hnl,
    List.count_eq_zero_of_not_mem h, List.count_eq_zero_of_not_mem hg,
    List.count_eq_zero_of_not_mem h1, List.count_eq_zero_of_not_mem h2,
    List.count_eq_zero_of_not_mem h3]
  decide

/-- Witness for C16: the report of the running session of `main`. -/
theorem String_spec_witness :
    '\n' ∉ (mainRunning.toTraining.TrainingInfo.1).TrainingType.data
      ∧ (InfoMessage.String mainRunning.toTraining.TrainingInfo.1).data.count '\n' = 5 :=
  ⟨by decide, (String_spec mainRunning.toTraining.TrainingInfo.1 (by decide)).2.2.2.2.2.2⟩

/-- C17 (as stated, refuted): the zero-duration swimming session with the
weight `1e308` is valid input (every field is at least zero, the pool product
is 2000), and the calories of the report that `ReadData` formats are NaN, which
is not `>= 0`; the text shows them as `NaN`. -/
theorem nonneg_counterexample :
    validInput (.swimming heavySwimming) = true
      ∧ (ReadData (.swimming heavySwimming)).1
          = InfoMessage.String (ReadData.info (.swimming heavySwimming))
      ∧ (ReadData.info (.swimming heavySwimming)).Distance = F64.ofRat 276 100
      ∧ (ReadData.info (.swimming heavySwimming)).Speed = F64.zero false
      ∧ (ReadData.info (.swimming heavySwimming)).Calories = F64.nan
      ∧ (F64.zero false).leb (ReadData.info (.swimming heavySwimming)).Calories = false
      ∧ (ReadData (.swimming heavySwimming)).1
          = "Тип тренировки: Плавание\nДлительность: 0 мин\nДистанция: 2.76 км.\nСр. скорость: 0.00 км/ч\nПотрачено ккал: NaN\n" := by
  decide

/-- C17 (amended): `ReadData` returns the text of the report `ReadData.info`,
and for valid input the `Distance`, `Speed` and `Calories` fields of that
report are never negative: each of them is `>= 0` or NaN. -/
theorem nonneg_spec (x : CaloriesCalculator) (hx : validInput x = true) :
    (ReadData x).1 = InfoMessage.String (ReadData.info x)
      ∧ ((ReadData.info x).Distance.isNaN = true
          ∨ (F64.zero false).leb (ReadData.info x).Distance = true)
      ∧ ((ReadData.info x).Speed.isNaN = true
          ∨ (F64.zero false).leb (ReadData.info x).Speed = true)
      ∧ ((ReadData.info x).Calories.isNaN = true
          ∨ (F64.zero false).leb (ReadData.info x).Calories = true) := by
  have nn : ∀ y : F64, (F64.zero false).leb y = true → y.nonNeg :=
    fun y h => (F64.nonNeg_iff y).mpr (Or.inr h)
  have sc : ∀ y : F64, y.signClear → y.nonNeg := F64.signClear_nonNeg
  have hz : (F64.zero false).nonNeg := Or.inl rfl
  have hdist : ∀ t : Training, 0 ≤ t.Action → (F64.zero false).leb t.LenStep = true →
      t.distance.nonNeg := by
    intro t hA hL
    unfold Training.distance MInKm
    exact F64.div_nonNeg _ _ (F64.mul_nonNeg _ _ (sc _ (F64.ofInt_signClear _ hA)) (nn _ hL))
      (F64.ofInt_signClear _ (by decide))
  have hspeed : ∀ t : Training, 0 ≤ t.Action → (F64.zero false).leb t.LenStep = true →
      (0 : Int) ≤ t.Duration → t.meanSpeed.1.nonNeg := by
    intro t hA hL hD
    rw [genericSpeed_val]
    split_ifs
    · exact hz
    · exact F64.div_nonNeg _ _ (hdist t hA hL) (Duration.Hours_signClear _ hD)
  cases x with
  | running r =>
    simp only [validInput, Bool.and_eq_true, decide_eq_true_eq] at hx
    obtain ⟨⟨⟨hA, hL⟩, hW⟩, hD⟩ := hx
    refine ⟨rfl, (F64.nonNeg_iff _).mp (hdist _ hA hL),
      (F64.nonNeg_iff _).mp (hspeed _ hA hL hD), (F64.nonNeg_iff _).mp ?_⟩
    show r.Calories.1.nonNeg
    unfold Running.Calories
    split_ifs
    · exact hz
    · unfold CaloriesMeanSpeedMultiplier CaloriesMeanSpeedShift MInKm MinInHours
      exact F64.mul_nonNeg _ _ (F64.mul_nonNeg _ _ (F64.div_nonNeg _ _ (F64.mul_nonNeg _ _
        (F64.add_nonNeg _ _ (F64.mul_nonNeg _ _ (sc _ (F64.ofInt_signClear _ (by decide)))
          (hspeed _ hA hL hD)) (sc _ (F64.ofRat_signClear _ _))) (nn _ hW))
        (F64.ofInt_signClear _ (by decide))) (sc _ (Duration.Hours_signClear _ hD)))
        (sc _ (F64.ofInt_signClear _ (by decide)))
  | walking w =>
    simp only [validInput, Bool.and_eq_true, decide_eq_true_eq] at hx
    obtain ⟨⟨⟨⟨hA, hL⟩, hW⟩, hD⟩, hH⟩ := hx
    refine ⟨rfl, (F64.nonNeg_iff _).mp (hdist _ hA hL),
      (F64.nonNeg_iff _).mp (hspeed _ hA hL hD), (F64.nonNeg_iff _).mp ?_⟩
    show w.Calories.1.nonNeg
    unfold Walking.Calories
    by_cases hg : w.Height.eqb fzero = true
    · simp only [hg, if_true]
      exact hz
    · simp only [hg, if_false]
      have hHz : w.Height.isZero = false := by
        unfold fzero at hg
        rw [F64.eqb_zero] at hg
        simpa using hg
      unfold CaloriesWeightMultiplier CaloriesSpeedHeightMultiplier CmInM MinInHours
      exact F64.mul_nonNeg _ _ (F64.mul_nonNeg _ _ (F64.add_nonNeg _ _
        (F64.mul_nonNeg _ _ (sc _ (F64.ofRat_signClear _ _)) (nn _ hW))
        (F64.mul_nonNeg _ _ (F64.mul_nonNeg _ _ (F64.div_nonNeg _ _
          (sc _ (math.PowTwo_signClear _))
          (F64.div_signClear _ _ (F64.signClear_of_pos _ hH hHz)
            (F64.ofInt_signClear _ (by decide))))
          (sc _ (F64.ofRat_signClear _ _))) (nn _ hW)))
        (sc _ (Duration.Hours_signClear _ hD))) (sc _ (F64.ofInt_signClear _ (by decide)))
  | swimming s =>
    simp only [validInput, Bool.and_eq_true, decide_eq_true_eq] at hx
    obtain ⟨⟨⟨⟨⟨⟨hA, hL⟩, hW⟩, hD⟩, hLP⟩, hCP⟩, hP⟩ := hx
    have hprod : 0 ≤ wrapInt64 (s.LengthPool * s.CountPool) := by
      have h0 : 0 ≤ s.LengthPool * s.CountPool := Int.mul_nonneg hLP hCP
      unfold wrapInt64
      norm_num at hP ⊢
      omega
    have hsp : s.meanSpeed.1.nonNeg := by
      rw [poolSpeed_val]
      split_ifs
      · exact hz
      · exact F64.div_nonNeg _ _ (F64.div_nonNeg _ _ (sc _ (F64.ofInt_signClear _ hprod))
          (F64.ofInt_signClear _ (by decide))) (Duration.Hours_signClear _ hD)
    refine ⟨rfl, (F64.nonNeg_iff _).mp (hdist _ hA hL), (F64.nonNeg_iff _).mp hsp,
      (F64.nonNeg_iff _).mp ?_⟩
    show s.Calories.1.nonNeg
    unfold Swimming.Calories SwimmingCaloriesMeanSpeedShift SwimmingCaloriesWeightMultiplier
    exact F64.mul_nonNeg _ _ (F64.mul_nonNeg _ _ (F64.mul_nonNeg _ _ (F64.add_nonNeg _ _ hsp
      (sc _ (F64.ofRat_signClear _ _))) (sc _ (F64.ofInt_signClear _ (by decide)))) (nn _ hW))
      (sc _ (Duration.Hours_signClear _ hD))

/-- Witness for C17: the walking session of `main` is valid input. -/
theorem nonneg_spec_witness :
    validInput (.walking mainWalking) = true
      ∧ (ReadData (.walking mainWalking)).1
          = InfoMessage.String (ReadData.info (.walking mainWalking))
      ∧ ((ReadData.info (.walking mainWalking)).Distance.isNaN = true
          ∨ (F64.zero false).leb (ReadData.info (.walking mainWalking)).Distance = true)
      ∧ ((ReadData.info (.walking mainWalking)).Speed.isNaN = true
          ∨ (F64.zero false).leb (ReadData.info (.walking mainWalking)).Speed = true)
      ∧ ((ReadData.info (.walking mainWalking)).Calories.isNaN = true
          ∨ (F64.zero false).leb (ReadData.info (.walking mainWalking)).Calories = true) :=
  ⟨by decide, nonneg_spec (.walking mainWalking) (by decide)⟩

/-- C18: for a swimming session whose pool length, crossing count and non-zero
duration are 64-bit values, `Swimming.meanSpeed` is
`float64(wrap(LengthPool * CountPool)) / 1000 / Duration.Hours()`, the product
wrapped to signed 64 bits, and it equals the same formula over the mathematical
product `float64(LengthPool * CountPool) / 1000 / Duration.Hours()` if and only
if that product lies in `[-2 ^ 63, 2 ^ 63 - 1]`. -/
theorem Swimming_meanSpeed_wrap (s : Swimming) (hd : s.Duration ≠ 0)
    (hd1 : -2 ^ 63 ≤ s.Duration) (hd2 : s.Duration < 2 ^ 63)
    (hl1 : -2 ^ 63 ≤ s.LengthPool) (hl2 : s.LengthPool < 2 ^ 63)
    (hc1 : -2 ^ 63 ≤ s.CountPool) (hc2 : s.CountPool < 2 ^ 63) :
    s.meanSpeed.1 = F64.div (F64.div (F64.ofInt (wrapInt64 (s.LengthPool * s.CountPool)))
        (F64.ofInt 1000)) (Duration.Hours s.Duration)
      ∧ (s.meanSpeed.1 = F64.div (F64.div (F64.ofInt (s.LengthPool * s.CountPool))
          (F64.ofInt 1000)) (Duration.Hours s.Duration)
        ↔ -2 ^ 63 ≤ s.LengthPool * s.CountPool ∧ s.LengthPool * s.CountPool < 2 ^ 63) := by
  have hv : s.meanSpeed.1 = F64.div (F64.div (F64.ofInt (wrapInt64 (s.LengthPool * s.CountPool)))
      (F64.ofInt 1000)) (Duration.Hours s.Duration) := by
    rw [poolSpeed_val, if_neg hd]
  refine ⟨hv, ?_⟩
  rw [hv]
  constructor
  · intro heq
    by_contra hout
    have hp : (s.LengthPool * s.CountPool).natAbs ≤ 2 ^ 126 := by
      rw [Int.natAbs_mul]
      have a1 : s.LengthPool.natAbs ≤ 2 ^ 63 := by omega
      have a2 : s.CountPool.natAbs ≤ 2 ^ 63 := by omega
      calc s.LengthPool.natAbs * s.CountPool.natAbs ≤ 2 ^ 63 * 2 ^ 63 := Nat.mul_le_mul a1 a2
        _ = 2 ^ 126 := by decide
    exact poolSpeed_wrap_ne _ s.Duration hd hd1 hd2 hp hout heq
  · intro hin
    have hw : wrapInt64 (s.LengthPool * s.CountPool) = s.LengthPool * s.CountPool := by
      generalize s.LengthPool * s.CountPool = p at hin
      unfold wrapInt64
      omega
    rw [hw]

/-- Witness for C18: a pool of `2 ^ 32` m crossed `2 ^ 32` times; the machine
product wraps to `0` and the speed is `0`, not the speed of `2 ^ 64` m in
ninety minutes. -/
theorem Swimming_meanSpeed_wrap_witness :
    wrapInt64 (longPool.LengthPool * longPool.CountPool) = 0
      ∧ longPool.meanSpeed.1 = F64.zero false
      ∧ ¬ (longPool.LengthPool * longPool.CountPool < 2 ^ 63)
      ∧ (longPool.meanSpeed.1 = F64.div (F64.div (F64.ofInt (wrapInt64
          (longPool.LengthPool * longPool.CountPool))) (F64.ofInt 1000))
          (Duration.Hours longPool.Duration)
        ∧ (longPool.meanSpeed.1 = F64.div (F64.div (F64.ofInt
            (longPool.LengthPool * longPool.CountPool)) (F64.ofInt 1000))
            (Duration.Hours longPool.Duration)
          ↔ -2 ^ 63 ≤ longPool.LengthPool * longPool.CountPool
            ∧ longPool.LengthPool * longPool.CountPool < 2 ^ 63)) :=
  ⟨by decide, by decide, by decide,
    Swimming_meanSpeed_wrap longPool (by decide) (by decide) (by decide) (by decide) (by decide)
      (by decide) (by decide)⟩

/-- C20: the reports of `Running` and `Walking` are the `Training.TrainingInfo`
of the embedded session.  For a non-zero duration, the formulas of `distance`,
`meanSpeed` and `Duration.Hours` evaluated in exact arithmetic satisfy
speed times hours = distance, the hours being the nanoseconds over `3.6e12`;
the formula of `Swimming.meanSpeed` satisfies speed times hours =
`LengthPool * CountPool / 1000` (the machine product), in which the fields of
the distance do not occur.  The `float64` report carries the same formulas
with every operation rounded: its speed is the `float64` quotient of its
distance by `Duration.Hours()`, so that, where speed and hours are finite,
speed times hours is within half a unit in the last place of the speed, times
the hours, of the distance; for swimming the same holds with
`float64(LengthPool * CountPool) / 1000` in place of the distance.  The exact
value of a `float64` is its count of units of `2 ^ (-1074)`. -/
theorem report_consistency (t : Training) (s : Swimming)
    (ht : t.Duration ≠ 0) (hs : s.Duration ≠ 0) :
    (∀ r : Running, (CaloriesCalculator.running r).TrainingInfo = r.toTraining.TrainingInfo)
      ∧ (∀ w : Walking, (CaloriesCalculator.walking w).TrainingInfo = w.toTraining.TrainingInfo)
      ∧ t.Duration.HoursExact = (t.Duration : ℚ) / 3600000000000
      ∧ t.meanSpeedExact * t.Duration.HoursExact = t.distanceExact
      ∧ s.meanSpeedExact * s.Duration.HoursExact
          = (wrapInt64 (s.LengthPool * s.CountPool) : ℚ) / 1000
      ∧ t.TrainingInfo.1.Distance
          = F64.div (F64.mul (F64.ofInt t.Action) t.LenStep) (F64.ofInt 1000)
      ∧ t.TrainingInfo.1.Speed
          = F64.div t.TrainingInfo.1.Distance (Duration.Hours t.TrainingInfo.1.Duration)
      ∧ (t.TrainingInfo.1.Speed.isFinite = false
          ∨ (Duration.Hours t.TrainingInfo.1.Duration).isFinite = false
          ∨ 2 * |t.TrainingInfo.1.Speed.units * (Duration.Hours t.TrainingInfo.1.Duration).units
                - t.TrainingInfo.1.Distance.units * ((2 ^ 1074 : Nat) : Int)|
              ≤ (t.TrainingInfo.1.Speed.ulpUnits : Int)
                * |(Duration.Hours t.TrainingInfo.1.Duration).units|)
      ∧ (CaloriesCalculator.swimming s).TrainingInfo.1.Distance = s.toTraining.distance
      ∧ (CaloriesCalculator.swimming s).TrainingInfo.1.Speed
          = F64.div (F64.div (F64.ofInt (wrapInt64 (s.LengthPool * s.CountPool))) (F64.ofInt 1000))
              (Duration.Hours s.TrainingInfo.1.Duration)
      ∧ ((CaloriesCalculator.swimming s).TrainingInfo.1.Speed.isFinite = false
          ∨ (Duration.Hours s.TrainingInfo.1.Duration).isFinite = false
          ∨ 2 * |(CaloriesCalculator.swimming s).TrainingInfo.1.Speed.units
                  * (Duration.Hours s.TrainingInfo.1.Duration).units
                - (F64.div (F64.ofInt (wrapInt64 (s.LengthPool * s.CountPool)))
                    (F64.ofInt 1000)).units * ((2 ^ 1074 : Nat) : Int)|
              ≤ ((CaloriesCalculator.swimming s).TrainingInfo.1.Speed.ulpUnits : Int)
                * |(Duration.Hours s.TrainingInfo.1.Duration).units|)
      ∧ t.distanceExact = (t.Action : ℚ) * t.LenStep.toRat / 1000
      ∧ t.meanSpeedExact = t.distanceExact / t.Duration.HoursExact
      ∧ s.meanSpeedExact
          = (wrapInt64 (s.LengthPool * s.CountPool) : ℚ) / 1000 / s.Duration.HoursExact
      ∧ (∀ x : F64, x.toRat * 2 ^ 1074 = (x.units : ℚ)) := by
  have hqt := Duration.HoursExact_ne_zero t.Duration ht
  have hqs := Duration.HoursExact_ne_zero s.Duration hs
  have hzt : (Duration.Hours t.Duration).isZero = false := by
    rw [Duration.Hours_isZero]; simp [ht]
  have hzs : (Duration.Hours s.Duration).isZero = false := by
    rw [Duration.Hours_isZero]; simp [hs]
  have et : t.TrainingInfo.1.Speed = F64.div t.distance (Duration.Hours t.Duration) := by
    show t.meanSpeed.1 = _
    rw [genericSpeed_val, if_neg ht]
  have es : s.TrainingInfo.1.Speed = F64.div (F64.div (F64.ofInt (wrapInt64
      (s.LengthPool * s.CountPool))) (F64.ofInt 1000)) (Duration.Hours s.Duration) := by
    show s.meanSpeed.1 = _
    rw [poolSpeed_val, if_neg hs]
  refine ⟨fun _ => rfl, fun _ => rfl, Duration.HoursExact_eq _, ?_, ?_, rfl, et, ?_, rfl, es, ?_,
    rfl, ?_, ?_, F64.toRat_units⟩
  rotate_left 4
  · unfold Training.meanSpeedExact
    rw [if_neg hqt]
  · unfold Swimming.meanSpeedExact
    rw [if_neg hqs]
  · unfold Training.meanSpeedExact
    rw [if_neg hqt, div_mul_cancel₀ _ hqt]
  · unfold Swimming.meanSpeedExact
    rw [if_neg hqs, div_mul_cancel₀ _ hqs]
  · by_cases hf : t.TrainingInfo.1.Speed.isFinite = true
    · by_cases hh : (Duration.Hours t.TrainingInfo.1.Duration).isFinite = true
      · right; right
        rw [et] at hf ⊢
        exact F64.div_near_units _ _ hh hzt hf
      · right; left
        simpa using hh
    · left
      simpa using hf
  · by_cases hf : s.TrainingInfo.1.Speed.isFinite = true
    · by_cases hh : (Duration.Hours s.TrainingInfo.1.Duration).isFinite = true
      · right; right
        show 2 * |s.TrainingInfo.1.Speed.units * _ - _| ≤ (s.TrainingInfo.1.Speed.ulpUnits : Int) * _
        rw [es] at hf ⊢
        exact F64.div_near_units _ _ hh hzs hf
      · right; left
        simpa using hh
    · left
      simpa using hf

/-- Witness for C20: the walking and the swimming session of `main`; the pool
of the swimming session is 2 km long in all, its strokes cover 2.76 km. -/
theorem report_consistency_witness :
    mainWalking.Duration ≠ 0 ∧ mainSwimming.Duration ≠ 0
      ∧ wrapInt64 (mainSwimming.LengthPool * mainSwimming.CountPool) = 2000
      ∧ mainSwimming.TrainingInfo.1.Distance = F64.ofRat 276 100
      ∧ mainWalking.toTraining.meanSpeedExact * mainWalking.Duration.HoursExact
          = mainWalking.toTraining.distanceExact
      ∧ mainSwimming.meanSpeedExact * mainSwimming.Duration.HoursExact
          = (wrapInt64 (mainSwimming.LengthPool * mainSwimming.CountPool) : ℚ) / 1000 :=
  ⟨by decide, by decide, by decide, by decide,
    (report_consistency mainWalking.toTraining mainSwimming (by decide) (by decide)).2.2.2.1,
    (report_consistency mainWalking.toTraining mainSwimming (by decide) (by decide)).2.2.2.2.1⟩
